import Mathlib

/-!
# Verification of the cs_tools syncer core and CLI utilities

This file is a shallow embedding, in Lean 4, of the parts of the `cs_tools`
repository that its specification makes testable claims about:

* the CSV syncer (`cs_tools/sync/csv/syncer.py`): configuration validation,
  the `csv.DictWriter` dialect (`doublequote = False`, a configured
  escape character, CRLF line terminator), `dump` with APPEND/OVERWRITE save
  strategies and per-instance header tracking, and `load` through the
  `csv.DictReader` parsing state machine;
* the JSON syncer (`cs_tools/sync/json/syncer.py`): `json.dumps` /
  `json.loads` serialization and whole-file overwrite semantics;
* the row-batch utility `chunks` and the `State` attribute bag
  (`cs_tools/utils.py`);
* the git-configuration CLI commands (`cs_tools/cli/tools/git/config.py`).

Python scalars are embedded as an inductive `Value`; machine-level text is
`String`/`List Char`; the filesystem is an association list from file name to
file content; fallible Python code returns `Except PyError`.
-/

set_option maxRecDepth 10000

/-- Exceptions raised by the embedded Python code paths. -/
inductive PyError where
  /-- `ValueError`, e.g. from the pydantic field validators or `chunks`. -/
  | valueError (msg : String)
  /-- `TypeError`, e.g. from the csv dialect check or `json.dumps` on a datetime. -/
  | typeError (msg : String)
  /-- `AttributeError`, raised by `State.__getattr__` on a missing key. -/
  | attributeError (msg : String)
  /-- `FileNotFoundError`, raised by `Path.read_text` on a missing file. -/
  | fileNotFoundError
  /-- `_csv.Error`, raised by the csv reader. -/
  | csvError (msg : String)
  /-- `UnboundLocalError`, raised on use of a never-assigned local variable. -/
  | unboundLocalError
  /-- `json.JSONDecodeError`, raised by `json.loads` on malformed input. -/
  | jsonDecodeError
  /-- `httpx.HTTPStatusError`, raised by the API client on an HTTP failure. -/
  | httpStatusError
deriving DecidableEq, Repr

/-- Python `datetime.datetime` restricted to whole seconds, which is all the
syncer round-trip claims exercise.  Python bounds years to 1..9999. -/
structure DateTime where
  year : Nat
  month : Nat
  day : Nat
  hour : Nat
  minute : Nat
  second : Nat
deriving DecidableEq, Repr

/-- The universe of Python values the syncers move around: the scalar types
named by the data model (text, number, boolean, date/time, null) plus lists
and string-keyed dicts, which appear as JSON documents and as the rest-values
produced by `csv.DictReader`. -/
inductive Value where
  | str (s : String)
  | int (n : Int)
  | bool (b : Bool)
  | none
  | datetime (d : DateTime)
  | list (vs : List Value)
  | dict (kvs : List (String × Value))

/-- One table record as handed to `dump`: a mapping from column name to
scalar, in insertion order (a Python `dict`). -/
abbrev Record := List (String × Value)

/-- One table record as returned by `csv.DictReader`: keys are column names,
or `none` for the `restkey` overflow entry. -/
abbrev CsvRecord := List (Option String × Value)

/-- Membership-based lookup in a record, mirroring Python `dict` access:
the first binding for a key wins (Python dicts cannot carry duplicates). -/
def Record.get? (r : Record) (k : String) : Option Value :=
  match r with
  | [] => Option.none
  | (k', v) :: rest => if k' = k then some v else Record.get? rest k

/-- Column names of a record, in insertion order (`row.keys()`). -/
def Record.keys (r : Record) : List String := r.map Prod.fst

/-- List-based `all` check that a string contains no NUL character; the csv
reader rejects NUL and the theorems carry this as a hypothesis. -/
def nulFree (s : String) : Bool := s.toList.all (fun c => c != Char.ofNat 0)

/-- Boolean no-duplicates check over strings, for Python-dict key lists. -/
def nodupKeys : List String → Bool
  | [] => true
  | k :: ks => !(ks.contains k) && nodupKeys ks

/-! ## Filesystem model

One directory of the storage backend is modelled as an association list from
file name to textual file content.  `dump` in APPEND mode appends to the
existing content, `dump` in OVERWRITE mode replaces it. -/

/-- A directory: file names mapped to file contents. -/
abbrev FS := List (String × String)

/-- Content of a file, if it exists (`Path.exists` / `Path.read_text`). -/
def FS.read (fs : FS) (name : String) : Option String :=
  match fs with
  | [] => Option.none
  | (n, c) :: rest => if n = name then some c else FS.read rest name

/-- Replace (or create) a file with the given content (`open(mode="w")`). -/
def FS.write (fs : FS) (name : String) (content : String) : FS :=
  match fs with
  | [] => [(name, content)]
  | (n, c) :: rest =>
      if n = name then (n, content) :: rest else (n, c) :: FS.write rest name content

/-- Append to a file, creating it when absent (`open(mode="a")`). -/
def FS.append (fs : FS) (name : String) (content : String) : FS :=
  FS.write fs name (((FS.read fs name).getD "") ++ content)

/-! ## `cs_tools.utils.chunks`

```python
def chunks(iterable, *, n):
    if n < 1:
        raise ValueError("n must be at least one")
    iterable = iter(iterable)
    while batch := tuple(it.islice(iterable, n)):
        yield batch
```

The generator is embedded eagerly: the loop taking `n` elements at a time is
`chunksGo`, and `chunks` guards `n < 1` with the `ValueError`. -/

/-- Loop body of `chunks`: repeatedly slice off the next `n` elements until
the source is exhausted.  (Called only with `n ≥ 1`; written so that each
step consumes at least one element.) -/
def chunksGo (l : List α) (n : Nat) : List (List α) :=
  match l with
  | [] => []
  | x :: xs => (x :: xs.take (n - 1)) :: chunksGo (xs.drop (n - 1)) n
termination_by l.length
decreasing_by
  simp only [List.length_drop, List.length_cons]
  omega

/-- Embedding of `cs_tools.utils.chunks` (alias `batched`). -/
def chunks (l : List α) (n : Nat) : Except PyError (List (List α)) :=
  if n < 1 then .error (.valueError "n must be at least one")
  else .ok (chunksGo l n)

/-! ## `cs_tools.utils.State`

```python
class State:
    def __init__(self, state=None): ...
    def __setattr__(self, key, value): self._state[key] = value
    def __getattr__(self, key):
        try:
            return self._state[key]
        except KeyError:
            raise AttributeError(f"...object has no attribute...") from None
```

The backing `_state` dict is an association list with Python-dict update
semantics (setting an existing key overwrites in place). -/

/-- The `State` attribute bag: its backing `_state` dictionary. -/
abbrev State := List (String × Value)

/-- Python dict assignment `self._state[key] = value`. -/
def dictSet (st : State) (k : String) (v : Value) : State :=
  match st with
  | [] => [(k, v)]
  | (k', v') :: rest =>
      if k' = k then (k', v) :: rest else (k', v') :: dictSet rest k v

/-- Embedding of `State.__setattr__`. -/
def State.setattr (st : State) (k : String) (v : Value) : State := dictSet st k v

/-- Embedding of `State.__getattr__`: a missing key raises `AttributeError`
naming the key. -/
def State.getattr (st : State) (k : String) : Except PyError Value :=
  match Record.get? st k with
  | some v => .ok v
  | Option.none =>
      .error (.attributeError ("'State' object has no attribute '" ++ k ++ "'"))

/-! ## CSV syncer: configuration and validation

`cs_tools/sync/csv/syncer.py` declares

```python
class CSV(Syncer):
    directory: ...
    delimiter: str = "|"
    escape_character: str = "\\"
    quoting: Literal["ALL", "MINIMAL"] = "MINIMAL"
    header: bool = True
    save_strategy: Literal["APPEND", "OVERWRITE"] = "OVERWRITE"
    _written_header: dict[str, bool] = ...
```

with a pydantic field validator rejecting `delimiter`/`escape_character`
values of length greater than one.  The `directory` is abstracted into the
`FS` model; `date_time_format` always holds the canonical default (its
definition lives in `cs_tools/sync/utils.py`, which is not part of the
sources; see `formatDatetime`). -/

namespace CSV

/-- The `quoting` literal after `_map_to_csv_literals` (`csv.QUOTE_ALL` /
`csv.QUOTE_MINIMAL`). -/
inductive Quoting where
  | all
  | minimal
deriving DecidableEq, Repr

/-- The `save_strategy` literal. -/
inductive SaveStrategy where
  | APPEND
  | OVERWRITE
deriving DecidableEq, Repr

/-- Validated configuration of one CSV syncer instance. -/
structure Config where
  delimiter : String
  escape_character : String
  quoting : Quoting
  header : Bool
  save_strategy : SaveStrategy
deriving DecidableEq, Repr

/-- Embedding of the pydantic validator `_only_single_characters_allowed`:

```python
if len(value) > 1:
    raise ValueError(f"... must be a one-character string")
return value
``` -/
def _only_single_characters_allowed (fieldName value : String) :
    Except PyError String :=
  if value.length > 1 then
    .error (.valueError (fieldName ++ " must be a one-character string"))
  else .ok value

/-- Construction of a CSV syncer: pydantic runs the field validators once,
before any I/O, and yields the validated configuration. -/
def construct (delimiter escape_character : String) (quoting : Quoting)
    (header : Bool) (save_strategy : SaveStrategy) : Except PyError Config := do
  let d ← _only_single_characters_allowed "delimiter" delimiter
  let e ← _only_single_characters_allowed "escape_character" escape_character
  .ok { delimiter := d, escape_character := e, quoting := quoting,
        header := header, save_strategy := save_strategy }

/-- The dialect dictionary handed to `csv.DictWriter` / `csv.DictReader`. -/
structure Dialect where
  delimiter : String
  doublequote : Bool
  escapechar : String
  lineterminator : String
  quotechar : String
  quoting : Quoting
deriving DecidableEq, Repr

/-- Embedding of `CSV.dialect_and_format_parameters`. -/
def dialect_and_format_parameters (cfg : Config) : Dialect :=
  { delimiter := cfg.delimiter
    doublequote := false
    escapechar := cfg.escape_character
    lineterminator := "\r\n"
    quotechar := "\""
    quoting := cfg.quoting }

/-- The `csv` module's own dialect check, performed when the writer or reader
is constructed: `delimiter` and `escapechar` must be one-character strings,
otherwise `TypeError`.  (The pydantic validator above lets the empty string
through; this is where it finally fails.) -/
def Dialect.chars (d : Dialect) : Except PyError (Char × Char) :=
  match d.delimiter.toList, d.escapechar.toList with
  | [dc], [ec] => .ok (dc, ec)
  | _, _ => .error (.typeError "delimiter or escapechar must be a 1-character string")

/-- The fixed quote character of the dialect. -/
def quotechar : Char := '"'

end CSV

/-! ## Datetime normalization (modelled from the spec)

`CSV.dump` maps `sync_utils.format_datetime_values(r, dt_format=...)` over the
rows before writing.  `cs_tools/sync/utils.py` is not among the sources. -/

/-- Nth decimal digit as a character. -/
def digitChar (n : Nat) : Char := Char.ofNat (48 + n % 10)

/-- Two-digit zero-padded decimal rendering. -/
def pad2 (n : Nat) : List Char := [digitChar (n / 10), digitChar n]

/-- Four-digit zero-padded decimal rendering. -/
def pad4 (n : Nat) : List Char :=
  [digitChar (n / 1000), digitChar (n / 100), digitChar (n / 10), digitChar n]

/-- Modelled from the spec: `cs_tools/sync/utils.py` (absent from the
sources) defines the canonical datetime format `DATETIME_FORMAT_TSLOAD`;
per the spec, datetime columns are rendered through one fixed string format,
the zero-padded `YYYY-MM-DD HH:MM:SS`. -/
def formatDatetime (d : DateTime) : String :=
  String.mk (pad4 d.year ++ '-' :: pad2 d.month ++ '-' :: pad2 d.day ++
    ' ' :: pad2 d.hour ++ ':' :: pad2 d.minute ++ ':' :: pad2 d.second)

/-- Modelled from the spec: `sync_utils.format_datetime_values` (absent from
the sources) returns a copy of the record with every date/time-valued field
rendered as text in the target format; non-datetime fields pass through
unchanged. -/
def format_datetime_values (r : Record) : Record :=
  r.map (fun kv =>
    match kv with
    | (k, .datetime d) => (k, .str (formatDatetime d))
    | (k, v) => (k, v))

/-- Python `str()` as applied by the csv writer to non-`None` cell values.
Container values never appear as table cells in the embedded data model. -/
def pyStr : Value → String
  | .str s => s
  | .int n => toString n
  | .bool true => "True"
  | .bool false => "False"
  | .none => "None"
  | .datetime d => formatDatetime d
  | .list _ => "<unmodelled container repr>"
  | .dict _ => "<unmodelled container repr>"

namespace CSV

/-! ### The csv writer (`_csv.c`, `join_append` family)

The writer is used with `doublequote = False`, a configured `escapechar`,
quote character `"`, line terminator CRLF and `quoting` ALL or MINIMAL. -/

/-- Emission of one character of field data, returning the emitted characters
and whether this character forces MINIMAL quoting.  Mirrors the per-character
branch of `join_append_data`: a quote character or the escape character is
prefixed with the escape character (and does not force quoting); the
delimiter or a line-terminator character forces quoting. -/
def encodeChar (delim esc : Char) (c : Char) : List Char × Bool :=
  if c = delim || c = esc || c = quotechar || c = '\r' || c = '\n' then
    if c = quotechar then ([esc, c], false)
    else if c = esc then ([esc, c], false)
    else ([c], true)
  else ([c], false)

/-- Emission of a whole field's data (`join_append_data` without the
surrounding quotes), with the accumulated wants-quoting flag. -/
def encodeData (delim esc : Char) : List Char → List Char × Bool
  | [] => ([], false)
  | c :: cs =>
      let ec := encodeChar delim esc c
      let ecs := encodeData delim esc cs
      (ec.1 ++ ecs.1, ec.2 || ecs.2)

/-- Emission of one field (`join_append`): `None` contributes empty data, any
other value contributes `str(value)`; the data is wrapped in quote characters
when quoting is ALL or the data demanded it. -/
def encodeField (delim esc : Char) (q : Quoting) (v : Value) : List Char :=
  let data : String :=
    match v with
    | .none => ""
    | v => pyStr v
  let ed := encodeData delim esc data.toList
  if q = .all || ed.2 then quotechar :: ed.1 ++ [quotechar] else ed.1

/-- Emission of one record line (`csv_writerow`): fields joined by the
delimiter; a record that joined to nothing but has at least one field is
written as an empty pair of quotes; the CRLF terminator closes the line. -/
def encodeRowLine (delim esc : Char) (q : Quoting) (fields : List Value) :
    List Char :=
  let line := List.intercalate [delim] (fields.map (encodeField delim esc q))
  let line := if !fields.isEmpty && line.isEmpty then [quotechar, quotechar] else line
  line ++ ['\r', '\n']

/-- Embedding of `DictWriter._dict_to_list` with the default
`extrasaction="raise"`: a key outside the fieldnames raises `ValueError`,
missing keys fall back to `restval = None`. -/
def dict_to_list (fieldnames : List String) (r : Record) :
    Except PyError (List Value) :=
  if (Record.keys r).all (fun k => fieldnames.contains k) then
    .ok (fieldnames.map (fun k => (Record.get? r k).getD .none))
  else .error (.valueError "dict contains fields not in fieldnames")

/-- Embedding of `DictWriter.writeheader`: the fieldnames written as one
record of string fields. -/
def writeheaderLine (delim esc : Char) (q : Quoting) (fieldnames : List String) :
    List Char :=
  encodeRowLine delim esc q (fieldnames.map .str)

/-- Embedding of `writer.writerows([format_datetime_values(r) for r in data])`:
rows are emitted one by one; a `_dict_to_list` failure stops emission there
and the error propagates after the already-emitted rows are written. -/
def encodeRows (delim esc : Char) (q : Quoting) (fieldnames : List String) :
    List Record → List Char × Option PyError
  | [] => ([], Option.none)
  | r :: rest =>
      match dict_to_list fieldnames (format_datetime_values r) with
      | .error e => ([], some e)
      | .ok fields =>
          let t := encodeRows delim esc q fieldnames rest
          (encodeRowLine delim esc q fields ++ t.1, t.2)

/-- The `_written_header` private attribute of one syncer instance. -/
structure InstState where
  written_header : List (String × Bool)
deriving DecidableEq, Repr

/-- Embedding of `self._written_header.get(filename, False)`. -/
def InstState.get (st : InstState) (filename : String) : Bool :=
  match st.written_header.find? (fun kv => kv.1 = filename) with
  | some kv => kv.2
  | Option.none => false

/-- Embedding of `self._written_header[filename] = True`. -/
def InstState.set (st : InstState) (filename : String) : InstState :=
  ⟨go st.written_header⟩
where
  go : List (String × Bool) → List (String × Bool)
    | [] => [(filename, true)]
    | (k, b) :: rest => if k = filename then (k, true) :: rest else (k, b) :: go rest

/-- Embedding of `CSV.dump`.  The returned triple is the updated instance
state, the updated filesystem, and the exception, if one escaped; Python
exceptions escape only after the file was opened (mode `"w"` truncates on
open) and the successfully converted rows were written. -/
def dump (cfg : Config) (st : InstState) (fs : FS) (filename : String)
    (data : List Record) : InstState × FS × Option PyError :=
  if data.isEmpty then
    -- log.warning("no data to write ..."); return
    (st, fs, Option.none)
  else
    let path := filename ++ ".csv"
    let header := (data.headD []).keys
    -- path.open(mode="a" if APPEND else "w"): mode "w" truncates on open
    let fs : FS :=
      match cfg.save_strategy with
      | .OVERWRITE => fs.write path ""
      | .APPEND => fs
    match (dialect_and_format_parameters cfg).chars with
    | .error e => (st, fs, some e)  -- TypeError from DictWriter construction
    | .ok (dc, ec) =>
        let stHeader :=
          if cfg.header && !st.get filename then
            (st.set filename, writeheaderLine dc ec cfg.quoting header)
          else (st, ([] : List Char))
        let rows := encodeRows dc ec cfg.quoting header data
        let fs := fs.append path (String.mk (stHeader.2 ++ rows.1))
        (stHeader.1, fs, rows.2)

end CSV

namespace CSV

/-! ### The csv reader (`_csv.c`, `parse_process_char`)

`CSV.load` reads the file with `newline=""` and hands the line iterator to
`csv.DictReader`.  The reader is a character-level state machine: each line's
characters are processed in turn and the line's end is processed as the
sentinel character `\0`; a completed record is handed out whenever that
sentinel processing lands the machine back in `START_RECORD`.  The embedding
below fuses the `newline=""` line splitting (a line ends after `\n`, or after
a `\r` not followed by `\n`) with the per-line processing: `streamFeed` walks
the raw file content and performs the sentinel step (`Machine.endLine`)
exactly at those line boundaries.  The dialect in force is the writer's:
`doublequote = False`, configured escape character, quote character `"`. -/

/-- Parser states of `parse_process_char`.  `QUOTE_IN_QUOTED_FIELD` is
unreachable with `doublequote = False` and is omitted. -/
inductive RState where
  | startRecord
  | startField
  | escapedChar
  | afterEscapedCrnl
  | inField
  | inQuotedField
  | escapeInQuotedField
  | eatCrnl
deriving DecidableEq, Repr

/-- Reader machine: current state, the current field's characters (reversed),
and the current record's completed fields (reversed). -/
structure Machine where
  state : RState
  field : List Char
  fields : List String
deriving DecidableEq, Repr

/-- The machine at the start of the input. -/
def Machine.fresh : Machine := ⟨.startRecord, [], []⟩

/-- Replace the machine state. -/
def Machine.withState (m : Machine) (s : RState) : Machine :=
  ⟨s, m.field, m.fields⟩

/-- Embedding of `parse_add_char`. -/
def Machine.addChar (m : Machine) (c : Char) : Machine :=
  ⟨m.state, c :: m.field, m.fields⟩

/-- Embedding of `parse_save_field`. -/
def Machine.saveField (m : Machine) : Machine :=
  ⟨m.state, [], String.mk m.field.reverse :: m.fields⟩

/-- The record held by the machine, in field order. -/
def Machine.record (m : Machine) : List String := m.fields.reverse

/-- Shared `START_FIELD` transitions (also reached from `START_RECORD` by
fallthrough).  `skipinitialspace` is off. -/
def stepStartField (delim esc : Char) (m : Machine) (c : Char) : Machine :=
  if c = '\n' || c = '\r' then (m.saveField).withState .eatCrnl
  else if c = quotechar then m.withState .inQuotedField
  else if c = esc then m.withState .escapedChar
  else if c = delim then (m.saveField).withState .startField
  else (m.addChar c).withState .inField

/-- Shared `IN_FIELD` transitions (also reached from `AFTER_ESCAPED_CRNL` by
fallthrough). -/
def stepInField (delim esc : Char) (m : Machine) (c : Char) : Machine :=
  if c = '\n' || c = '\r' then (m.saveField).withState .eatCrnl
  else if c = esc then m.withState .escapedChar
  else if c = delim then (m.saveField).withState .startField
  else m.addChar c

/-- One step of `parse_process_char` on a real input character.  A NUL in the
data is rejected by the surrounding reader loop (`line contains NUL`); a
non-newline character in `EAT_CRNL` is the reader's `new-line character seen
in unquoted field` error (unreachable here, because `streamFeed` always ends
the line while in `EAT_CRNL`). -/
def Machine.step (delim esc : Char) (m : Machine) (c : Char) :
    Except PyError Machine :=
  if c = Char.ofNat 0 then .error (.csvError "line contains NUL")
  else
    match m.state with
    | .startRecord =>
        if c = '\n' || c = '\r' then .ok (m.withState .eatCrnl)
        else .ok (stepStartField delim esc m c)
    | .startField => .ok (stepStartField delim esc m c)
    | .escapedChar =>
        if c = '\n' || c = '\r' then .ok ((m.addChar c).withState .afterEscapedCrnl)
        else .ok ((m.addChar c).withState .inField)
    | .afterEscapedCrnl => .ok (stepInField delim esc m c)
    | .inField => .ok (stepInField delim esc m c)
    | .inQuotedField =>
        if c = esc then .ok (m.withState .escapeInQuotedField)
        else if c = quotechar then
          -- doublequote is False: the quote ends the quoted part of the field
          .ok (m.withState .inField)
        else .ok (m.addChar c)
    | .escapeInQuotedField => .ok ((m.addChar c).withState .inQuotedField)
    | .eatCrnl =>
        if c = '\n' || c = '\r' then .ok m
        else .error (.csvError "new-line character seen in unquoted field")

/-- Processing of the end of one line (`parse_process_char` on the `\0`
sentinel).  Returns the next machine and the completed record, if the
sentinel landed the machine in `START_RECORD`. -/
def Machine.endLine (m : Machine) : Machine × Option (List String) :=
  match m.state with
  | .startRecord =>
      -- empty line: the reader returns the (empty) field list
      (⟨.startRecord, m.field, []⟩, some m.record)
  | .startField =>
      let m := m.saveField
      (⟨.startRecord, m.field, []⟩, some m.record)
  | .escapedChar => ((m.addChar '\n').withState .inField, Option.none)
  | .afterEscapedCrnl => (m, Option.none)
  | .inField =>
      let m := m.saveField
      (⟨.startRecord, m.field, []⟩, some m.record)
  | .inQuotedField => (m, Option.none)
  | .escapeInQuotedField => ((m.addChar '\n').withState .inQuotedField, Option.none)
  | .eatCrnl => (⟨.startRecord, m.field, []⟩, some m.record)

/-- Walk of the raw file content: characters are fed to the machine and
`endLine` fires at each `newline=""` line boundary, i.e. after `\r\n`, after a
lone `\n`, and after a `\r` not followed by `\n`. -/
def streamFeed (delim esc : Char) (m : Machine) (acc : List (List String)) :
    List Char → Except PyError (Machine × List (List String))
  | [] => .ok (m, acc)
  | c :: rest => do
      let m ← m.step delim esc c
      if c = '\n' then
        let el := m.endLine
        streamFeed delim esc el.1 (acc ++ el.2.toList) rest
      else if c = '\r' then
        match rest with
        | '\n' :: rest2 => do
            let m ← m.step delim esc '\n'
            let el := m.endLine
            streamFeed delim esc el.1 (acc ++ el.2.toList) rest2
        | [] =>
            let el := m.endLine
            streamFeed delim esc el.1 (acc ++ el.2.toList) []
        | c2 :: rest2 =>
            let el := m.endLine
            streamFeed delim esc el.1 (acc ++ el.2.toList) (c2 :: rest2)
      else streamFeed delim esc m acc rest

/-- End-of-input handling of `Reader_iternext`.  A final line without a
terminator still receives its sentinel step (the machine is mid-line exactly
when its state is not `START_RECORD`); after that, a pending field or an
unterminated quoted field is saved and its record handed out (non-strict
mode). -/
def finishStream (m : Machine) (acc : List (List String)) :
    List (List String) :=
  if m.state = .startRecord then acc
  else
    let el := m.endLine
    let acc := acc ++ el.2.toList
    let m := el.1
    if !m.field.isEmpty || m.state = .inQuotedField then
      acc ++ [(m.saveField).record]
    else acc

/-- Embedding of `csv.reader` over the whole file content: the list of
records, each a list of field strings. -/
def reader (delim esc : Char) (content : String) :
    Except PyError (List (List String)) := do
  let r ← streamFeed delim esc Machine.fresh [] content.toList
  .ok (finishStream r.1 r.2)

/-- Embedding of `DictReader.__next__`'s row-to-dict conversion: fields are
zipped with the fieldnames; a short row is padded with `restval = None`; a
long row puts the overflow, as a list, under `restkey = None`. -/
def dictRow (fieldnames : List String) (row : List String) : CsvRecord :=
  let lf := fieldnames.length
  let lr := row.length
  let d : CsvRecord :=
    (fieldnames.zip (row.map Value.str)).map (fun kv => (some kv.1, kv.2))
  let d := if lr < lf then
      d ++ (fieldnames.drop lr).map (fun k => (some k, Value.none))
    else d
  if lr > lf then d ++ [(Option.none, Value.list ((row.drop lf).map Value.str))]
  else d

/-- Embedding of `CSV.load`: a missing file is the empty table; otherwise the
file is parsed with the configured dialect, the first record names the
columns, blank records are skipped, and every remaining record becomes a
dict. -/
def load (cfg : Config) (fs : FS) (filename : String) :
    Except PyError (List CsvRecord) :=
  let path := filename ++ ".csv"
  match fs.read path with
  | Option.none => .ok []
  | some content => do
      let dcec ← (dialect_and_format_parameters cfg).chars
      let rows ← reader dcec.1 dcec.2 content
      match rows with
      | [] => .ok []
      | fieldnames :: rest =>
          .ok ((rest.filter (fun r => !r.isEmpty)).map (dictRow fieldnames))

end CSV

/-! ## JSON serialization (`json.dumps` / `json.loads`)

`cs_tools/sync/json/syncer.py` serializes the whole row list with
`json.dumps(data, ensure_ascii=True if self.encoding is None else False)` and
reads it back with `json.loads`.  Only integral numbers are modelled; float
syntax (a fraction or exponent part) is rejected by the embedded parser and
never produced by the embedded encoder. -/

/-- Opening brace character (spelled by code point). -/
def lbrace : Char := Char.ofNat 123

/-- Closing brace character (spelled by code point). -/
def rbrace : Char := Char.ofNat 125

/-- Lowercase hex digit of `n % 16`, as used by `\u%04x` escapes. -/
def hexDigitChar (n : Nat) : Char :=
  if n % 16 < 10 then Char.ofNat (48 + n % 16) else Char.ofNat (87 + n % 16)

/-- Four lowercase hex digits of `n % 65536`. -/
def hex4 (n : Nat) : List Char :=
  [hexDigitChar (n / 4096), hexDigitChar (n / 256), hexDigitChar (n / 16),
   hexDigitChar n]

/-- Per-character JSON string escaping (`c_encode_basestring_ascii` /
`py_encode_basestring`): quote, backslash and the named control characters
get two-character escapes; other control characters get `\uXXXX`; with
`ensure_ascii`, every character outside printable ASCII gets `\uXXXX`, as a
surrogate pair beyond the basic plane. -/
def encodeStringChar (ensureAscii : Bool) (c : Char) : List Char :=
  if c = '"' then ['\\', '"']
  else if c = '\\' then ['\\', '\\']
  else if c = '\n' then ['\\', 'n']
  else if c = '\r' then ['\\', 'r']
  else if c = '\t' then ['\\', 't']
  else if c = Char.ofNat 8 then ['\\', 'b']
  else if c = Char.ofNat 12 then ['\\', 'f']
  else if c.toNat < 32 then '\\' :: 'u' :: hex4 c.toNat
  else if ensureAscii && 126 < c.toNat then
    if c.toNat < 65536 then '\\' :: 'u' :: hex4 c.toNat
    else
      let v := c.toNat - 65536
      '\\' :: 'u' :: hex4 (55296 + v / 1024) ++ '\\' :: 'u' :: hex4 (56320 + v % 1024)
  else [c]

/-- JSON string literal for `s`. -/
def encodeJsonString (ensureAscii : Bool) (s : String) : List Char :=
  '"' :: (s.toList.flatMap (encodeStringChar ensureAscii)) ++ ['"']

mutual

/-- Embedding of the `json.dumps` value encoder with the default separators
`", "` and `": "`; a datetime (or any other non-JSON type) raises
`TypeError`. -/
def jsonDumpsV (ensureAscii : Bool) : Value → Except PyError (List Char)
  | .str s => .ok (encodeJsonString ensureAscii s)
  | .int n => .ok (toString n).toList
  | .bool true => .ok ['t', 'r', 'u', 'e']
  | .bool false => .ok ['f', 'a', 'l', 's', 'e']
  | .none => .ok ['n', 'u', 'l', 'l']
  | .datetime _ => .error (.typeError "Object of type datetime is not JSON serializable")
  | .list vs => do
      let parts ← jsonDumpsElems ensureAscii vs
      .ok ('[' :: List.intercalate [',', ' '] parts ++ [']'])
  | .dict kvs => do
      let parts ← jsonDumpsMembers ensureAscii kvs
      .ok (lbrace :: List.intercalate [',', ' '] parts ++ [rbrace])

/-- Encoded array elements, in order. -/
def jsonDumpsElems (ensureAscii : Bool) : List Value → Except PyError (List (List Char))
  | [] => .ok []
  | v :: vs => do
      let h ← jsonDumpsV ensureAscii v
      let t ← jsonDumpsElems ensureAscii vs
      .ok (h :: t)

/-- Encoded object members, in insertion order. -/
def jsonDumpsMembers (ensureAscii : Bool) :
    List (String × Value) → Except PyError (List (List Char))
  | [] => .ok []
  | (k, v) :: kvs => do
      let hv ← jsonDumpsV ensureAscii v
      let t ← jsonDumpsMembers ensureAscii kvs
      .ok ((encodeJsonString ensureAscii k ++ ':' :: ' ' :: hv) :: t)

end

/-- Embedding of `json.dumps` on a whole document. -/
def jsonDumps (ensureAscii : Bool) (v : Value) : Except PyError String :=
  (jsonDumpsV ensureAscii v).map String.mk

/-- JSON whitespace. -/
def jsonWs (c : Char) : Bool := c = ' ' || c = '\t' || c = '\n' || c = '\r'

/-- Skip JSON whitespace. -/
def skipWs : List Char → List Char
  | [] => []
  | c :: cs => if jsonWs c then skipWs cs else c :: cs

/-- Value of one hex digit. -/
def hexVal (c : Char) : Except PyError Nat :=
  if 48 ≤ c.toNat && c.toNat ≤ 57 then .ok (c.toNat - 48)
  else if 97 ≤ c.toNat && c.toNat ≤ 102 then .ok (c.toNat - 87)
  else if 65 ≤ c.toNat && c.toNat ≤ 70 then .ok (c.toNat - 55)
  else .error .jsonDecodeError

/-- Value of a `\uXXXX` escape's four hex digits. -/
def hex4Val (a b c d : Char) : Except PyError Nat := do
  let ha ← hexVal a
  let hb ← hexVal b
  let hc ← hexVal c
  let hd ← hexVal d
  .ok (((ha * 16 + hb) * 16 + hc) * 16 + hd)

/-- Decoding of one `\uXXXX` escape (with a following low-surrogate escape
when the first code unit is a high surrogate), as `py_scanstring` does it.
`none` is the scanner's `Invalid \uXXXX escape` / unpaired-surrogate error.
(CPython tolerates an unpaired surrogate, producing a lone-surrogate string;
such strings have no Lean counterpart and the embedding rejects them instead
— the encoder never produces them.) -/
def decodeUEscape (rest1 : List Char) : Option (Char × List Char) :=
  match rest1 with
  | a :: b :: c :: d :: rest2 =>
      match hex4Val a b c d with
      | .error _ => Option.none
      | .ok n =>
          if 55296 ≤ n && n ≤ 56319 then
            match rest2 with
            | e2 :: u2 :: a2 :: b2 :: c2 :: d2 :: rest3 =>
                if e2 = '\\' && u2 = 'u' then
                  match hex4Val a2 b2 c2 d2 with
                  | .error _ => Option.none
                  | .ok n2 =>
                      if 56320 ≤ n2 && n2 ≤ 57343 then
                        some (Char.ofNat (65536 + (n - 55296) * 1024 + (n2 - 56320)),
                          rest3)
                      else Option.none
                else Option.none
            | _ => Option.none
          else if 56320 ≤ n && n ≤ 57343 then Option.none
          else some (Char.ofNat n, rest2)
  | _ => Option.none

/-- Embedding of `py_scanstring` after the opening quote, in the default
strict mode, fuel-indexed (the scanner consumes at least one character per
step, so any fuel above the remaining input length is enough): raw control characters are rejected; `\uXXXX` escapes are
decoded, with surrogate pairs combined.  (CPython tolerates an unpaired
surrogate, producing a lone-surrogate string; such strings have no Lean
counterpart and the embedding rejects them instead — the encoder never
produces them.) -/
def parseStringBody : Nat → List Char → List Char →
    Except PyError (String × List Char)
  | 0, _, _ => .error .jsonDecodeError
  | fuel + 1, acc, cs =>
      match cs with
      | [] => .error .jsonDecodeError
      | c :: rest =>
      if c = '"' then .ok (String.mk acc.reverse, rest)
      else if c = '\\' then
        match rest with
        | [] => .error .jsonDecodeError
        | e :: rest1 =>
            if e = 'u' then
              match decodeUEscape rest1 with
              | some cr => parseStringBody fuel (cr.1 :: acc) cr.2
              | Option.none => .error .jsonDecodeError
            else if e = '"' then parseStringBody fuel ('"' :: acc) rest1
            else if e = '\\' then parseStringBody fuel ('\\' :: acc) rest1
            else if e = '/' then parseStringBody fuel ('/' :: acc) rest1
            else if e = 'b' then parseStringBody fuel (Char.ofNat 8 :: acc) rest1
            else if e = 'f' then parseStringBody fuel (Char.ofNat 12 :: acc) rest1
            else if e = 'n' then parseStringBody fuel ('\n' :: acc) rest1
            else if e = 'r' then parseStringBody fuel ('\r' :: acc) rest1
            else if e = 't' then parseStringBody fuel ('\t' :: acc) rest1
            else .error .jsonDecodeError
      else if c.toNat < 32 then .error .jsonDecodeError
      else parseStringBody fuel (c :: acc) rest

/-- Decimal digit test. -/
def isDig (c : Char) : Bool := 48 ≤ c.toNat && c.toNat ≤ 57

/-- Decimal value of a digit run. -/
def digitsToNat (ds : List Char) : Nat :=
  ds.foldl (fun acc c => acc * 10 + (c.toNat - 48)) 0

/-- Embedding of the scanner's `NUMBER_RE` for the integer part: `0`, or a
nonzero digit followed by digits.  A following fraction or exponent part
would make a float, which is outside the embedded model and rejected. -/
def parseNumber : List Char → Except PyError (Value × List Char)
  | '-' :: rest => do
      let r ← parseNumberBody rest
      .ok (.int (-(r.1 : Int)), r.2)
  | cs => do
      let r ← parseNumberBody cs
      .ok (.int (r.1 : Int), r.2)
where
  parseNumberBody : List Char → Except PyError (Nat × List Char)
    | '0' :: rest => checkNoFloat 0 rest
    | c :: rest =>
        if isDig c && c ≠ '0' then
          let ds := rest.takeWhile isDig
          checkNoFloat (digitsToNat (c :: ds)) (rest.dropWhile isDig)
        else .error .jsonDecodeError
    | [] => .error .jsonDecodeError
  checkNoFloat (n : Nat) : List Char → Except PyError (Nat × List Char)
    | c :: rest =>
        if c = '.' || c = 'e' || c = 'E' then .error .jsonDecodeError
        else .ok (n, c :: rest)
    | [] => .ok (n, [])

mutual

/-- Python `dict(pairs)` (and incremental `d[k] = v` building): first
occurrence fixes a key's position, the last occurrence's value wins. -/
def dictFromPairs (pairs : List (String × Value)) : List (String × Value) :=
  pairs.foldl (fun d kv => dictSet d kv.1 kv.2) []

/-- Embedding of the `json.loads` value scanner, fuel-indexed: each
constructor and each element costs one unit of fuel, so any fuel above the
document's node count is enough (the caller passes the input length). -/
def parseValue : Nat → List Char → Except PyError (Value × List Char)
  | 0, _ => .error .jsonDecodeError
  | _ + 1, [] => .error .jsonDecodeError
  | fuel + 1, c :: rest =>
      if c = '"' then do
        let r ← parseStringBody (rest.length + 1) [] rest
        .ok (.str r.1, r.2)
      else if c = '[' then
        match skipWs rest with
        | ']' :: rest2 => .ok (.list [], rest2)
        | rest2 => parseElems fuel rest2 []
      else if c = lbrace then
        match skipWs rest with
        | r :: rest2 =>
            if r = rbrace then .ok (.dict [], rest2)
            else parseMembers fuel (r :: rest2) []
        | [] => .error .jsonDecodeError
      else if c = 't' then
        match rest with
        | 'r' :: 'u' :: 'e' :: rest2 => .ok (.bool true, rest2)
        | _ => .error .jsonDecodeError
      else if c = 'f' then
        match rest with
        | 'a' :: 'l' :: 's' :: 'e' :: rest2 => .ok (.bool false, rest2)
        | _ => .error .jsonDecodeError
      else if c = 'n' then
        match rest with
        | 'u' :: 'l' :: 'l' :: rest2 => .ok (.none, rest2)
        | _ => .error .jsonDecodeError
      else parseNumber (c :: rest)

/-- Array elements after the first non-`]` character. -/
def parseElems : Nat → List Char → List Value → Except PyError (Value × List Char)
  | 0, _, _ => .error .jsonDecodeError
  | fuel + 1, cs, acc => do
      let r ← parseValue fuel cs
      match skipWs r.2 with
      | ',' :: rest2 => parseElems fuel (skipWs rest2) (r.1 :: acc)
      | ']' :: rest2 => .ok (.list (r.1 :: acc).reverse, rest2)
      | _ => .error .jsonDecodeError

/-- Object members after the first non-`}` character. -/
def parseMembers : Nat → List Char → List (String × Value) →
    Except PyError (Value × List Char)
  | 0, _, _ => .error .jsonDecodeError
  | fuel + 1, cs, acc =>
      match cs with
      | '"' :: rest => do
          let k ← parseStringBody (rest.length + 1) [] rest
          match skipWs k.2 with
          | ':' :: rest2 => do
              let v ← parseValue fuel (skipWs rest2)
              match skipWs v.2 with
              | ',' :: rest3 =>
                  match skipWs rest3 with
                  | '"' :: rest4 => parseMembers fuel ('"' :: rest4) ((k.1, v.1) :: acc)
                  | _ => .error .jsonDecodeError
              | r :: rest3 =>
                  if r = rbrace then
                    .ok (.dict (dictFromPairs ((k.1, v.1) :: acc).reverse), rest3)
                  else .error .jsonDecodeError
              | [] => .error .jsonDecodeError
          | _ => .error .jsonDecodeError
      | _ => .error .jsonDecodeError

end

/-- Embedding of `json.loads`: leading whitespace is skipped, one value is
scanned, and anything but whitespace after it is the `Extra data` error. -/
def jsonLoads (s : String) : Except PyError Value := do
  let r ← parseValue (s.length + 1) (skipWs s.toList)
  if (skipWs r.2).isEmpty then .ok r.1 else .error .jsonDecodeError

/-! ## JSON syncer -/

namespace JSON

/-- Configuration of one JSON syncer instance: `encoding` is `None` or the
literal `"UTF-8"`; the `directory` is abstracted into the `FS` model. -/
structure Config where
  encoding : Option String
deriving DecidableEq, Repr

/-- Embedding of `JSON.make_filename`. -/
def make_filename (filename : String) : String := filename ++ ".json"

/-- Embedding of `JSON.load`: the file is read unconditionally
(`Path.read_text` raises `FileNotFoundError` when it does not exist); empty
content yields the empty list without parsing. -/
def load (cfg : Config) (fs : FS) (filename : String) : Except PyError Value :=
  match fs.read (make_filename filename) with
  | Option.none => .error .fileNotFoundError
  | some text => if text.isEmpty then .ok (.list []) else jsonLoads text

/-- Embedding of `JSON.dump`: empty input is a logged no-op; otherwise the
whole row list is serialized (`ensure_ascii` exactly when no encoding is
configured) and written as one whole-file text write.  A `TypeError` from
`json.dumps` escapes before anything is written. -/
def dump (cfg : Config) (fs : FS) (filename : String) (data : List Record) :
    FS × Option PyError :=
  if data.isEmpty then (fs, Option.none)
  else
    match jsonDumps cfg.encoding.isNone (.list (data.map .dict)) with
    | .error e => (fs, some e)
    | .ok text => (fs.write (make_filename filename) text, Option.none)

end JSON

/-! ## Git-configuration CLI commands (`cs_tools/cli/tools/git/config.py`)

Each sub-command issues one API call inside `try/except HTTPStatusError`,
prints two diagnostic lines when the call failed, and then proceeds to use
the local variable `r` that the failed call never assigned.  The embedding
takes the API call's outcome as input and returns what the command printed
together with how it terminated. -/

/-- The response object of a successful API call. -/
structure Response where
  jsonBody : Value
  reprText : String

/-- Details of a raised `httpx.HTTPStatusError`. -/
structure HTTPStatusErrorInfo where
  responseRepr : String
  responseContent : String
deriving DecidableEq, Repr

/-- One item printed to the rich console. -/
inductive Printed where
  | line (s : String)
  | configTable (title : String) (config : Value)

/-- How a command invocation terminated. -/
inductive Outcome where
  | completed
  | raised (e : PyError)
deriving DecidableEq, Repr

/-- Result of one command invocation: everything printed, then the
termination. -/
structure CmdResult where
  printed : List Printed
  outcome : Outcome

/-- The two diagnostic lines of every `except HTTPStatusError` block:
`f"Error creating the configuration: ...e.response..."` and
`f"...e.response.content..."`. -/
def httpErrorLines (e : HTTPStatusErrorInfo) : List Printed :=
  [.line ("Error creating the configuration: " ++ e.responseRepr ++ "."),
   .line (e.responseContent ++ ".")]

/-- Embedding of `_show_configs_as_table`: one rendered table per config. -/
def _show_configs_as_table (configs : List Value)
    (title : String) : List Printed :=
  configs.map (fun c => .configTable title c)

/-- Embedding of `config_create` from the API call on: on success the
response's JSON is rendered; on an HTTP error the two diagnostic lines are
printed and the subsequent `_show_configs_as_table([r.json()], ...)` trips
over the never-assigned `r`, raising `UnboundLocalError`. -/
def config_create (api : Except HTTPStatusErrorInfo Response) : CmdResult :=
  match api with
  | .ok r =>
      { printed := _show_configs_as_table [r.jsonBody] "New Configuration Details"
        outcome := .completed }
  | .error e =>
      { printed := httpErrorLines e
        outcome := .raised .unboundLocalError }

/-- Embedding of `config_update`; same control flow as `config_create`, with
the update endpoint and title. -/
def config_update (api : Except HTTPStatusErrorInfo Response) : CmdResult :=
  match api with
  | .ok r =>
      { printed := _show_configs_as_table [r.jsonBody] "Updated Configuration Details"
        outcome := .completed }
  | .error e =>
      { printed := httpErrorLines e
        outcome := .raised .unboundLocalError }

/-- Embedding of `config_search`: on success `configs = r.json()` is rendered
as tables; on an HTTP error the diagnostic lines are printed and the
subsequent `r.json()` raises `UnboundLocalError`. -/
def config_search (api : Except HTTPStatusErrorInfo Response) : CmdResult :=
  match api with
  | .ok r =>
      let configs := match r.jsonBody with
        | .list vs => vs
        | v => [v]
      { printed := _show_configs_as_table configs "Configuration Details"
        outcome := .completed }
  | .error e =>
      { printed := httpErrorLines e
        outcome := .raised .unboundLocalError }

/-- Embedding of `config_delete`: on success the final
`f"Deleted the configuration: ...r..."` line is printed; on an HTTP error the
diagnostic lines are printed and the final f-string's use of `r` raises
`UnboundLocalError`. -/
def config_delete (api : Except HTTPStatusErrorInfo Response) : CmdResult :=
  match api with
  | .ok r =>
      { printed := [.line ("Deleted the configuration: " ++ r.reprText ++ ".")]
        outcome := .completed }
  | .error e =>
      { printed := httpErrorLines e
        outcome := .raised .unboundLocalError }

/-! ## Shared definitions for the claim statements -/

/-- The CSV syncer's declared field defaults (`delimiter="|"`,
`escape_character="\\"`, `quoting="MINIMAL"`, `header=True`,
`save_strategy="OVERWRITE"`). -/
def CSV.defaultConfig : CSV.Config :=
  { delimiter := "|", escape_character := "\\", quoting := .minimal,
    header := true, save_strategy := .OVERWRITE }

/-! ## Helper lemmas: `chunks` -/

theorem chunksGo_nil (n : Nat) : chunksGo ([] : List α) n = [] := by
  simp [chunksGo]

theorem chunksGo_cons (x : α) (xs : List α) (n : Nat) :
    chunksGo (x :: xs) n = (x :: xs.take (n - 1)) :: chunksGo (xs.drop (n - 1)) n := by
  simp [chunksGo]

theorem chunksGo_eq_nil_iff (l : List α) (n : Nat) : chunksGo l n = [] ↔ l = [] := by
  cases l with
  | nil => simp [chunksGo_nil]
  | cons x xs => simp [chunksGo_cons]

theorem chunksGo_join (l : List α) (n : Nat) : (chunksGo l n).flatten = l := by
  induction l, n using chunksGo.induct with
  | case1 n => simp [chunksGo_nil]
  | case2 n x xs ih => simp [chunksGo_cons, ih]

theorem chunksGo_mem (l : List α) (n : Nat) (hn : 1 ≤ n) (c : List α)
    (hc : c ∈ chunksGo l n) : c ≠ [] ∧ c.length ≤ n := by
  induction l, n using chunksGo.induct with
  | case1 n => simp [chunksGo_nil] at hc
  | case2 n x xs ih =>
      rw [chunksGo_cons] at hc
      rcases List.mem_cons.mp hc with h | h
      · subst h
        refine ⟨by simp, ?_⟩
        simp only [List.length_cons, List.length_take]
        omega
      · exact ih hn h

theorem chunksGo_dropLast (l : List α) (n : Nat) (hn : 1 ≤ n) (c : List α)
    (hc : c ∈ (chunksGo l n).dropLast) : c.length = n := by
  induction l, n using chunksGo.induct with
  | case1 n => simp [chunksGo_nil] at hc
  | case2 n x xs ih =>
      rw [chunksGo_cons] at hc
      by_cases hrest : chunksGo (xs.drop (n - 1)) n = []
      · rw [hrest] at hc
        simp at hc
      · rw [List.dropLast_cons_of_ne_nil hrest] at hc
        rcases List.mem_cons.mp hc with h | h
        · subst h
          have hxs : ¬(xs.length ≤ n - 1) := by
            intro hle
            exact hrest (by rw [List.drop_eq_nil_of_le hle, chunksGo_nil])
          simp only [List.length_cons, List.length_take]
          omega
        · exact ih hn h

/-- C9: for every finite sequence and batch size `n ≥ 1`, `chunks` yields
groups of exactly `n` elements, the last possibly shorter, concatenating back
to the input; for `n < 1` it fails with the invalid-argument `ValueError`. -/
theorem chunks_spec (l : List α) (n : Nat) :
    (1 ≤ n → ∃ cs, chunks l n = .ok cs ∧ cs.flatten = l ∧
      (∀ c ∈ cs, c ≠ [] ∧ c.length ≤ n) ∧
      (∀ c ∈ cs.dropLast, c.length = n)) ∧
    (n < 1 → chunks l n = .error (.valueError "n must be at least one")) := by
  constructor
  · intro hn
    refine ⟨chunksGo l n, ?_, chunksGo_join l n, fun c hc => chunksGo_mem l n hn c hc,
      fun c hc => chunksGo_dropLast l n hn c hc⟩
    simp [chunks, Nat.not_lt.mpr hn]
  · intro hn
    simp [chunks, hn]

/-- Witness for C9, at the spec's own example: `chunks(range(7), n=3)` and
`chunks(range(7), n=0)`. -/
theorem chunks_spec_witness :
    chunks (List.range 7) 3 = .ok [[0, 1, 2], [3, 4, 5], [6]] ∧
    chunks (List.range 7) 0 = .error (.valueError "n must be at least one") := by
  refine ⟨?_, (chunks_spec (List.range 7) 0).2 (by norm_num)⟩
  have h := (chunks_spec (List.range 7) 3).1 (by norm_num)
  simp [chunks, List.range_succ, chunksGo]

/-! ## Helper lemmas: `State` -/

theorem get?_dictSet (st : State) (k : String) (v : Value) :
    Record.get? (dictSet st k v) k = some v := by
  induction st with
  | nil => simp [dictSet, Record.get?]
  | cons kv rest ih =>
      by_cases h : kv.1 = k
      · simp [dictSet, h, Record.get?]
      · simp [dictSet, h, Record.get?, ih]

/-- C10: setting an attribute then getting it returns exactly the set value;
getting an attribute that was never set raises `AttributeError` naming the
missing key, never a default. -/
theorem State_set_get (st : State) (k : String) (v : Value) :
    State.getattr (State.setattr st k v) k = .ok v ∧
    (Record.get? st k = Option.none →
      State.getattr st k =
        .error (.attributeError ("'State' object has no attribute '" ++ k ++ "'"))) := by
  constructor
  · simp [State.getattr, State.setattr, get?_dictSet]
  · intro h
    simp [State.getattr, h]

/-- Witness for C10 at a concrete bag, key and value. -/
theorem State_set_get_witness :
    State.getattr (State.setattr [] "answer" (Value.int 42)) "answer" = .ok (Value.int 42) ∧
    State.getattr [] "missing" =
      .error (.attributeError "'State' object has no attribute 'missing'") := by
  refine ⟨(State_set_get [] "answer" (Value.int 42)).1, ?_⟩
  exact (State_set_get [] "missing" (Value.int 0)).2 rfl

/-- C3: for both backends, `dump(name, [])` leaves the filesystem (and the
CSV header-tracking state) untouched and raises nothing. -/
theorem dump_empty_is_noop (ccfg : CSV.Config) (st : CSV.InstState) (fs : FS)
    (name : String) (jcfg : JSON.Config) :
    CSV.dump ccfg st fs name [] = (st, fs, Option.none) ∧
    JSON.dump jcfg fs name [] = (fs, Option.none) :=
  ⟨rfl, rfl⟩

/-- Counterexample to C6 as stated: the empty string is not exactly one
character, yet constructing a CSV syncer with it succeeds (the validator only
rejects values longer than one character). -/
theorem csv_construct_accepts_empty_string :
    ("" : String).length ≠ 1 ∧
    CSV.construct "" "\\" CSV.Quoting.minimal true CSV.SaveStrategy.OVERWRITE =
      .ok { delimiter := "", escape_character := "\\", quoting := CSV.Quoting.minimal,
            header := true, save_strategy := CSV.SaveStrategy.OVERWRITE } :=
  ⟨by decide, rfl⟩

/-- C6 (amended): values longer than one character fail construction with the
field-level `ValueError`, before any I/O; values of length at most one
(including the empty string) are accepted, and an empty delimiter only fails
later, with the csv module's `TypeError`, when `dump` first touches a file. -/
theorem csv_construct_validation (d e : String) (q : CSV.Quoting) (hb : Bool)
    (s : CSV.SaveStrategy) :
    (d.length > 1 →
      CSV.construct d e q hb s =
        .error (.valueError "delimiter must be a one-character string")) ∧
    (d.length ≤ 1 → e.length > 1 →
      CSV.construct d e q hb s =
        .error (.valueError "escape_character must be a one-character string")) ∧
    (d.length ≤ 1 → e.length ≤ 1 →
      CSV.construct d e q hb s =
        .ok { delimiter := d, escape_character := e, quoting := q,
              header := hb, save_strategy := s }) ∧
    (∀ cfg : CSV.Config, ∀ st fs name, ∀ r : Record, ∀ rows,
      cfg.delimiter = "" →
      (CSV.dump cfg st fs name (r :: rows)).2.2 =
        some (.typeError "delimiter or escapechar must be a 1-character string")) := by
  refine ⟨?_, ?_, ?_, ?_⟩
  · intro hd
    simp [CSV.construct, CSV._only_single_characters_allowed, hd, Bind.bind, Except.bind]
  · intro hd he
    simp [CSV.construct, CSV._only_single_characters_allowed, Nat.not_lt.mpr hd, he,
      Bind.bind, Except.bind]
  · intro hd he
    simp [CSV.construct, CSV._only_single_characters_allowed,
      Nat.not_lt.mpr hd, Nat.not_lt.mpr he, Bind.bind, Except.bind]
  · intro cfg st fs name r rows hdelim
    obtain ⟨dl, ec, cq, chb, css⟩ := cfg
    simp only [CSV.Config.delimiter] at hdelim
    subst hdelim
    cases css <;> rfl

/-- Witness for C6's amended claim, at the spec's two-character example, a
two-character escape, the defaults, and an empty delimiter reaching `dump`. -/
theorem csv_construct_validation_witness :
    CSV.construct "||" "\\" CSV.Quoting.minimal true CSV.SaveStrategy.OVERWRITE =
      .error (.valueError "delimiter must be a one-character string") ∧
    CSV.construct "|" "ab" CSV.Quoting.minimal true CSV.SaveStrategy.OVERWRITE =
      .error (.valueError "escape_character must be a one-character string") ∧
    CSV.construct "|" "\\" CSV.Quoting.minimal true CSV.SaveStrategy.OVERWRITE =
      .ok CSV.defaultConfig ∧
    (CSV.dump { delimiter := "", escape_character := "\\", quoting := .minimal,
                header := true, save_strategy := .OVERWRITE }
       ⟨[]⟩ [] "t" [[("a", Value.int 1)]]).2.2 =
      some (.typeError "delimiter or escapechar must be a 1-character string") := by
  refine ⟨(csv_construct_validation "||" "\\" _ _ _).1 (by decide),
    (csv_construct_validation "|" "ab" _ _ _).2.1 (by decide) (by decide),
    (csv_construct_validation "|" "\\" _ _ _).2.2.1 (by decide) (by decide),
    (csv_construct_validation "|" "\\" CSV.Quoting.minimal true
      CSV.SaveStrategy.OVERWRITE).2.2.2 _ ⟨[]⟩ [] "t" [("a", Value.int 1)] [] rfl⟩

/-- Counterexample to C2 as stated: `JSON.load` on a name never written
raises `FileNotFoundError` instead of returning the empty sequence. -/
theorem json_load_never_written_raises :
    JSON.load ⟨Option.none⟩ [] "never_written" = .error PyError.fileNotFoundError := rfl

/-- C2 (amended): on a name never written, the CSV backend returns the empty
sequence without error, but the JSON backend raises `FileNotFoundError` (its
empty-state guard only covers an existing empty file). -/
theorem load_on_missing_file (ccfg : CSV.Config) (jcfg : JSON.Config) (fs : FS)
    (name : String)
    (hc : fs.read (name ++ ".csv") = Option.none)
    (hj : fs.read (name ++ ".json") = Option.none) :
    CSV.load ccfg fs name = .ok [] ∧
    JSON.load jcfg fs name = .error .fileNotFoundError := by
  constructor
  · simp [CSV.load, hc]
  · simp [JSON.load, JSON.make_filename, hj]

/-- Witness for C2's amended claim: an empty directory. -/
theorem load_on_missing_file_witness :
    CSV.load CSV.defaultConfig [] "tbl" = .ok [] ∧
    JSON.load ⟨Option.none⟩ [] "tbl" = .error .fileNotFoundError :=
  load_on_missing_file CSV.defaultConfig ⟨Option.none⟩ [] "tbl" rfl rfl

/-- Counterexample to C8 as stated: with the API call failing, `search` does
not exit cleanly — the caught HTTP error is followed by an
`UnboundLocalError` from the never-assigned response variable. -/
theorem config_search_http_error_not_clean :
    (config_search (.error ⟨"<Response [500 Internal Server Error]>", "boom"⟩)).outcome =
      .raised .unboundLocalError ∧
    Outcome.raised PyError.unboundLocalError ≠ Outcome.completed :=
  ⟨rfl, by decide⟩

/-- C8 (amended): on an HTTP status error, every git-config sub-command
catches the error and prints its status and body; the `HTTPStatusError`
itself is not re-raised, but the command then dereferences the response
variable that was never assigned and raises `UnboundLocalError`. -/
theorem git_config_http_error_behavior (e : HTTPStatusErrorInfo) :
    (config_create (.error e)).printed = httpErrorLines e ∧
    (config_create (.error e)).outcome = .raised .unboundLocalError ∧
    (config_update (.error e)).printed = httpErrorLines e ∧
    (config_update (.error e)).outcome = .raised .unboundLocalError ∧
    (config_search (.error e)).printed = httpErrorLines e ∧
    (config_search (.error e)).outcome = .raised .unboundLocalError ∧
    (config_delete (.error e)).printed = httpErrorLines e ∧
    (config_delete (.error e)).outcome = .raised .unboundLocalError ∧
    Outcome.raised PyError.unboundLocalError ≠ Outcome.raised PyError.httpStatusError :=
  ⟨rfl, rfl, rfl, rfl, rfl, rfl, rfl, rfl, by decide⟩

/-! ## Helper lemmas: filesystem and CSV dump -/

theorem FS.read_write (fs : FS) (n : String) (c : String) :
    (fs.write n c).read n = some c := by
  induction fs with
  | nil => simp [FS.write, FS.read]
  | cons kv rest ih =>
      by_cases h : kv.1 = n
      · simp [FS.write, FS.read, h]
      · simp [FS.write, FS.read, h, ih]

theorem FS.read_append (fs : FS) (n : String) (c : String) :
    (fs.append n c).read n = some ((fs.read n).getD "" ++ c) := by
  simp [FS.append, FS.read_write]

theorem String_mk_append (a b : List Char) :
    String.mk (a ++ b) = String.mk a ++ String.mk b := rfl

theorem InstState_get_set (st : CSV.InstState) (n : String) :
    (st.set n).get n = true := by
  obtain ⟨m⟩ := st
  induction m with
  | nil => simp [CSV.InstState.set, CSV.InstState.set.go, CSV.InstState.get]
  | cons kv rest ih =>
      by_cases h : kv.1 = n
      · simp [CSV.InstState.set, CSV.InstState.set.go, CSV.InstState.get, h]
      · simpa [CSV.InstState.set, CSV.InstState.set.go, CSV.InstState.get, h,
          List.find?] using ih

theorem format_datetime_values_keys (r : Record) :
    Record.keys (format_datetime_values r) = Record.keys r := by
  induction r with
  | nil => rfl
  | cons kv rest ih =>
      obtain ⟨k, v⟩ := kv
      cases v <;> simpa [format_datetime_values, Record.keys] using ih

theorem dict_to_list_ok (fieldnames : List String) (r : Record)
    (h : Record.keys r = fieldnames) :
    CSV.dict_to_list fieldnames r =
      .ok (fieldnames.map (fun k => (Record.get? r k).getD .none)) := by
  simp only [CSV.dict_to_list]
  rw [if_pos]
  rw [List.all_eq_true]
  intro k hk
  rw [h] at hk
  exact List.elem_eq_true_of_mem hk

theorem encodeRows_no_error (dc ec : Char) (q : CSV.Quoting)
    (fieldnames : List String) (data : List Record)
    (h : ∀ r ∈ data, Record.keys r = fieldnames) :
    (CSV.encodeRows dc ec q fieldnames data).2 = Option.none := by
  induction data with
  | nil => rfl
  | cons r rest ih =>
      have hok := dict_to_list_ok fieldnames (format_datetime_values r)
        (by rw [format_datetime_values_keys]; exact h r (by simp))
      simp [CSV.encodeRows, hok]
      exact ih (fun r' hr' => h r' (by simp [hr']))

/-- Unfolding of `CSV.dump` on non-empty data once the dialect check passed. -/
theorem dump_cons_eq (cfg : CSV.Config) (st : CSV.InstState) (fs : FS)
    (filename : String) (r : Record) (rows : List Record) (dc ec : Char)
    (hchars : (CSV.dialect_and_format_parameters cfg).chars = .ok (dc, ec)) :
    CSV.dump cfg st fs filename (r :: rows) =
      (let path := filename ++ ".csv"
       let fs1 : FS := match cfg.save_strategy with
         | .OVERWRITE => fs.write path ""
         | .APPEND => fs
       let stHeader :=
         if cfg.header && !st.get filename then
           (st.set filename, CSV.writeheaderLine dc ec cfg.quoting (Record.keys r))
         else (st, ([] : List Char))
       let rec' := CSV.encodeRows dc ec cfg.quoting (Record.keys r) (r :: rows)
       (stHeader.1, fs1.append path (String.mk (stHeader.2 ++ rec'.1)), rec'.2)) := by
  simp [CSV.dump, hchars, Record.keys]

/-- C4: a CSV syncer in APPEND mode with the header enabled, dumping twice to
the same name it has not yet written a header for, writes the header row
exactly once: the file gains the header followed by both payloads' encoded
records, in call order, after whatever it held before. -/
theorem csv_append_header_once
    (cfg : CSV.Config) (st0 : CSV.InstState) (fs0 : FS) (name : String)
    (r1 : Record) (d1 : List Record) (r2 : Record) (d2 : List Record)
    (dc ec : Char)
    (hchars : (CSV.dialect_and_format_parameters cfg).chars = .ok (dc, ec))
    (happ : cfg.save_strategy = .APPEND)
    (hhdr : cfg.header = true)
    (hfresh : st0.get name = false)
    (hwf1 : ∀ r ∈ (r1 :: d1), Record.keys r = Record.keys r1)
    (hwf2 : ∀ r ∈ (r2 :: d2), Record.keys r = Record.keys r2) :
    ∃ st1 fs1 st2 fs2,
      CSV.dump cfg st0 fs0 name (r1 :: d1) = (st1, fs1, Option.none) ∧
      CSV.dump cfg st1 fs1 name (r2 :: d2) = (st2, fs2, Option.none) ∧
      fs2.read (name ++ ".csv") =
        some (((fs0.read (name ++ ".csv")).getD "") ++
          String.mk (CSV.writeheaderLine dc ec cfg.quoting (Record.keys r1) ++
            (CSV.encodeRows dc ec cfg.quoting (Record.keys r1) (r1 :: d1)).1 ++
            (CSV.encodeRows dc ec cfg.quoting (Record.keys r2) (r2 :: d2)).1)) := by
  have herr1 := encodeRows_no_error dc ec cfg.quoting (Record.keys r1) (r1 :: d1) hwf1
  have herr2 := encodeRows_no_error dc ec cfg.quoting (Record.keys r2) (r2 :: d2) hwf2
  have h1 := dump_cons_eq cfg st0 fs0 name r1 d1 dc ec hchars
  rw [happ, hhdr, hfresh] at h1
  simp only [Bool.not_false, Bool.and_self, if_true] at h1
  refine ⟨st0.set name,
    fs0.append (name ++ ".csv")
      (String.mk (CSV.writeheaderLine dc ec cfg.quoting (Record.keys r1) ++
        (CSV.encodeRows dc ec cfg.quoting (Record.keys r1) (r1 :: d1)).1)),
    st0.set name,
    (fs0.append (name ++ ".csv")
      (String.mk (CSV.writeheaderLine dc ec cfg.quoting (Record.keys r1) ++
        (CSV.encodeRows dc ec cfg.quoting (Record.keys r1) (r1 :: d1)).1))).append
      (name ++ ".csv")
      (String.mk ((CSV.encodeRows dc ec cfg.quoting (Record.keys r2) (r2 :: d2)).1)),
    ?_, ?_, ?_⟩
  · rw [h1, herr1]
  · have h2 := dump_cons_eq cfg (st0.set name)
      (fs0.append (name ++ ".csv")
        (String.mk (CSV.writeheaderLine dc ec cfg.quoting (Record.keys r1) ++
          (CSV.encodeRows dc ec cfg.quoting (Record.keys r1) (r1 :: d1)).1)))
      name r2 d2 dc ec hchars
    rw [happ, hhdr, InstState_get_set] at h2
    simp only [Bool.not_true, Bool.and_false, if_false] at h2
    rw [h2, herr2]
    simp
  · rw [FS.read_append, FS.read_append]
    simp [String_mk_append, String.append_assoc]

/-- C5: a CSV syncer in OVERWRITE mode truncates the target file on every
non-empty `dump`, so after dumping twice to the same name the file holds
exactly the second call's encoded records (whatever the directory and
header-tracking state held before). -/
theorem csv_overwrite_last_wins
    (cfg : CSV.Config) (st0 : CSV.InstState) (fs0 : FS) (name : String)
    (r1 : Record) (d1 : List Record) (r2 : Record) (d2 : List Record)
    (dc ec : Char)
    (hchars : (CSV.dialect_and_format_parameters cfg).chars = .ok (dc, ec))
    (hover : cfg.save_strategy = .OVERWRITE)
    (hwf1 : ∀ r ∈ (r1 :: d1), Record.keys r = Record.keys r1)
    (hwf2 : ∀ r ∈ (r2 :: d2), Record.keys r = Record.keys r2) :
    ∃ st1 fs1 st2 fs2,
      CSV.dump cfg st0 fs0 name (r1 :: d1) = (st1, fs1, Option.none) ∧
      CSV.dump cfg st1 fs1 name (r2 :: d2) = (st2, fs2, Option.none) ∧
      fs2.read (name ++ ".csv") =
        some (String.mk ((CSV.encodeRows dc ec cfg.quoting (Record.keys r2) (r2 :: d2)).1)) := by
  have herr1 := encodeRows_no_error dc ec cfg.quoting (Record.keys r1) (r1 :: d1) hwf1
  have herr2 := encodeRows_no_error dc ec cfg.quoting (Record.keys r2) (r2 :: d2) hwf2
  have h1 := dump_cons_eq cfg st0 fs0 name r1 d1 dc ec hchars
  rw [hover] at h1
  simp only [] at h1
  -- after the first dump the header for `name` counts as written whenever
  -- headers are on at all, so the second dump never writes one
  have hst1 : ∀ st1 : CSV.InstState,
      (if cfg.header && !st0.get name then
        (st0.set name, CSV.writeheaderLine dc ec cfg.quoting (Record.keys r1))
      else (st0, ([] : List Char))).1 = st1 →
      (cfg.header && !st1.get name) = false := by
    intro st1 hset
    by_cases hh : cfg.header
    · by_cases hg : st0.get name
      · rw [if_neg (by simp [hh, hg])] at hset
        simp [← hset, hh, hg]
      · rw [if_pos (by simp [hh, hg])] at hset
        simp [← hset, hh, InstState_get_set]
    · simp [hh]
  set stA := (if cfg.header && !st0.get name then
      (st0.set name, CSV.writeheaderLine dc ec cfg.quoting (Record.keys r1))
    else (st0, ([] : List Char))) with hstA
  refine ⟨stA.1,
    (fs0.write (name ++ ".csv") "").append (name ++ ".csv")
      (String.mk (stA.2 ++ (CSV.encodeRows dc ec cfg.quoting (Record.keys r1) (r1 :: d1)).1)),
    stA.1,
    (((fs0.write (name ++ ".csv") "").append (name ++ ".csv")
        (String.mk (stA.2 ++
          (CSV.encodeRows dc ec cfg.quoting (Record.keys r1) (r1 :: d1)).1))
      |>.write (name ++ ".csv") "").append (name ++ ".csv")
        (String.mk ((CSV.encodeRows dc ec cfg.quoting (Record.keys r2) (r2 :: d2)).1))),
    ?_, ?_, ?_⟩
  · rw [h1, herr1]
  · have h2 := dump_cons_eq cfg stA.1
      ((fs0.write (name ++ ".csv") "").append (name ++ ".csv")
        (String.mk (stA.2 ++ (CSV.encodeRows dc ec cfg.quoting (Record.keys r1) (r1 :: d1)).1)))
      name r2 d2 dc ec hchars
    rw [hover, hst1 stA.1 rfl] at h2
    simp only [if_false] at h2
    rw [h2, herr2]
    simp
  · rw [FS.read_append, FS.read_write]
    simp

/-- Witness for C4: a fresh APPEND syncer dumping `a=1` then `a=2`. -/
theorem csv_append_header_once_witness :
    ∃ st1 fs1 st2 fs2,
      CSV.dump { delimiter := "|", escape_character := "\\", quoting := .minimal,
                 header := true, save_strategy := .APPEND }
        ⟨[]⟩ [] "t" [[("a", Value.int 1)]] = (st1, fs1, Option.none) ∧
      CSV.dump { delimiter := "|", escape_character := "\\", quoting := .minimal,
                 header := true, save_strategy := .APPEND }
        st1 fs1 "t" [[("a", Value.int 2)]] = (st2, fs2, Option.none) ∧
      fs2.read ("t" ++ ".csv") =
        some ((FS.read [] ("t" ++ ".csv")).getD "" ++
          String.mk (CSV.writeheaderLine '|' '\\' .minimal
              (Record.keys [("a", Value.int 1)]) ++
            (CSV.encodeRows '|' '\\' .minimal (Record.keys [("a", Value.int 1)])
              [[("a", Value.int 1)]]).1 ++
            (CSV.encodeRows '|' '\\' .minimal (Record.keys [("a", Value.int 2)])
              [[("a", Value.int 2)]]).1)) :=
  csv_append_header_once
    { delimiter := "|", escape_character := "\\", quoting := .minimal,
      header := true, save_strategy := .APPEND }
    ⟨[]⟩ [] "t" [("a", Value.int 1)] [] [("a", Value.int 2)] [] '|' '\\'
    rfl rfl rfl rfl (by simp) (by simp)

/-- Witness for C5: a fresh OVERWRITE syncer dumping `a=1` then `a=2`. -/
theorem csv_overwrite_last_wins_witness :
    ∃ st1 fs1 st2 fs2,
      CSV.dump CSV.defaultConfig ⟨[]⟩ [] "t" [[("a", Value.int 1)]] =
        (st1, fs1, Option.none) ∧
      CSV.dump CSV.defaultConfig st1 fs1 "t" [[("a", Value.int 2)]] =
        (st2, fs2, Option.none) ∧
      fs2.read ("t" ++ ".csv") =
        some (String.mk ((CSV.encodeRows '|' '\\' .minimal
          (Record.keys [("a", Value.int 2)]) [[("a", Value.int 2)]]).1)) :=
  csv_overwrite_last_wins CSV.defaultConfig ⟨[]⟩ [] "t"
    [("a", Value.int 1)] [] [("a", Value.int 2)] [] '|' '\\'
    rfl rfl (by simp) (by simp)

/-! ## Helper lemmas: field escaping (C7) -/

/-- The spec's description of the writer's escaping: a literal quote
character (and the escape character itself) is prefixed with the configured
escape character. -/
def spec_escaped_quote_rendering (ec : Char) (s : String) : List Char :=
  s.toList.flatMap (fun c => if c = CSV.quotechar || c = ec then [ec, c] else [c])

/-- The rejected alternative: the csv default of doubling the quote
character (`doublequote = True`). -/
def spec_doubled_quote_rendering (s : String) : List Char :=
  s.toList.flatMap
    (fun c => if c = CSV.quotechar then [CSV.quotechar, CSV.quotechar] else [c])

theorem encodeChar_fst (dc ec c : Char) :
    (CSV.encodeChar dc ec c).1 =
      (if c = CSV.quotechar || c = ec then [ec, c] else [c]) := by
  unfold CSV.encodeChar
  by_cases hq : c = CSV.quotechar
  · simp [hq]
  · by_cases he : c = ec
    · simp [hq, he]
    · simp [hq, he]
      split
      · rfl
      · rfl

theorem encodeData_fst (dc ec : Char) (l : List Char) :
    (CSV.encodeData dc ec l).1 =
      l.flatMap (fun c => if c = CSV.quotechar || c = ec then [ec, c] else [c]) := by
  induction l with
  | nil => rfl
  | cons c cs ih => simp [CSV.encodeData, encodeChar_fst, ih]

theorem encodeData_snd_of_contains (dc ec : Char) (l : List Char)
    (h : dc ∈ l) (hdQ : dc ≠ CSV.quotechar) (hde : dc ≠ ec) :
    (CSV.encodeData dc ec l).2 = true := by
  induction l with
  | nil => simp at h
  | cons c cs ih =>
      rcases List.mem_cons.mp h with hc | hc
      · subst hc
        simp [CSV.encodeData, CSV.encodeChar, hdQ, hde]
      · simp [CSV.encodeData, ih hc]

theorem count_escaped_rendering (ec : Char) (hecQ : ec ≠ CSV.quotechar)
    (l : List Char) :
    (l.flatMap (fun c => if c = CSV.quotechar || c = ec then [ec, c] else [c])).count
        CSV.quotechar = l.count CSV.quotechar := by
  induction l with
  | nil => rfl
  | cons c cs ih =>
      rw [List.flatMap_cons, List.count_append, ih, List.count_cons]
      by_cases hq : c = CSV.quotechar
      · subst hq
        simp [hecQ, Ne.symm hecQ]
        omega
      · by_cases he : c = ec
        · subst he
          simp [List.count_cons, hq]
        · simp [hq, he, Ne.symm hq]

theorem count_doubled_rendering (l : List Char) :
    (l.flatMap (fun c =>
        if c = CSV.quotechar then [CSV.quotechar, CSV.quotechar] else [c])).count
      CSV.quotechar = 2 * l.count CSV.quotechar := by
  induction l with
  | nil => rfl
  | cons c cs ih =>
      by_cases hq : c = CSV.quotechar <;>
        simp [hq, List.count_cons, List.count_append, ih] <;> omega

theorem escaped_ne_doubled (ec : Char) (s : String)
    (hecQ : ec ≠ CSV.quotechar) (hq : CSV.quotechar ∈ s.toList) :
    spec_escaped_quote_rendering ec s ≠ spec_doubled_quote_rendering s := by
  intro h
  have hcount := congrArg (List.count CSV.quotechar) h
  rw [spec_escaped_quote_rendering, spec_doubled_quote_rendering,
    count_escaped_rendering ec hecQ, count_doubled_rendering] at hcount
  have hpos : 0 < s.toList.count CSV.quotechar := List.count_pos_iff.mpr hq
  omega

theorem intercalate_single (sep : List Char) (x : List Char) :
    List.intercalate sep [x] = x := by
  simp [List.intercalate, List.intersperse]

theorem encodeField_quoted (dc ec : Char) (q : CSV.Quoting) (s : String)
    (hq2 : (q = CSV.Quoting.all || (CSV.encodeData dc ec s.toList).2) = true) :
    CSV.encodeField dc ec q (Value.str s) =
      CSV.quotechar :: ((CSV.encodeData dc ec s.toList).1 ++ [CSV.quotechar]) := by
  unfold CSV.encodeField
  simp only []
  rw [if_pos]
  · rfl
  · simpa using hq2

/-- C7: dumping a text field that the writer must quote renders each literal
quote character inside the quoted field as the configured escape character
followed by the quote character, and this rendering differs from the doubled
rendering `<quote><quote>` whenever the field contains a quote at all. -/
theorem csv_quote_escaped_not_doubled (cfg : CSV.Config) (name key s : String)
    (dc ec : Char)
    (hchars : (CSV.dialect_and_format_parameters cfg).chars = .ok (dc, ec))
    (hdQ : dc ≠ CSV.quotechar) (hecQ : ec ≠ CSV.quotechar) (hde : dc ≠ ec)
    (hquoted : cfg.quoting = .all ∨ dc ∈ s.toList)
    (hhasq : CSV.quotechar ∈ s.toList) :
    ∃ st' fs',
      CSV.dump cfg ⟨[]⟩ [] name [[(key, Value.str s)]] = (st', fs', Option.none) ∧
      fs'.read (name ++ ".csv") = some (String.mk
        ((if cfg.header then CSV.writeheaderLine dc ec cfg.quoting [key] else []) ++
          CSV.quotechar :: (spec_escaped_quote_rendering ec s ++
            [CSV.quotechar, '\r', '\n']))) ∧
      spec_escaped_quote_rendering ec s ≠ spec_doubled_quote_rendering s := by
  have hq2 : (cfg.quoting = CSV.Quoting.all || (CSV.encodeData dc ec s.toList).2) = true := by
    rcases hquoted with h | h
    · simp [h]
    · rw [encodeData_snd_of_contains dc ec s.toList h hdQ hde, Bool.or_true]
  have hfield := encodeField_quoted dc ec cfg.quoting s hq2
  have hrowline : CSV.encodeRowLine dc ec cfg.quoting [Value.str s] =
      CSV.quotechar :: (spec_escaped_quote_rendering ec s ++
        [CSV.quotechar, '\r', '\n']) := by
    unfold CSV.encodeRowLine
    rw [List.map_cons, List.map_nil, intercalate_single, hfield]
    simp [spec_escaped_quote_rendering, encodeData_fst]
  have hrows : CSV.encodeRows dc ec cfg.quoting [key] [[(key, Value.str s)]] =
      (CSV.quotechar :: (spec_escaped_quote_rendering ec s ++
        [CSV.quotechar, '\r', '\n']), Option.none) := by
    have hd2l : CSV.dict_to_list [key] (format_datetime_values [(key, Value.str s)]) =
        .ok [Value.str s] := by
      simp [format_datetime_values, CSV.dict_to_list, Record.keys, Record.get?]
    unfold CSV.encodeRows
    rw [hd2l]
    simp [CSV.encodeRows, hrowline]
  have h1 := dump_cons_eq cfg ⟨[]⟩ [] name [(key, Value.str s)] [] dc ec hchars
  have hkeys : Record.keys [(key, Value.str s)] = [key] := rfl
  rw [hkeys, hrows] at h1
  have hget : (CSV.InstState.mk []).get name = false := rfl
  rw [hget] at h1
  simp only [Bool.not_false, Bool.and_true] at h1
  refine ⟨_, _, h1, ?_, escaped_ne_doubled ec s hecQ hhasq⟩
  by_cases hh : cfg.header
  · cases hss : cfg.save_strategy
    · simp [hh, hss, FS.read_append, FS.read_write, FS.read]
    · simp [hh, hss, FS.read_append, FS.read_write, FS.read]
  · cases hss : cfg.save_strategy
    · simp [hh, hss, FS.read_append, FS.read_write, FS.read]
    · simp [hh, hss, FS.read_append, FS.read_write, FS.read]

/-- Witness for C7: the default dialect dumping `he said "hi"|x`, a field
containing both the delimiter (forcing quoting) and a literal quote. -/
theorem csv_quote_escaped_not_doubled_witness :
    ∃ st' fs',
      CSV.dump CSV.defaultConfig ⟨[]⟩ [] "t"
        [[("a", Value.str "he said \"hi\"|x")]] = (st', fs', Option.none) ∧
      fs'.read ("t" ++ ".csv") = some (String.mk
        ((if CSV.defaultConfig.header then
            CSV.writeheaderLine '|' '\\' CSV.defaultConfig.quoting ["a"] else []) ++
          CSV.quotechar :: (spec_escaped_quote_rendering '\\' "he said \"hi\"|x" ++
            [CSV.quotechar, '\r', '\n']))) ∧
      spec_escaped_quote_rendering '\\' "he said \"hi\"|x" ≠
        spec_doubled_quote_rendering "he said \"hi\"|x" :=
  csv_quote_escaped_not_doubled CSV.defaultConfig "t" "a" "he said \"hi\"|x" '|' '\\'
    rfl (by decide) (by decide) (by decide) (Or.inr (by decide)) (by decide)


/-! ## Helper lemmas: JSON string escaping round-trip -/

theorem char_valid_range (c : Char) :
    c.toNat < 55296 ∨ (57343 < c.toNat ∧ c.toNat < 1114112) := by
  have h := c.valid
  unfold UInt32.isValidChar Nat.isValidChar at h
  exact h

theorem hexDigitChar_mod (m : Nat) : hexDigitChar m = hexDigitChar (m % 16) := by
  unfold hexDigitChar
  rw [Nat.mod_mod_of_dvd]
  exact dvd_refl 16

theorem hexVal_hexDigitChar (m : Nat) : hexVal (hexDigitChar m) = .ok (m % 16) := by
  rw [hexDigitChar_mod]
  have hlt : m % 16 < 16 := Nat.mod_lt _ (by norm_num)
  set d := m % 16 with hd
  interval_cases d <;> rfl

theorem hex4Val_digits (n : Nat) :
    hex4Val (hexDigitChar (n / 4096)) (hexDigitChar (n / 256))
      (hexDigitChar (n / 16)) (hexDigitChar n) = .ok (n % 65536) := by
  unfold hex4Val
  simp only [hexVal_hexDigitChar]
  simp only [Bind.bind, Except.bind]
  congr 1
  omega

theorem decodeUEscape_single (n : Nat) (rest : List Char)
    (hn : n < 65536) (hlo : ¬(55296 ≤ n ∧ n ≤ 56319))
    (hhi : ¬(56320 ≤ n ∧ n ≤ 57343)) :
    decodeUEscape (hex4 n ++ rest) = some (Char.ofNat n, rest) := by
  unfold hex4 decodeUEscape
  simp only [List.cons_append, List.nil_append]
  rw [hex4Val_digits, Nat.mod_eq_of_lt hn]
  simp only []
  rw [if_neg (by simp; omega), if_neg (by simp; omega)]

theorem decodeUEscape_pair (hi lo : Nat) (rest : List Char)
    (hhi1 : 55296 ≤ hi) (hhi2 : hi ≤ 56319) (hlo1 : 56320 ≤ lo) (hlo2 : lo ≤ 57343) :
    decodeUEscape (hex4 hi ++ '\\' :: 'u' :: (hex4 lo ++ rest)) =
      some (Char.ofNat (65536 + (hi - 55296) * 1024 + (lo - 56320)), rest) := by
  unfold hex4 decodeUEscape
  simp only [List.cons_append, List.nil_append]
  rw [hex4Val_digits, Nat.mod_eq_of_lt (by omega)]
  simp only []
  rw [if_pos (by simp; omega), if_pos (by simp)]
  rw [hex4Val_digits, Nat.mod_eq_of_lt (by omega)]
  simp only []
  rw [if_pos (by simp; omega)]

theorem psb_close (fuel : Nat) (acc rest : List Char) :
    parseStringBody (fuel + 1) acc ('"' :: rest) =
      .ok (String.mk acc.reverse, rest) := rfl

theorem psb_named (fuel : Nat) (acc : List Char) (e ch : Char) (rest : List Char)
    (hmap : (e = '"' ∧ ch = '"') ∨ (e = '\\' ∧ ch = '\\') ∨ (e = 'n' ∧ ch = '\n') ∨
      (e = 'r' ∧ ch = '\r') ∨ (e = 't' ∧ ch = '\t') ∨
      (e = 'b' ∧ ch = Char.ofNat 8) ∨ (e = 'f' ∧ ch = Char.ofNat 12)) :
    parseStringBody (fuel + 1) acc ('\\' :: e :: rest) =
      parseStringBody fuel (ch :: acc) rest := by
  rcases hmap with ⟨he, hc⟩ | ⟨he, hc⟩ | ⟨he, hc⟩ | ⟨he, hc⟩ | ⟨he, hc⟩ | ⟨he, hc⟩ |
    ⟨he, hc⟩ <;> subst he <;> subst hc <;> rfl

theorem psb_plain (fuel : Nat) (acc : List Char) (c : Char) (rest : List Char)
    (h1 : c ≠ '"') (h2 : c ≠ '\\') (h3 : ¬ c.toNat < 32) :
    parseStringBody (fuel + 1) acc (c :: rest) =
      parseStringBody fuel (c :: acc) rest := by
  show (if c = '"' then _ else _) = _
  rw [if_neg h1, if_neg h2, if_neg h3]

theorem psb_u (fuel : Nat) (acc : List Char) (ch : Char) (tail rest : List Char)
    (h : decodeUEscape tail = some (ch, rest)) :
    parseStringBody (fuel + 1) acc ('\\' :: 'u' :: tail) =
      parseStringBody fuel (ch :: acc) rest := by
  show (match decodeUEscape tail with
    | some cr => parseStringBody fuel (cr.1 :: acc) cr.2
    | Option.none => .error .jsonDecodeError) = _
  rw [h]

theorem encodeStringChar_length_pos (ea : Bool) (c : Char) :
    0 < (encodeStringChar ea c).length := by
  unfold encodeStringChar
  repeat' split
  all_goals simp [hex4]

theorem parseStringBody_inv (ea : Bool) (l : List Char) :
    ∀ (acc rest : List Char) (fuel : Nat),
      (l.flatMap (encodeStringChar ea)).length < fuel →
      parseStringBody fuel acc (l.flatMap (encodeStringChar ea) ++ '"' :: rest) =
        .ok (String.mk (acc.reverse ++ l), rest) := by
  induction l with
  | nil =>
      intro acc rest fuel hf
      obtain ⟨f, rfl⟩ : ∃ f, fuel = f + 1 := ⟨fuel - 1, by omega⟩
      rw [List.flatMap_nil, List.nil_append, psb_close]
      simp
  | cons c cs ih =>
      intro acc rest fuel hf
      obtain ⟨f, rfl⟩ : ∃ f, fuel = f + 1 := ⟨fuel - 1, by omega⟩
      have hlen : (cs.flatMap (encodeStringChar ea)).length < f := by
        have hp := encodeStringChar_length_pos ea c
        rw [List.flatMap_cons, List.length_append] at hf
        omega
      rw [List.flatMap_cons, List.append_assoc]
      have hfix : ∀ r : Except PyError (String × List Char),
          r = .ok (String.mk ((c :: acc).reverse ++ cs), rest) →
          r = .ok (String.mk (acc.reverse ++ c :: cs), rest) := by
        intro r h
        rw [h]
        simp
      by_cases h1 : c = '"'
      · subst h1
        show parseStringBody (f + 1) acc ('\\' :: '"' ::
          (cs.flatMap (encodeStringChar ea) ++ '"' :: rest)) = _
        rw [psb_named f acc '"' '"' _ (Or.inl ⟨rfl, rfl⟩)]
        exact hfix _ (ih ('"' :: acc) rest f hlen)
      · by_cases h2 : c = '\\'
        · subst h2
          show parseStringBody (f + 1) acc ('\\' :: '\\' ::
            (cs.flatMap (encodeStringChar ea) ++ '"' :: rest)) = _
          rw [psb_named f acc '\\' '\\' _ (Or.inr (Or.inl ⟨rfl, rfl⟩))]
          exact hfix _ (ih ('\\' :: acc) rest f hlen)
        · by_cases h3 : c = '\n'
          · subst h3
            show parseStringBody (f + 1) acc ('\\' :: 'n' ::
              (cs.flatMap (encodeStringChar ea) ++ '"' :: rest)) = _
            rw [psb_named f acc 'n' '\n' _ (Or.inr (Or.inr (Or.inl ⟨rfl, rfl⟩)))]
            exact hfix _ (ih ('\n' :: acc) rest f hlen)
          · by_cases h4 : c = '\r'
            · subst h4
              show parseStringBody (f + 1) acc ('\\' :: 'r' ::
                (cs.flatMap (encodeStringChar ea) ++ '"' :: rest)) = _
              rw [psb_named f acc 'r' '\r' _
                (Or.inr (Or.inr (Or.inr (Or.inl ⟨rfl, rfl⟩))))]
              exact hfix _ (ih ('\r' :: acc) rest f hlen)
            · by_cases h5 : c = '\t'
              · subst h5
                show parseStringBody (f + 1) acc ('\\' :: 't' ::
                  (cs.flatMap (encodeStringChar ea) ++ '"' :: rest)) = _
                rw [psb_named f acc 't' '\t' _
                  (Or.inr (Or.inr (Or.inr (Or.inr (Or.inl ⟨rfl, rfl⟩)))))]
                exact hfix _ (ih ('\t' :: acc) rest f hlen)
              · by_cases h6 : c = Char.ofNat 8
                · subst h6
                  show parseStringBody (f + 1) acc ('\\' :: 'b' ::
                    (cs.flatMap (encodeStringChar ea) ++ '"' :: rest)) = _
                  rw [psb_named f acc 'b' (Char.ofNat 8) _
                    (Or.inr (Or.inr (Or.inr (Or.inr (Or.inr (Or.inl ⟨rfl, rfl⟩))))))]
                  exact hfix _ (ih (Char.ofNat 8 :: acc) rest f hlen)
                · by_cases h7 : c = Char.ofNat 12
                  · subst h7
                    show parseStringBody (f + 1) acc ('\\' :: 'f' ::
                      (cs.flatMap (encodeStringChar ea) ++ '"' :: rest)) = _
                    rw [psb_named f acc 'f' (Char.ofNat 12) _
                      (Or.inr (Or.inr (Or.inr (Or.inr (Or.inr (Or.inr ⟨rfl, rfl⟩))))))]
                    exact hfix _ (ih (Char.ofNat 12 :: acc) rest f hlen)
                  · by_cases h8 : c.toNat < 32
                    · have henc : encodeStringChar ea c = '\\' :: 'u' :: hex4 c.toNat := by
                        unfold encodeStringChar
                        rw [if_neg h1, if_neg h2, if_neg h3, if_neg h4, if_neg h5,
                          if_neg h6, if_neg h7, if_pos h8]
                      rw [henc, List.cons_append, List.cons_append]
                      rw [psb_u f acc (Char.ofNat c.toNat) _ _
                        (decodeUEscape_single c.toNat _ (by omega) (by omega) (by omega))]
                      rw [Char.ofNat_toNat]
                      exact hfix _ (ih (c :: acc) rest f hlen)
                    · have hval := char_valid_range c
                      by_cases h9 : (ea && decide (126 < c.toNat)) = true
                      · by_cases h10 : c.toNat < 65536
                        · have henc : encodeStringChar ea c =
                              '\\' :: 'u' :: hex4 c.toNat := by
                            unfold encodeStringChar
                            rw [if_neg h1, if_neg h2, if_neg h3, if_neg h4, if_neg h5,
                              if_neg h6, if_neg h7, if_neg h8, if_pos h9, if_pos h10]
                          rw [henc, List.cons_append, List.cons_append]
                          rw [psb_u f acc (Char.ofNat c.toNat) _ _
                            (decodeUEscape_single c.toNat _ h10
                              (by rcases hval with h | h <;> omega)
                              (by rcases hval with h | h <;> omega))]
                          rw [Char.ofNat_toNat]
                          exact hfix _ (ih (c :: acc) rest f hlen)
                        · have hlt : c.toNat < 1114112 := by
                            rcases hval with h | h
                            · omega
                            · exact h.2
                          have henc : encodeStringChar ea c =
                              '\\' :: 'u' :: (hex4 (55296 + (c.toNat - 65536) / 1024) ++
                                '\\' :: 'u' :: hex4 (56320 + (c.toNat - 65536) % 1024)) := by
                            unfold encodeStringChar
                            rw [if_neg h1, if_neg h2, if_neg h3, if_neg h4, if_neg h5,
                              if_neg h6, if_neg h7, if_neg h8, if_pos h9, if_neg h10]
                            rfl
                          rw [henc, List.cons_append, List.cons_append, List.append_assoc,
                            List.cons_append, List.cons_append]
                          have hmod : (c.toNat - 65536) % 1024 < 1024 :=
                            Nat.mod_lt _ (by norm_num)
                          have hdiv : (c.toNat - 65536) / 1024 < 1024 := by omega
                          rw [psb_u f acc _ _ _
                            (decodeUEscape_pair (55296 + (c.toNat - 65536) / 1024)
                              (56320 + (c.toNat - 65536) % 1024) _
                              (by omega) (by omega) (by omega) (by omega))]
                          have hchar : 65536 +
                              ((55296 + (c.toNat - 65536) / 1024) - 55296) * 1024 +
                              ((56320 + (c.toNat - 65536) % 1024) - 56320) = c.toNat := by
                            omega
                          rw [hchar, Char.ofNat_toNat]
                          exact hfix _ (ih (c :: acc) rest f hlen)
                      · have henc : encodeStringChar ea c = [c] := by
                          unfold encodeStringChar
                          rw [if_neg h1, if_neg h2, if_neg h3, if_neg h4, if_neg h5,
                            if_neg h6, if_neg h7, if_neg h8, if_neg h9]
                        rw [henc, List.singleton_append]
                        rw [psb_plain f acc c _ h1 h2 h8]
                        exact hfix _ (ih (c :: acc) rest f hlen)

/-! ## Helper lemmas: decimal rendering round-trip -/

/-- Decimal digits of a natural number (most significant first), the
specification of what `Nat.toDigitsCore` computes. -/
def decDigits (n : Nat) : List Char :=
  if n < 10 then [Nat.digitChar n]
  else decDigits (n / 10) ++ [Nat.digitChar (n % 10)]
termination_by n
decreasing_by exact Nat.div_lt_self (by omega) (by norm_num)

theorem decDigits_small (n : Nat) (h : n < 10) : decDigits n = [Nat.digitChar n] := by
  rw [decDigits, if_pos h]

theorem decDigits_large (n : Nat) (h : ¬ n < 10) :
    decDigits n = decDigits (n / 10) ++ [Nat.digitChar (n % 10)] := by
  rw [decDigits, if_neg h]

theorem toDigitsCore_eq_decDigits (n : Nat) :
    ∀ (fuel : Nat) (ds : List Char), n < 10 ^ fuel → 0 < fuel →
      Nat.toDigitsCore 10 fuel n ds = decDigits n ++ ds := by
  induction n using Nat.strong_induction_on with
  | _ n ih =>
      intro fuel ds hfuel hpos
      match fuel with
      | 0 => omega
      | f + 1 =>
          by_cases h10 : n < 10
          · have hdiv : n / 10 = 0 := Nat.div_eq_of_lt h10
            rw [decDigits_small n h10]
            show (if n / 10 = 0 then Nat.digitChar (n % 10) :: ds
              else Nat.toDigitsCore 10 f (n / 10) (Nat.digitChar (n % 10) :: ds)) = _
            rw [if_pos hdiv, Nat.mod_eq_of_lt h10]
            rfl
          · have hdiv : ¬ n / 10 = 0 := by
              intro h
              exact h10 (by omega)
            rw [decDigits_large n h10]
            show (if n / 10 = 0 then Nat.digitChar (n % 10) :: ds
              else Nat.toDigitsCore 10 f (n / 10) (Nat.digitChar (n % 10) :: ds)) = _
            rw [if_neg hdiv]
            have hf' : n / 10 < 10 ^ f := by
              rw [pow_succ] at hfuel
              omega
            have hfpos : 0 < f := by
              rcases Nat.eq_zero_or_pos f with hf0 | hf0
              · rw [hf0, pow_zero] at hf'
                omega
              · exact hf0
            rw [ih (n / 10) (Nat.div_lt_self (by omega) (by norm_num)) f
              (Nat.digitChar (n % 10) :: ds) hf' hfpos]
            simp

theorem toDigits_eq_decDigits (n : Nat) : Nat.toDigits 10 n = decDigits n := by
  have h : n < 10 ^ (n + 1) := by
    calc n < 10 ^ n := Nat.lt_pow_self (by norm_num) n
    _ ≤ 10 ^ (n + 1) := Nat.pow_le_pow_right (by norm_num) (by omega)
  rw [Nat.toDigits, toDigitsCore_eq_decDigits n (n + 1) [] h (by omega), List.append_nil]

theorem digitChar_props (d : Nat) (h : d < 10) :
    isDig (Nat.digitChar d) = true ∧ (Nat.digitChar d).toNat - 48 = d ∧
      (1 ≤ d → Nat.digitChar d ≠ '0') := by
  interval_cases d <;> exact ⟨by decide, by decide, by decide⟩

theorem decDigits_ne_nil (n : Nat) : decDigits n ≠ [] := by
  by_cases h : n < 10
  · rw [decDigits_small n h]
    simp
  · rw [decDigits_large n h]
    simp

theorem decDigits_all_digits (n : Nat) : ∀ c ∈ decDigits n, isDig c = true := by
  induction n using Nat.strong_induction_on with
  | _ n ih =>
      by_cases h : n < 10
      · rw [decDigits_small n h]
        intro c hc
        rw [List.mem_singleton] at hc
        subst hc
        exact (digitChar_props n h).1
      · rw [decDigits_large n h]
        intro c hc
        rcases List.mem_append.mp hc with hm | hm
        · exact ih (n / 10) (Nat.div_lt_self (by omega) (by norm_num)) c hm
        · rw [List.mem_singleton] at hm
          subst hm
          exact (digitChar_props (n % 10) (Nat.mod_lt _ (by norm_num))).1

theorem digitsToNat_append_one (a : List Char) (c : Char) :
    digitsToNat (a ++ [c]) = 10 * digitsToNat a + (c.toNat - 48) := by
  unfold digitsToNat
  rw [List.foldl_append]
  simp [Nat.mul_comm]

theorem digitsToNat_decDigits (n : Nat) : digitsToNat (decDigits n) = n := by
  induction n using Nat.strong_induction_on with
  | _ n ih =>
      by_cases h : n < 10
      · rw [decDigits_small n h]
        unfold digitsToNat
        simp [(digitChar_props n h).2.1]
      · rw [decDigits_large n h, digitsToNat_append_one,
          ih (n / 10) (Nat.div_lt_self (by omega) (by norm_num)),
          (digitChar_props (n % 10) (Nat.mod_lt _ (by norm_num))).2.1]
        omega

theorem decDigits_head_ne_zero (n : Nat) (hn : 1 ≤ n) :
    ∀ c cs, decDigits n = c :: cs → c ≠ '0' := by
  induction n using Nat.strong_induction_on with
  | _ n ih =>
      by_cases h : n < 10
      · rw [decDigits_small n h]
        intro c cs hc
        injection hc with hc1 hc2
        subst hc1
        exact (digitChar_props n h).2.2 hn
      · rw [decDigits_large n h]
        intro c cs hc
        obtain ⟨c', cs', hsplit⟩ :
            ∃ c' cs', decDigits (n / 10) = c' :: cs' := by
          rcases hd : decDigits (n / 10) with _ | ⟨c', cs'⟩
          · exact absurd hd (decDigits_ne_nil _)
          · exact ⟨c', cs', rfl⟩
        rw [hsplit] at hc
        have : c' = c := by injection hc
        subst this
        exact ih (n / 10) (Nat.div_lt_self (by omega) (by norm_num))
          (by omega) c' cs' hsplit

/-- A list position at which the scanner's number match must stop: end of
input, or a character that neither extends the integer part nor begins a
fraction or exponent. -/
def numBoundary (cs : List Char) : Bool :=
  match cs with
  | [] => true
  | c :: _ => !(isDig c || c = '.' || c = 'e' || c = 'E')

theorem checkNoFloat_boundary (n : Nat) (rest : List Char)
    (hb : numBoundary rest = true) :
    parseNumber.checkNoFloat n rest = .ok (n, rest) := by
  match rest with
  | [] => rfl
  | c :: cs =>
      unfold numBoundary at hb
      simp only [Bool.not_eq_true', Bool.or_eq_false_iff, decide_eq_false_iff_not] at hb
      unfold parseNumber.checkNoFloat
      simp only []
      rw [if_neg (by simp [hb.1.1.2, hb.1.2, hb.2])]

theorem takeWhile_digits_append (ds rest : List Char)
    (hds : ∀ c ∈ ds, isDig c = true) (hb : numBoundary rest = true) :
    (ds ++ rest).takeWhile isDig = ds ∧ (ds ++ rest).dropWhile isDig = rest := by
  induction ds with
  | nil =>
      simp only [List.nil_append]
      match rest with
      | [] => exact ⟨rfl, rfl⟩
      | c :: cs =>
          unfold numBoundary at hb
          simp only [Bool.not_eq_true', Bool.or_eq_false_iff,
            decide_eq_false_iff_not] at hb
          rw [List.takeWhile_cons, List.dropWhile_cons]
          simp [hb.1.1.1]
  | cons d ds ih =>
      have hd := hds d (by simp)
      obtain ⟨h1, h2⟩ := ih (fun c hc => hds c (by simp [hc]))
      simp only [List.cons_append, List.takeWhile_cons, List.dropWhile_cons, hd]
      rw [h1, h2]
      exact ⟨rfl, rfl⟩

theorem parseNumberBody_decDigits (n : Nat) (rest : List Char)
    (hb : numBoundary rest = true) :
    parseNumber.parseNumberBody (decDigits n ++ rest) = .ok (n, rest) := by
  by_cases hn : n = 0
  · subst hn
    rw [decDigits_small 0 (by norm_num)]
    show parseNumber.checkNoFloat 0 rest = .ok (0, rest)
    exact checkNoFloat_boundary 0 rest hb
  · obtain ⟨c0, ds, hsplit⟩ : ∃ c0 ds, decDigits n = c0 :: ds := by
      rcases hd : decDigits n with _ | ⟨c0, ds⟩
      · exact absurd hd (decDigits_ne_nil _)
      · exact ⟨c0, ds, rfl⟩
    have hc0 : c0 ≠ '0' := decDigits_head_ne_zero n (by omega) c0 ds hsplit
    have hdig : isDig c0 = true := decDigits_all_digits n c0 (by rw [hsplit]; simp)
    have hdsdig : ∀ c ∈ ds, isDig c = true := by
      intro c hc
      exact decDigits_all_digits n c (by rw [hsplit]; simp [hc])
    obtain ⟨htake, hdrop⟩ := takeWhile_digits_append ds rest hdsdig hb
    rw [hsplit, List.cons_append]
    unfold parseNumber.parseNumberBody
    split
    · rename_i heq
      injection heq with heq1 heq2
      exact absurd heq1 hc0
    · rename_i xs c' rest' hne heq
      injection heq with heq1 heq2
      subst heq1
      subst heq2
      rw [if_pos (by simp [hdig, hc0])]
      rw [htake, hdrop]
      simp only []
      rw [show digitsToNat (c0 :: ds) = n from by
        rw [← hsplit]
        exact digitsToNat_decDigits n]
      exact checkNoFloat_boundary n rest hb
    · rename_i heq
      exact absurd heq (by simp)

theorem intToList_ofNat (m : Nat) :
    (toString (Int.ofNat m)).toList = decDigits m := by
  rw [show (toString (Int.ofNat m)).toList = Nat.toDigits 10 m from rfl,
    toDigits_eq_decDigits]

theorem intToList_negSucc (m : Nat) :
    (toString (Int.negSucc m)).toList = '-' :: decDigits (m + 1) := by
  rw [show (toString (Int.negSucc m)).toList = '-' :: Nat.toDigits 10 (m + 1) from rfl,
    toDigits_eq_decDigits]

theorem parseNumber_int (n : Int) (rest : List Char) (hb : numBoundary rest = true) :
    parseNumber ((toString n).toList ++ rest) = .ok (.int n, rest) := by
  match n with
  | .ofNat m =>
      rw [intToList_ofNat]
      obtain ⟨c0, ds, hsplit⟩ : ∃ c0 ds, decDigits m = c0 :: ds := by
        rcases hd : decDigits m with _ | ⟨c0, ds⟩
        · exact absurd hd (decDigits_ne_nil _)
        · exact ⟨c0, ds, rfl⟩
      have hdig : isDig c0 = true := decDigits_all_digits m c0 (by rw [hsplit]; simp)
      unfold parseNumber
      split
      · rename_i rest' heq
        rw [hsplit, List.cons_append] at heq
        injection heq with heq1 heq2
        rw [heq1] at hdig
        exact absurd hdig (by decide)
      · rw [show (do
            let r ← parseNumber.parseNumberBody (decDigits m ++ rest)
            Except.ok (Value.int (r.1 : Int), r.2) :
              Except PyError (Value × List Char)) =
          (match parseNumber.parseNumberBody (decDigits m ++ rest) with
           | .error e => .error e
           | .ok r => Except.ok (Value.int (r.1 : Int), r.2)) from by
            cases parseNumber.parseNumberBody (decDigits m ++ rest) <;> rfl]
        rw [parseNumberBody_decDigits m rest hb]
        rfl
  | .negSucc m =>
      rw [intToList_negSucc, List.cons_append]
      show (do
        let r ← parseNumber.parseNumberBody (decDigits (m + 1) ++ rest)
        Except.ok (Value.int (-(r.1 : Int)), r.2) :
          Except PyError (Value × List Char)) = _
      rw [show (do
          let r ← parseNumber.parseNumberBody (decDigits (m + 1) ++ rest)
          Except.ok (Value.int (-(r.1 : Int)), r.2) :
            Except PyError (Value × List Char)) =
        (match parseNumber.parseNumberBody (decDigits (m + 1) ++ rest) with
         | .error e => .error e
         | .ok r => Except.ok (Value.int (-(r.1 : Int)), r.2)) from by
          cases parseNumber.parseNumberBody (decDigits (m + 1) ++ rest) <;> rfl]
      rw [parseNumberBody_decDigits (m + 1) rest hb]
      simp only []
      have : -((m + 1 : Nat) : Int) = Int.negSucc m := by
        rw [Int.negSucc_eq]
        push_cast
        ring
      rw [this]

/-! ## Helper definitions: JSON document size and well-formedness -/

mutual

/-- Fuel bound for the scanner: one unit per value plus one per element. -/
def jsize : Value → Nat
  | .list vs => 1 + jsizeElems vs
  | .dict kvs => 1 + jsizeMembers kvs
  | _ => 1

/-- Fuel bound for the elements of an array. -/
def jsizeElems : List Value → Nat
  | [] => 0
  | v :: vs => 1 + jsize v + jsizeElems vs

/-- Fuel bound for the members of an object. -/
def jsizeMembers : List (String × Value) → Nat
  | [] => 0
  | kv :: kvs => 1 + jsize kv.2 + jsizeMembers kvs

end

mutual

/-- JSON-serializable values: no datetimes anywhere, and every object's keys
are distinct (a Python dict cannot hold duplicates). -/
def jsonWF : Value → Bool
  | .datetime _ => false
  | .list vs => jsonWFElems vs
  | .dict kvs => nodupKeys (kvs.map Prod.fst) && jsonWFMembers kvs
  | _ => true

/-- Well-formedness of array elements. -/
def jsonWFElems : List Value → Bool
  | [] => true
  | v :: vs => jsonWF v && jsonWFElems vs

/-- Well-formedness of object members. -/
def jsonWFMembers : List (String × Value) → Bool
  | [] => true
  | kv :: kvs => jsonWF kv.2 && jsonWFMembers kvs

end

/-! ## Helper lemmas: the JSON scanner inverts the encoder -/

theorem skipWs_not_ws (c : Char) (l : List Char) (h : jsonWs c = false) :
    skipWs (c :: l) = c :: l := by
  unfold skipWs
  rw [h]
  simp

theorem isDig_not_special (c : Char) (h : isDig c = true) :
    jsonWs c = false ∧ c ≠ ']' ∧ c ≠ rbrace ∧ c ≠ ',' ∧ c ≠ '"' ∧ c ≠ '[' ∧
      c ≠ lbrace ∧ c ≠ 't' ∧ c ≠ 'f' ∧ c ≠ 'n' := by
  unfold isDig at h
  simp only [Bool.and_eq_true, decide_eq_true_eq] at h
  refine ⟨?_, ?_, ?_, ?_, ?_, ?_, ?_, ?_, ?_, ?_⟩
  · unfold jsonWs
    simp only [Bool.or_eq_false_iff, decide_eq_false_iff_not]
    refine ⟨⟨⟨?_, ?_⟩, ?_⟩, ?_⟩ <;>
      (intro hc; rw [hc] at h; revert h; decide)
  all_goals (intro hc; rw [hc] at h; revert h; decide)

theorem minus_not_special :
    jsonWs '-' = false ∧ '-' ≠ ']' ∧ '-' ≠ rbrace ∧ '-' ≠ ',' ∧ '-' ≠ '"' ∧
      '-' ≠ '[' ∧ '-' ≠ lbrace ∧ '-' ≠ 't' ∧ '-' ≠ 'f' ∧ '-' ≠ 'n' := by
  refine ⟨rfl, ?_, ?_, ?_, ?_, ?_, ?_, ?_, ?_, ?_⟩ <;> decide

/-- The head character of any encoded value: a cons whose head is neither
whitespace nor one of the closing or separating characters. -/
theorem jsonDumpsV_head (ea : Bool) (v : Value) (enc : List Char)
    (henc : jsonDumpsV ea v = .ok enc) :
    ∃ c cs, enc = c :: cs ∧ jsonWs c = false ∧ c ≠ ']' ∧ c ≠ rbrace ∧ c ≠ ',' := by
  match v with
  | .str s =>
      rw [show jsonDumpsV ea (.str s) = .ok (encodeJsonString ea s) from rfl] at henc
      injection henc with henc
      exact ⟨'"', _, henc.symm, rfl, by decide, by decide, by decide⟩
  | .bool true =>
      injection henc with henc
      exact ⟨'t', _, henc.symm, rfl, by decide, by decide, by decide⟩
  | .bool false =>
      injection henc with henc
      exact ⟨'f', _, henc.symm, rfl, by decide, by decide, by decide⟩
  | .none =>
      injection henc with henc
      exact ⟨'n', _, henc.symm, rfl, by decide, by decide, by decide⟩
  | .int n =>
      rw [show jsonDumpsV ea (.int n) = .ok (toString n).toList from rfl] at henc
      injection henc with henc
      match n with
      | .ofNat m =>
          obtain ⟨c0, ds, hsplit⟩ : ∃ c0 ds, decDigits m = c0 :: ds := by
            rcases hd : decDigits m with _ | ⟨c0, ds⟩
            · exact absurd hd (decDigits_ne_nil _)
            · exact ⟨c0, ds, rfl⟩
          have hdig : isDig c0 = true :=
            decDigits_all_digits m c0 (by rw [hsplit]; simp)
          have hfacts := isDig_not_special c0 hdig
          refine ⟨c0, ds, ?_, hfacts.1, hfacts.2.1, hfacts.2.2.1, hfacts.2.2.2.1⟩
          rw [← henc, intToList_ofNat, hsplit]
      | .negSucc m =>
          refine ⟨'-', decDigits (m + 1), ?_, minus_not_special.1,
            minus_not_special.2.1, minus_not_special.2.2.1, minus_not_special.2.2.2.1⟩
          rw [← henc, intToList_negSucc]
  | .list vs =>
      rw [show jsonDumpsV ea (.list vs) = do
          let parts ← jsonDumpsElems ea vs
          .ok ('[' :: List.intercalate [',', ' '] parts ++ [']']) from rfl] at henc
      match hp : jsonDumpsElems ea vs with
      | .error e => rw [hp] at henc; exact absurd henc (by simp [Bind.bind, Except.bind])
      | .ok parts =>
          rw [hp] at henc
          simp only [Bind.bind, Except.bind] at henc
          injection henc with henc
          exact ⟨'[', _, henc.symm, rfl, by decide, by decide, by decide⟩
  | .dict kvs =>
      rw [show jsonDumpsV ea (.dict kvs) = do
          let parts ← jsonDumpsMembers ea kvs
          .ok (lbrace :: List.intercalate [',', ' '] parts ++ [rbrace]) from rfl] at henc
      match hp : jsonDumpsMembers ea kvs with
      | .error e => rw [hp] at henc; exact absurd henc (by simp [Bind.bind, Except.bind])
      | .ok parts =>
          rw [hp] at henc
          simp only [Bind.bind, Except.bind] at henc
          injection henc with henc
          exact ⟨lbrace, _, henc.symm, rfl, by decide, by decide, by decide⟩
  | .datetime d => exact absurd henc (by simp [jsonDumpsV])

theorem dictSet_not_mem (d : State) (k : String) (v : Value)
    (h : ¬ k ∈ d.map Prod.fst) : dictSet d k v = d ++ [(k, v)] := by
  induction d with
  | nil => rfl
  | cons kv rest ih =>
      obtain ⟨k', v'⟩ := kv
      simp only [List.map_cons, List.mem_cons] at h
      push_neg at h
      unfold dictSet
      rw [if_neg (fun he => h.1 he.symm), ih h.2]
      rfl

theorem dictFromPairs_go (kvs : List (String × Value)) :
    nodupKeys (kvs.map Prod.fst) = true →
    ∀ pre : State, (∀ k0 ∈ kvs.map Prod.fst, ¬ k0 ∈ pre.map Prod.fst) →
      kvs.foldl (fun d kv => dictSet d kv.1 kv.2) pre = pre ++ kvs := by
  induction kvs with
  | nil => intro _ pre _; simp
  | cons kv rest ih =>
      obtain ⟨k, v⟩ := kv
      intro h pre hdisj
      simp only [List.map_cons, nodupKeys, Bool.and_eq_true, Bool.not_eq_true'] at h
      simp only [List.foldl_cons]
      rw [dictSet_not_mem pre k v (hdisj k (by simp))]
      rw [ih h.2 (pre ++ [(k, v)]) ?_]
      · simp
      · intro k0 hk0
        rw [List.map_append]
        intro hmem
        rcases List.mem_append.mp hmem with h1 | h2
        · exact hdisj k0 (by simp [hk0]) h1
        · simp only [List.map_cons, List.map_nil, List.mem_singleton] at h2
          subst h2
          have hnm : ¬ k0 ∈ List.map Prod.fst rest := by simpa using h.1
          exact hnm hk0

theorem dictFromPairs_nodup (kvs : List (String × Value))
    (h : nodupKeys (kvs.map Prod.fst) = true) : dictFromPairs kvs = kvs := by
  unfold dictFromPairs
  rw [dictFromPairs_go kvs h [] (by simp)]
  rfl

theorem intercalate_two (sep a b : List Char) (l : List (List Char)) :
    List.intercalate sep (a :: b :: l) = a ++ sep ++ List.intercalate sep (b :: l) := by
  simp [List.intercalate, List.intersperse]

theorem intercalate_one (sep a : List Char) : List.intercalate sep [a] = a := by
  simp [List.intercalate]

theorem intercalate_head (sep : List Char) (c : Char) (cs : List Char)
    (ps : List (List Char)) :
    ∃ t, List.intercalate sep ((c :: cs) :: ps) = c :: t := by
  cases ps with
  | nil => exact ⟨cs, by rw [intercalate_one]⟩
  | cons q qs =>
      exact ⟨cs ++ sep ++ List.intercalate sep (q :: qs), by
        rw [intercalate_two]; simp⟩

theorem skipWs_ws (c : Char) (l : List Char) (h : jsonWs c = true) :
    skipWs (c :: l) = skipWs l := by
  rw [show skipWs (c :: l) = if jsonWs c = true then skipWs l else c :: l from rfl,
    if_pos h]

theorem numBoundary_comma (X : List Char) : numBoundary (',' :: X) = true := rfl

theorem numBoundary_rbracket (X : List Char) : numBoundary (']' :: X) = true := rfl

theorem numBoundary_rbrace (X : List Char) : numBoundary (rbrace :: X) = true := rfl

theorem jsize_pos (v : Value) : 1 ≤ jsize v := by
  cases v <;> simp [jsize]

theorem mk_toList (s : String) : String.mk s.toList = s := by
  cases s
  rfl

theorem jsonDumpsElems_cons_shape (ea : Bool) (v1 : Value) (vs : List Value)
    (parts : List (List Char)) (hp : jsonDumpsElems ea (v1 :: vs) = .ok parts) :
    ∃ p ps, jsonDumpsV ea v1 = .ok p ∧ jsonDumpsElems ea vs = .ok ps ∧
      parts = p :: ps := by
  rw [show jsonDumpsElems ea (v1 :: vs) = do
      let h ← jsonDumpsV ea v1
      let t ← jsonDumpsElems ea vs
      .ok (h :: t) from rfl] at hp
  match hv : jsonDumpsV ea v1 with
  | .error e => rw [hv] at hp; exact absurd hp (by simp [Bind.bind, Except.bind])
  | .ok p =>
      rw [hv] at hp
      match ht : jsonDumpsElems ea vs with
      | .error e =>
          rw [ht] at hp; exact absurd hp (by simp [Bind.bind, Except.bind])
      | .ok ps =>
          rw [ht] at hp
          simp only [Bind.bind, Except.bind] at hp
          injection hp with hp
          exact ⟨p, ps, rfl, rfl, hp.symm⟩

theorem jsonDumpsMembers_cons_shape (ea : Bool) (k : String) (v : Value)
    (kvs : List (String × Value)) (parts : List (List Char))
    (hp : jsonDumpsMembers ea ((k, v) :: kvs) = .ok parts) :
    ∃ hv ps, jsonDumpsV ea v = .ok hv ∧ jsonDumpsMembers ea kvs = .ok ps ∧
      parts = (encodeJsonString ea k ++ ':' :: ' ' :: hv) :: ps := by
  rw [show jsonDumpsMembers ea ((k, v) :: kvs) = do
      let hv ← jsonDumpsV ea v
      let t ← jsonDumpsMembers ea kvs
      .ok ((encodeJsonString ea k ++ ':' :: ' ' :: hv) :: t) from rfl] at hp
  match hv : jsonDumpsV ea v with
  | .error e => rw [hv] at hp; exact absurd hp (by simp [Bind.bind, Except.bind])
  | .ok p =>
      rw [hv] at hp
      match ht : jsonDumpsMembers ea kvs with
      | .error e =>
          rw [ht] at hp; exact absurd hp (by simp [Bind.bind, Except.bind])
      | .ok ps =>
          rw [ht] at hp
          simp only [Bind.bind, Except.bind] at hp
          injection hp with hp
          exact ⟨p, ps, rfl, rfl, hp.symm⟩

theorem intToList_head (n : Int) :
    ∃ c0 tl, (toString n).toList = c0 :: tl ∧ c0 ≠ '"' ∧ c0 ≠ '[' ∧ c0 ≠ lbrace ∧
      c0 ≠ 't' ∧ c0 ≠ 'f' ∧ c0 ≠ 'n' := by
  match n with
  | .ofNat m =>
      obtain ⟨c0, ds, hsplit⟩ : ∃ c0 ds, decDigits m = c0 :: ds := by
        rcases hd : decDigits m with _ | ⟨c0, ds⟩
        · exact absurd hd (decDigits_ne_nil _)
        · exact ⟨c0, ds, rfl⟩
      have hf := isDig_not_special c0 (decDigits_all_digits m c0 (by rw [hsplit]; simp))
      exact ⟨c0, ds, by rw [intToList_ofNat, hsplit], hf.2.2.2.2.1, hf.2.2.2.2.2.1,
        hf.2.2.2.2.2.2.1, hf.2.2.2.2.2.2.2.1, hf.2.2.2.2.2.2.2.2.1,
        hf.2.2.2.2.2.2.2.2.2⟩
  | .negSucc m =>
      exact ⟨'-', decDigits (m + 1), by rw [intToList_negSucc], by decide, by decide,
        by decide, by decide, by decide, by decide⟩

theorem parseValue_cons (f : Nat) (c : Char) (rest : List Char) :
    parseValue (f + 1) (c :: rest) =
      (if c = '"' then do
        let r ← parseStringBody (rest.length + 1) [] rest
        .ok (.str r.1, r.2)
      else if c = '[' then
        match skipWs rest with
        | ']' :: rest2 => .ok (.list [], rest2)
        | rest2 => parseElems f rest2 []
      else if c = lbrace then
        match skipWs rest with
        | r :: rest2 =>
            if r = rbrace then .ok (.dict [], rest2)
            else parseMembers f (r :: rest2) []
        | [] => .error .jsonDecodeError
      else if c = 't' then
        match rest with
        | 'r' :: 'u' :: 'e' :: rest2 => .ok (.bool true, rest2)
        | _ => .error .jsonDecodeError
      else if c = 'f' then
        match rest with
        | 'a' :: 'l' :: 's' :: 'e' :: rest2 => .ok (.bool false, rest2)
        | _ => .error .jsonDecodeError
      else if c = 'n' then
        match rest with
        | 'u' :: 'l' :: 'l' :: rest2 => .ok (.none, rest2)
        | _ => .error .jsonDecodeError
      else parseNumber (c :: rest)) := rfl

theorem parseElems_succ (f : Nat) (cs : List Char) (acc : List Value) :
    parseElems (f + 1) cs acc = (do
      let r ← parseValue f cs
      match skipWs r.2 with
      | ',' :: rest2 => parseElems f (skipWs rest2) (r.1 :: acc)
      | ']' :: rest2 => .ok (.list (r.1 :: acc).reverse, rest2)
      | _ => .error .jsonDecodeError) := rfl

theorem parseMembers_succ (f : Nat) (cs : List Char) (acc : List (String × Value)) :
    parseMembers (f + 1) cs acc =
      (match cs with
      | '"' :: rest => do
          let k ← parseStringBody (rest.length + 1) [] rest
          match skipWs k.2 with
          | ':' :: rest2 => do
              let v ← parseValue f (skipWs rest2)
              match skipWs v.2 with
              | ',' :: rest3 =>
                  match skipWs rest3 with
                  | '"' :: rest4 => parseMembers f ('"' :: rest4) ((k.1, v.1) :: acc)
                  | _ => .error .jsonDecodeError
              | r :: rest3 =>
                  if r = rbrace then
                    .ok (.dict (dictFromPairs ((k.1, v.1) :: acc).reverse), rest3)
                  else .error .jsonDecodeError
              | [] => .error .jsonDecodeError
          | _ => .error .jsonDecodeError
      | _ => .error .jsonDecodeError) := rfl

theorem member_part_cons (ea : Bool) (k : String) (X : List Char) :
    encodeJsonString ea k ++ X =
      '"' :: (k.toList.flatMap (encodeStringChar ea) ++ '"' :: X) := by
  rw [encodeJsonString]
  simp

theorem parse_inv_master (ea : Bool) : ∀ N : Nat,
    (∀ v enc fuel rest, jsize v ≤ N → jsonWF v = true →
       jsonDumpsV ea v = .ok enc → jsize v ≤ fuel → numBoundary rest = true →
       parseValue fuel (enc ++ rest) = .ok (v, rest)) ∧
    (∀ vs parts fuel acc rest, vs ≠ [] → jsizeElems vs ≤ N →
       jsonWFElems vs = true → jsonDumpsElems ea vs = .ok parts →
       jsizeElems vs ≤ fuel →
       parseElems fuel (List.intercalate [',', ' '] parts ++ ']' :: rest) acc =
         .ok (.list (acc.reverse ++ vs), rest)) ∧
    (∀ kvs parts fuel acc rest, kvs ≠ [] → jsizeMembers kvs ≤ N →
       jsonWFMembers kvs = true → jsonDumpsMembers ea kvs = .ok parts →
       jsizeMembers kvs ≤ fuel →
       parseMembers fuel (List.intercalate [',', ' '] parts ++ rbrace :: rest) acc =
         .ok (.dict (dictFromPairs (acc.reverse ++ kvs)), rest)) := by
  intro N
  induction N using Nat.strong_induction_on with
  | _ N IH =>
  refine ⟨?_, ?_, ?_⟩
  · intro v enc fuel rest hN hwf henc hfuel hb
    obtain ⟨f, rfl⟩ : ∃ f, fuel = f + 1 :=
      ⟨fuel - 1, by have := jsize_pos v; omega⟩
    match v with
    | .str s =>
        rw [show jsonDumpsV ea (.str s) = .ok (encodeJsonString ea s) from rfl] at henc
        injection henc with henc
        subst henc
        rw [encodeJsonString, List.cons_append, List.cons_append, List.append_assoc,
          List.singleton_append]
        rw [parseValue_cons, if_pos rfl]
        rw [parseStringBody_inv ea s.toList [] rest _ (by simp; omega)]
        simp [Bind.bind, Except.bind, mk_toList]
    | .int n =>
        rw [show jsonDumpsV ea (.int n) = .ok (toString n).toList from rfl] at henc
        injection henc with henc
        subst henc
        obtain ⟨c0, tl, hsplit, h1, h2, h3, h4, h5, h6⟩ := intToList_head n
        rw [hsplit, List.cons_append, parseValue_cons,
          if_neg h1, if_neg h2, if_neg h3, if_neg h4, if_neg h5, if_neg h6,
          ← List.cons_append, ← hsplit]
        exact parseNumber_int n rest hb
    | .bool true =>
        rw [show jsonDumpsV ea (.bool true) = .ok ['t', 'r', 'u', 'e'] from rfl] at henc
        injection henc with henc
        subst henc
        rfl
    | .bool false =>
        rw [show jsonDumpsV ea (.bool false) = .ok ['f', 'a', 'l', 's', 'e'] from
          rfl] at henc
        injection henc with henc
        subst henc
        rfl
    | .none =>
        rw [show jsonDumpsV ea (.none) = .ok ['n', 'u', 'l', 'l'] from rfl] at henc
        injection henc with henc
        subst henc
        rfl
    | .datetime d => simp [jsonWF] at hwf
    | .list [] =>
        rw [show jsonDumpsV ea (.list []) = .ok ['[', ']'] from rfl] at henc
        injection henc with henc
        subst henc
        rfl
    | .list (v1 :: vs') =>
        rw [show jsonDumpsV ea (.list (v1 :: vs')) = do
            let parts ← jsonDumpsElems ea (v1 :: vs')
            .ok ('[' :: List.intercalate [',', ' '] parts ++ [']']) from rfl] at henc
        match hp : jsonDumpsElems ea (v1 :: vs') with
        | .error e =>
            rw [hp] at henc
            exact absurd henc (by simp [Bind.bind, Except.bind])
        | .ok parts =>
        rw [hp] at henc
        simp only [Bind.bind, Except.bind] at henc
        injection henc with henc
        subst henc
        simp only [jsize] at hN hfuel
        simp only [jsonWF] at hwf
        obtain ⟨p, ps, hv1, hvs, hpp⟩ := jsonDumpsElems_cons_shape ea v1 vs' parts hp
        obtain ⟨c, cs, hpc, hcws, hcrb, _, _⟩ := jsonDumpsV_head ea v1 p hv1
        rw [List.append_assoc, List.singleton_append, List.cons_append, hpp, hpc]
        obtain ⟨t, hic⟩ := intercalate_head [',', ' '] c cs ps
        rw [hic, List.cons_append, parseValue_cons, if_neg (by decide), if_pos rfl,
          skipWs_not_ws c _ hcws]
        have hQ := (IH (N - 1) (by omega)).2.1 (v1 :: vs') parts f [] rest
          (by simp) (by omega) hwf hp (by omega)
        split
        · rename_i rest2 heq
          injection heq with he1 he2
          exact absurd he1 hcrb
        · rename_i rest2 heq
          rw [← List.cons_append, ← hic, ← hpc, ← hpp, hQ]
          simp
    | .dict [] =>
        rw [show jsonDumpsV ea (.dict []) = .ok [lbrace, rbrace] from rfl] at henc
        injection henc with henc
        subst henc
        rfl
    | .dict ((k, v) :: kvs') =>
        rw [show jsonDumpsV ea (.dict ((k, v) :: kvs')) = do
            let parts ← jsonDumpsMembers ea ((k, v) :: kvs')
            .ok (lbrace :: List.intercalate [',', ' '] parts ++ [rbrace]) from
          rfl] at henc
        match hp : jsonDumpsMembers ea ((k, v) :: kvs') with
        | .error e =>
            rw [hp] at henc
            exact absurd henc (by simp [Bind.bind, Except.bind])
        | .ok parts =>
        rw [hp] at henc
        simp only [Bind.bind, Except.bind] at henc
        injection henc with henc
        subst henc
        simp only [jsize] at hN hfuel
        simp only [jsonWF, Bool.and_eq_true] at hwf
        obtain ⟨hv, ps, hvv, hkvs, hpp⟩ := jsonDumpsMembers_cons_shape ea k v kvs'
          parts hp
        rw [List.append_assoc, List.singleton_append, List.cons_append, hpp,
          member_part_cons ea k (':' :: ' ' :: hv)]
        obtain ⟨t, hic⟩ := intercalate_head [',', ' ']
          '"' ((k.toList.flatMap (encodeStringChar ea)) ++ '"' :: ':' :: ' ' :: hv) ps
        rw [hic, List.cons_append, parseValue_cons, if_neg (by decide),
          if_neg (by decide), if_pos rfl, skipWs_not_ws '"' _ (by decide)]
        have hR := (IH (N - 1) (by omega)).2.2 ((k, v) :: kvs') parts f [] rest
          (by simp) (by omega) hwf.2 hp (by omega)
        split
        · rename_i r2 rest2 heq
          injection heq with he1 he2
          subst he1
          subst he2
          rw [if_neg (by decide), ← List.cons_append, ← hic,
            ← member_part_cons ea k (':' :: ' ' :: hv), ← hpp, hR,
            dictFromPairs_nodup _ (by simpa using hwf.1)]
          simp [dictFromPairs_nodup, hwf.1]
        · rename_i heq
          exact absurd heq (by simp)
  · intro vs parts fuel acc rest hne hN hwf hp hfuel
    match vs, hne with
    | v1 :: vs', _ =>
    obtain ⟨p, ps, hv1, hvs, hpp⟩ := jsonDumpsElems_cons_shape ea v1 vs' parts hp
    subst hpp
    simp only [jsizeElems] at hN hfuel
    simp only [jsonWFElems, Bool.and_eq_true] at hwf
    obtain ⟨hwf1, hwf2⟩ := hwf
    obtain ⟨f, rfl⟩ : ∃ f, fuel = f + 1 :=
      ⟨fuel - 1, by have := jsize_pos v1; omega⟩
    match vs', hvs, hwf2, hN, hfuel with
    | [], hvs, hwf2, hN, hfuel =>
        have hps : ps = [] := by
          rw [show jsonDumpsElems ea [] = (.ok [] : Except PyError (List (List Char)))
            from rfl] at hvs
          injection hvs with h
          exact h.symm
        subst hps
        rw [intercalate_one]
        have hP := (IH (N - 1) (by omega)).1 v1 p f (']' :: rest)
          (by omega) hwf1 hv1 (by omega) (numBoundary_rbracket rest)
        rw [parseElems_succ, hP, ← List.reverse_cons]
        rfl
    | w :: ws, hvs, hwf2, hN, hfuel =>
        simp only [jsizeElems] at hN hfuel
        obtain ⟨q, qs, hw, hws2, hqq⟩ := jsonDumpsElems_cons_shape ea w ws ps hvs
        subst hqq
        rw [intercalate_two, List.append_assoc, List.append_assoc,
          show ([',', ' '] : List Char) ++
              (List.intercalate [',', ' '] (q :: qs) ++ ']' :: rest) =
            ',' :: ' ' :: (List.intercalate [',', ' '] (q :: qs) ++ ']' :: rest)
            from rfl]
        have hP := (IH (N - 1) (by omega)).1 v1 p f
          (',' :: ' ' :: (List.intercalate [',', ' '] (q :: qs) ++ ']' :: rest))
          (by omega) hwf1 hv1 (by omega) (numBoundary_comma _)
        rw [parseElems_succ, hP]
        show parseElems f (skipWs (' ' :: (List.intercalate [',', ' '] (q :: qs) ++
          ']' :: rest))) (v1 :: acc) = .ok (.list (acc.reverse ++ v1 :: w :: ws), rest)
        rw [skipWs_ws ' ' _ (by decide)]
        obtain ⟨c2, cs2, hqc, hcws2, _, _, _⟩ := jsonDumpsV_head ea w q hw
        rw [hqc]
        obtain ⟨t2, hic2⟩ := intercalate_head [',', ' '] c2 cs2 qs
        rw [hic2, List.cons_append, skipWs_not_ws c2 _ hcws2, ← List.cons_append,
          ← hic2, ← hqc]
        have hQ := (IH (N - 1) (by omega)).2.1 (w :: ws) (q :: qs) f (v1 :: acc) rest
          (by simp) (by simp only [jsizeElems]; omega) hwf2 hvs
          (by simp only [jsizeElems]; omega)
        rw [hQ]
        simp
  · intro kvs parts fuel acc rest hne hN hwf hp hfuel
    match kvs, hne with
    | (k, v) :: kvs', _ =>
    obtain ⟨hv, ps, hvv, hkvs, hpp⟩ := jsonDumpsMembers_cons_shape ea k v kvs' parts hp
    subst hpp
    simp only [jsizeMembers] at hN hfuel
    simp only [jsonWFMembers, Bool.and_eq_true] at hwf
    obtain ⟨hwf1, hwf2⟩ := hwf
    obtain ⟨f, rfl⟩ : ∃ f, fuel = f + 1 :=
      ⟨fuel - 1, by have := jsize_pos v; omega⟩
    match kvs', hkvs, hwf2, hN, hfuel with
    | [], hkvs, hwf2, hN, hfuel =>
        have hps : ps = [] := by
          rw [show jsonDumpsMembers ea [] =
            (.ok [] : Except PyError (List (List Char))) from rfl] at hkvs
          injection hkvs with h
          exact h.symm
        subst hps
        rw [intercalate_one, member_part_cons ea k (':' :: ' ' :: hv),
          List.cons_append, List.append_assoc, List.cons_append, List.cons_append,
          List.cons_append, parseMembers_succ]
        split
        · rename_i rest0 heq
          injection heq with he1 he2
          subst he2
          rw [parseStringBody_inv ea k.toList []
            (':' :: ' ' :: (hv ++ rbrace :: rest)) _ (by simp; omega)]
          simp only [Bind.bind, Except.bind, List.reverse_nil, List.nil_append,
            mk_toList]
          rw [skipWs_not_ws ':' _ (by decide)]
          split
          · rename_i rest2 heq2
            injection heq2 with he3 he4
            subst he4
            rw [skipWs_ws ' ' _ (by decide)]
            obtain ⟨cv, csv, hvc, hvws, _, _, _⟩ := jsonDumpsV_head ea v hv hvv
            rw [hvc, List.cons_append, skipWs_not_ws cv _ hvws, ← List.cons_append,
              ← hvc]
            have hP := (IH (N - 1) (by omega)).1 v hv f (rbrace :: rest)
              (by omega) hwf1 hvv (by omega) (numBoundary_rbrace rest)
            rw [hP]
            simp only [Bind.bind, Except.bind]
            rw [skipWs_not_ws rbrace rest (by decide)]
            split
            · rename_i rest3 heq3
              injection heq3 with he5 he6
              exact absurd he5 (by decide)
            · rename_i r rest3 heq3
              injection heq3 with he5 he6
              subst he5
              subst he6
              rw [if_pos rfl, List.reverse_cons]
            · rename_i heq3
              exact absurd heq3 (by simp)
          · rename_i hne2 heq2
            exact absurd heq2 (by simp)
        · rename_i hne0
          exact absurd rfl (hne0 _)
    | (k2, v2) :: kvs'', hkvs, hwf2, hN, hfuel =>
        simp only [jsizeMembers] at hN hfuel
        obtain ⟨hv2, ps2, hvv2, hkvs2, hqq⟩ := jsonDumpsMembers_cons_shape ea k2 v2
          kvs'' ps hkvs
        subst hqq
        rw [intercalate_two, List.append_assoc, List.append_assoc,
          show ([',', ' '] : List Char) ++
              (List.intercalate [',', ' ']
                ((encodeJsonString ea k2 ++ ':' :: ' ' :: hv2) :: ps2) ++
                rbrace :: rest) =
            ',' :: ' ' :: (List.intercalate [',', ' ']
              ((encodeJsonString ea k2 ++ ':' :: ' ' :: hv2) :: ps2) ++
              rbrace :: rest) from rfl,
          member_part_cons ea k (':' :: ' ' :: hv),
          List.cons_append, List.append_assoc, List.cons_append, List.cons_append,
          List.cons_append, parseMembers_succ]
        split
        · rename_i rest0 heq
          injection heq with he1 he2
          subst he2
          rw [parseStringBody_inv ea k.toList []
            (':' :: ' ' :: (hv ++ ',' :: ' ' ::
              (List.intercalate [',', ' ']
                ((encodeJsonString ea k2 ++ ':' :: ' ' :: hv2) :: ps2) ++
                rbrace :: rest))) _ (by simp; omega)]
          simp only [Bind.bind, Except.bind, List.reverse_nil, List.nil_append,
            mk_toList]
          rw [skipWs_not_ws ':' _ (by decide)]
          split
          · rename_i rest2 heq2
            injection heq2 with he3 he4
            subst he4
            rw [skipWs_ws ' ' _ (by decide)]
            obtain ⟨cv, csv, hvc, hvws, _, _, _⟩ := jsonDumpsV_head ea v hv hvv
            rw [hvc, List.cons_append, skipWs_not_ws cv _ hvws, ← List.cons_append,
              ← hvc]
            have hP := (IH (N - 1) (by omega)).1 v hv f
              (',' :: ' ' :: (List.intercalate [',', ' ']
                ((encodeJsonString ea k2 ++ ':' :: ' ' :: hv2) :: ps2) ++
                rbrace :: rest))
              (by omega) hwf1 hvv (by omega) (numBoundary_comma _)
            rw [hP]
            simp only [Bind.bind, Except.bind]
            rw [skipWs_not_ws ',' _ (by decide)]
            split
            · rename_i rest3 heq3
              injection heq3 with he5 he6
              subst he6
              rw [skipWs_ws ' ' _ (by decide),
                member_part_cons ea k2 (':' :: ' ' :: hv2)]
              obtain ⟨t2, hic2⟩ := intercalate_head [',', ' '] '"'
                (k2.toList.flatMap (encodeStringChar ea) ++ '"' :: ':' :: ' ' :: hv2)
                ps2
              rw [hic2, List.cons_append, skipWs_not_ws '"' _ (by decide)]
              split
              · rename_i rest4 heq4
                injection heq4 with he7 he8
                subst he8
                rw [← List.cons_append, ← hic2,
                  ← member_part_cons ea k2 (':' :: ' ' :: hv2)]
                have hR := (IH (N - 1) (by omega)).2.2 ((k2, v2) :: kvs'')
                  ((encodeJsonString ea k2 ++ ':' :: ' ' :: hv2) :: ps2) f
                  ((k, v) :: acc) rest (by simp)
                  (by simp only [jsizeMembers]; omega) hwf2 hkvs
                  (by simp only [jsizeMembers]; omega)
                rw [hR]
                simp [List.reverse_cons, List.append_assoc]
              · rename_i hne4 heq4
                exact absurd heq4 (by simp)
            · rename_i r rest3 hner heq3
              injection heq3 with he5 he6
              exact absurd he5.symm hner
            · rename_i heq3
              exact absurd heq3 (by simp)
          · rename_i hne2 heq2
            exact absurd heq2 (by simp)
        · rename_i hne0
          exact absurd rfl (hne0 _)

theorem encodeJsonString_length (ea : Bool) (k : String) :
    (encodeJsonString ea k).length =
      (k.toList.flatMap (encodeStringChar ea)).length + 2 := by
  rw [encodeJsonString]
  simp

theorem jsize_le_enc (ea : Bool) : ∀ N : Nat,
    (∀ v enc, jsize v ≤ N → jsonDumpsV ea v = .ok enc →
       jsize v ≤ enc.length + 1) ∧
    (∀ vs parts, vs ≠ [] → jsizeElems vs ≤ N → jsonDumpsElems ea vs = .ok parts →
       jsizeElems vs ≤ (List.intercalate [',', ' '] parts).length + 2) ∧
    (∀ kvs parts, kvs ≠ [] → jsizeMembers kvs ≤ N →
       jsonDumpsMembers ea kvs = .ok parts →
       jsizeMembers kvs ≤ (List.intercalate [',', ' '] parts).length + 2) := by
  intro N
  induction N using Nat.strong_induction_on with
  | _ N IH =>
  refine ⟨?_, ?_, ?_⟩
  · intro v enc hN henc
    match v with
    | .str s => rw [show jsize (Value.str s) = 1 from rfl]; omega
    | .int n => rw [show jsize (Value.int n) = 1 from rfl]; omega
    | .bool b => rw [show jsize (Value.bool b) = 1 from rfl]; omega
    | .none => rw [show jsize Value.none = 1 from rfl]; omega
    | .datetime d => rw [show jsize (Value.datetime d) = 1 from rfl]; omega
    | .list [] =>
        rw [show jsize (Value.list []) = 1 from rfl]; omega
    | .list (v1 :: vs') =>
        rw [show jsonDumpsV ea (.list (v1 :: vs')) = do
            let parts ← jsonDumpsElems ea (v1 :: vs')
            .ok ('[' :: List.intercalate [',', ' '] parts ++ [']']) from rfl] at henc
        match hp : jsonDumpsElems ea (v1 :: vs') with
        | .error e =>
            rw [hp] at henc
            exact absurd henc (by simp [Bind.bind, Except.bind])
        | .ok parts =>
        rw [hp] at henc
        simp only [Bind.bind, Except.bind] at henc
        injection henc with henc
        subst henc
        simp only [jsize] at hN ⊢
        have hE := (IH (N - 1) (by omega)).2.1 (v1 :: vs') parts (by simp)
          (by omega) hp
        simp only [List.length_append, List.length_cons, List.length_nil]
        omega
    | .dict [] =>
        rw [show jsize (Value.dict []) = 1 + jsizeMembers [] from rfl,
          show jsizeMembers [] = 0 from rfl]
        omega
    | .dict ((k, v) :: kvs') =>
        rw [show jsonDumpsV ea (.dict ((k, v) :: kvs')) = do
            let parts ← jsonDumpsMembers ea ((k, v) :: kvs')
            .ok (lbrace :: List.intercalate [',', ' '] parts ++ [rbrace]) from
          rfl] at henc
        match hp : jsonDumpsMembers ea ((k, v) :: kvs') with
        | .error e =>
            rw [hp] at henc
            exact absurd henc (by simp [Bind.bind, Except.bind])
        | .ok parts =>
        rw [hp] at henc
        simp only [Bind.bind, Except.bind] at henc
        injection henc with henc
        subst henc
        simp only [jsize] at hN ⊢
        have hE := (IH (N - 1) (by omega)).2.2 ((k, v) :: kvs') parts (by simp)
          (by omega) hp
        simp only [List.length_append, List.length_cons, List.length_nil]
        omega
  · intro vs parts hne hN hp
    match vs, hne with
    | v1 :: vs', _ =>
    obtain ⟨p, ps, hv1, hvs, hpp⟩ := jsonDumpsElems_cons_shape ea v1 vs' parts hp
    subst hpp
    simp only [jsizeElems] at hN ⊢
    have hV := (IH (N - 1) (by have := jsize_pos v1; omega)).1 v1 p (by omega) hv1
    match vs', hvs, hN with
    | [], hvs, hN =>
        have hps : ps = [] := by
          rw [show jsonDumpsElems ea [] = (.ok [] : Except PyError (List (List Char)))
            from rfl] at hvs
          injection hvs with h
          exact h.symm
        subst hps
        rw [intercalate_one]
        simp only [jsizeElems]
        omega
    | w :: ws, hvs, hN =>
        simp only [jsizeElems] at hN ⊢
        obtain ⟨q, qs, hw, hws2, hqq⟩ := jsonDumpsElems_cons_shape ea w ws ps hvs
        subst hqq
        have hE := (IH (N - 1) (by have := jsize_pos v1; omega)).2.1 (w :: ws)
          (q :: qs) (by simp) (by simp only [jsizeElems]; omega) hvs
        simp only [jsizeElems] at hE
        rw [intercalate_two]
        simp only [List.length_append, List.length_cons, List.length_nil]
        omega
  · intro kvs parts hne hN hp
    match kvs, hne with
    | (k, v) :: kvs', _ =>
    obtain ⟨hv, ps, hvv, hkvs, hpp⟩ := jsonDumpsMembers_cons_shape ea k v kvs' parts hp
    subst hpp
    simp only [jsizeMembers] at hN ⊢
    have hV := (IH (N - 1) (by have := jsize_pos v; omega)).1 v hv (by omega) hvv
    have hplen : (encodeJsonString ea k ++ ':' :: ' ' :: hv).length =
        (k.toList.flatMap (encodeStringChar ea)).length + 4 + hv.length := by
      simp only [List.length_append, List.length_cons, encodeJsonString_length]
      omega
    match kvs', hkvs, hN with
    | [], hkvs, hN =>
        have hps : ps = [] := by
          rw [show jsonDumpsMembers ea [] =
            (.ok [] : Except PyError (List (List Char))) from rfl] at hkvs
          injection hkvs with h
          exact h.symm
        subst hps
        rw [intercalate_one]
        simp only [jsizeMembers]
        omega
    | (k2, v2) :: kvs'', hkvs, hN =>
        simp only [jsizeMembers] at hN ⊢
        obtain ⟨hv2, ps2, hvv2, hkvs2, hqq⟩ := jsonDumpsMembers_cons_shape ea k2 v2
          kvs'' ps hkvs
        subst hqq
        have hE := (IH (N - 1) (by have := jsize_pos v; omega)).2.2
          ((k2, v2) :: kvs'') ((encodeJsonString ea k2 ++ ':' :: ' ' :: hv2) :: ps2)
          (by simp) (by simp only [jsizeMembers]; omega) hkvs
        simp only [jsizeMembers] at hE
        rw [intercalate_two]
        simp only [List.length_append, List.length_cons, List.length_nil]
        omega

mutual

/-- Does a value contain a datetime anywhere?  Exactly these values make
`json.dumps` raise `TypeError`. -/
def containsDatetime : Value → Bool
  | .datetime _ => true
  | .list vs => containsDatetimeElems vs
  | .dict kvs => containsDatetimeMembers kvs
  | _ => false

/-- Datetime presence in array elements. -/
def containsDatetimeElems : List Value → Bool
  | [] => false
  | v :: vs => containsDatetime v || containsDatetimeElems vs

/-- Datetime presence in object members. -/
def containsDatetimeMembers : List (String × Value) → Bool
  | [] => false
  | kv :: kvs => containsDatetime kv.2 || containsDatetimeMembers kvs

end

theorem jsonWF_no_datetime : ∀ N : Nat,
    (∀ v, jsize v ≤ N → jsonWF v = true → containsDatetime v = false) ∧
    (∀ vs, jsizeElems vs ≤ N → jsonWFElems vs = true →
       containsDatetimeElems vs = false) ∧
    (∀ kvs, jsizeMembers kvs ≤ N → jsonWFMembers kvs = true →
       containsDatetimeMembers kvs = false) := by
  intro N
  induction N using Nat.strong_induction_on with
  | _ N IH =>
  refine ⟨?_, ?_, ?_⟩
  · intro v hN hwf
    match v with
    | .str s => rfl
    | .int n => rfl
    | .bool b => rfl
    | .none => rfl
    | .datetime d => simp [jsonWF] at hwf
    | .list vs =>
        simp only [jsonWF] at hwf
        simp only [jsize] at hN
        rw [show containsDatetime (Value.list vs) = containsDatetimeElems vs from rfl]
        exact (IH (N - 1) (by have : 0 ≤ jsizeElems vs := Nat.zero_le _; omega)).2.1
          vs (by omega) hwf
    | .dict kvs =>
        simp only [jsonWF, Bool.and_eq_true] at hwf
        simp only [jsize] at hN
        rw [show containsDatetime (Value.dict kvs) = containsDatetimeMembers kvs
          from rfl]
        exact (IH (N - 1) (by omega)).2.2 kvs (by omega) hwf.2
  · intro vs hN hwf
    match vs with
    | [] => rfl
    | v :: vs' =>
        simp only [jsonWFElems, Bool.and_eq_true] at hwf
        simp only [jsizeElems] at hN
        rw [show containsDatetimeElems (v :: vs') =
          (containsDatetime v || containsDatetimeElems vs') from rfl]
        rw [(IH (N - 1) (by have := jsize_pos v; omega)).1 v (by omega) hwf.1,
          (IH (N - 1) (by have := jsize_pos v; omega)).2.1 vs' (by omega) hwf.2]
        rfl
  · intro kvs hN hwf
    match kvs with
    | [] => rfl
    | (k, v) :: kvs' =>
        simp only [jsonWFMembers, Bool.and_eq_true] at hwf
        simp only [jsizeMembers] at hN
        rw [show containsDatetimeMembers ((k, v) :: kvs') =
          (containsDatetime v || containsDatetimeMembers kvs') from rfl]
        rw [(IH (N - 1) (by have := jsize_pos v; omega)).1 v (by omega) hwf.1,
          (IH (N - 1) (by have := jsize_pos v; omega)).2.2 kvs' (by omega) hwf.2]
        rfl

theorem jsonDumps_total (ea : Bool) : ∀ N : Nat,
    (∀ v, jsize v ≤ N → containsDatetime v = false →
       ∃ enc, jsonDumpsV ea v = .ok enc) ∧
    (∀ vs, jsizeElems vs ≤ N → containsDatetimeElems vs = false →
       ∃ parts, jsonDumpsElems ea vs = .ok parts) ∧
    (∀ kvs, jsizeMembers kvs ≤ N → containsDatetimeMembers kvs = false →
       ∃ parts, jsonDumpsMembers ea kvs = .ok parts) := by
  intro N
  induction N using Nat.strong_induction_on with
  | _ N IH =>
  refine ⟨?_, ?_, ?_⟩
  · intro v hN hcd
    match v with
    | .str s => exact ⟨_, rfl⟩
    | .int n => exact ⟨_, rfl⟩
    | .bool true => exact ⟨_, rfl⟩
    | .bool false => exact ⟨_, rfl⟩
    | .none => exact ⟨_, rfl⟩
    | .datetime d => simp [containsDatetime] at hcd
    | .list vs =>
        simp only [jsize] at hN
        obtain ⟨parts, hp⟩ := (IH (N - 1)
          (by have : 0 ≤ jsizeElems vs := Nat.zero_le _; omega)).2.1 vs (by omega)
          (by rw [show containsDatetimeElems vs = containsDatetime (Value.list vs)
            from rfl]; exact hcd)
        refine ⟨'[' :: List.intercalate [',', ' '] parts ++ [']'], ?_⟩
        rw [show jsonDumpsV ea (.list vs) = do
            let parts ← jsonDumpsElems ea vs
            .ok ('[' :: List.intercalate [',', ' '] parts ++ [']']) from rfl, hp]
        rfl
    | .dict kvs =>
        simp only [jsize] at hN
        obtain ⟨parts, hp⟩ := (IH (N - 1) (by omega)).2.2 kvs (by omega)
          (by rw [show containsDatetimeMembers kvs =
            containsDatetime (Value.dict kvs) from rfl]; exact hcd)
        refine ⟨lbrace :: List.intercalate [',', ' '] parts ++ [rbrace], ?_⟩
        rw [show jsonDumpsV ea (.dict kvs) = do
            let parts ← jsonDumpsMembers ea kvs
            .ok (lbrace :: List.intercalate [',', ' '] parts ++ [rbrace]) from rfl,
          hp]
        rfl
  · intro vs hN hcd
    match vs with
    | [] => exact ⟨[], rfl⟩
    | v :: vs' =>
        simp only [jsizeElems] at hN
        rw [show containsDatetimeElems (v :: vs') =
          (containsDatetime v || containsDatetimeElems vs') from rfl,
          Bool.or_eq_false_iff] at hcd
        obtain ⟨p, hp⟩ := (IH (N - 1) (by have := jsize_pos v; omega)).1 v
          (by omega) hcd.1
        obtain ⟨ps, hps⟩ := (IH (N - 1) (by have := jsize_pos v; omega)).2.1 vs'
          (by omega) hcd.2
        refine ⟨p :: ps, ?_⟩
        rw [show jsonDumpsElems ea (v :: vs') = do
            let h ← jsonDumpsV ea v
            let t ← jsonDumpsElems ea vs'
            .ok (h :: t) from rfl, hp, hps]
        rfl
  · intro kvs hN hcd
    match kvs with
    | [] => exact ⟨[], rfl⟩
    | (k, v) :: kvs' =>
        simp only [jsizeMembers] at hN
        rw [show containsDatetimeMembers ((k, v) :: kvs') =
          (containsDatetime v || containsDatetimeMembers kvs') from rfl,
          Bool.or_eq_false_iff] at hcd
        obtain ⟨p, hp⟩ := (IH (N - 1) (by have := jsize_pos v; omega)).1 v
          (by omega) hcd.1
        obtain ⟨ps, hps⟩ := (IH (N - 1) (by have := jsize_pos v; omega)).2.2 kvs'
          (by omega) hcd.2
        refine ⟨(encodeJsonString ea k ++ ':' :: ' ' :: p) :: ps, ?_⟩
        rw [show jsonDumpsMembers ea ((k, v) :: kvs') = do
            let hv ← jsonDumpsV ea v
            let t ← jsonDumpsMembers ea kvs'
            .ok ((encodeJsonString ea k ++ ':' :: ' ' :: hv) :: t) from rfl, hp, hps]
        rfl

theorem jsonDumps_datetime_error (ea : Bool) : ∀ N : Nat,
    (∀ v, jsize v ≤ N → containsDatetime v = true →
       jsonDumpsV ea v =
         .error (.typeError "Object of type datetime is not JSON serializable")) ∧
    (∀ vs, jsizeElems vs ≤ N → containsDatetimeElems vs = true →
       jsonDumpsElems ea vs =
         .error (.typeError "Object of type datetime is not JSON serializable")) ∧
    (∀ kvs, jsizeMembers kvs ≤ N → containsDatetimeMembers kvs = true →
       jsonDumpsMembers ea kvs =
         .error (.typeError "Object of type datetime is not JSON serializable")) := by
  intro N
  induction N using Nat.strong_induction_on with
  | _ N IH =>
  refine ⟨?_, ?_, ?_⟩
  · intro v hN hcd
    match v with
    | .str s => simp [containsDatetime] at hcd
    | .int n => simp [containsDatetime] at hcd
    | .bool b => simp [containsDatetime] at hcd
    | .none => simp [containsDatetime] at hcd
    | .datetime d => rfl
    | .list vs =>
        simp only [jsize] at hN
        have hE := (IH (N - 1)
          (by have : 0 ≤ jsizeElems vs := Nat.zero_le _; omega)).2.1 vs (by omega)
          (by rw [show containsDatetimeElems vs = containsDatetime (Value.list vs)
            from rfl]; exact hcd)
        rw [show jsonDumpsV ea (.list vs) = do
            let parts ← jsonDumpsElems ea vs
            .ok ('[' :: List.intercalate [',', ' '] parts ++ [']']) from rfl, hE]
        rfl
    | .dict kvs =>
        simp only [jsize] at hN
        have hE := (IH (N - 1) (by omega)).2.2 kvs (by omega)
          (by rw [show containsDatetimeMembers kvs =
            containsDatetime (Value.dict kvs) from rfl]; exact hcd)
        rw [show jsonDumpsV ea (.dict kvs) = do
            let parts ← jsonDumpsMembers ea kvs
            .ok (lbrace :: List.intercalate [',', ' '] parts ++ [rbrace]) from rfl,
          hE]
        rfl
  · intro vs hN hcd
    match vs with
    | [] => simp [containsDatetimeElems] at hcd
    | v :: vs' =>
        simp only [jsizeElems] at hN
        rw [show containsDatetimeElems (v :: vs') =
          (containsDatetime v || containsDatetimeElems vs') from rfl,
          Bool.or_eq_true] at hcd
        rw [show jsonDumpsElems ea (v :: vs') = do
            let h ← jsonDumpsV ea v
            let t ← jsonDumpsElems ea vs'
            .ok (h :: t) from rfl]
        rcases hcd with hcd | hcd
        · rw [(IH (N - 1) (by have := jsize_pos v; omega)).1 v (by omega) hcd]
          rfl
        · match hcv : containsDatetime v with
          | true =>
              rw [(IH (N - 1) (by have := jsize_pos v; omega)).1 v (by omega) hcv]
              rfl
          | false =>
              obtain ⟨p, hp⟩ := (jsonDumps_total ea (jsize v)).1 v le_rfl hcv
              rw [hp,
                (IH (N - 1) (by have := jsize_pos v; omega)).2.1 vs' (by omega) hcd]
              rfl
  · intro kvs hN hcd
    match kvs with
    | [] => simp [containsDatetimeMembers] at hcd
    | (k, v) :: kvs' =>
        simp only [jsizeMembers] at hN
        rw [show containsDatetimeMembers ((k, v) :: kvs') =
          (containsDatetime v || containsDatetimeMembers kvs') from rfl,
          Bool.or_eq_true] at hcd
        rw [show jsonDumpsMembers ea ((k, v) :: kvs') = do
            let hv ← jsonDumpsV ea v
            let t ← jsonDumpsMembers ea kvs'
            .ok ((encodeJsonString ea k ++ ':' :: ' ' :: hv) :: t) from rfl]
        rcases hcd with hcd | hcd
        · rw [(IH (N - 1) (by have := jsize_pos v; omega)).1 v (by omega) hcd]
          rfl
        · match hcv : containsDatetime v with
          | true =>
              rw [(IH (N - 1) (by have := jsize_pos v; omega)).1 v (by omega) hcv]
              rfl
          | false =>
              obtain ⟨p, hp⟩ := (jsonDumps_total ea (jsize v)).1 v le_rfl hcv
              rw [hp,
                (IH (N - 1) (by have := jsize_pos v; omega)).2.2 kvs' (by omega) hcd]
              rfl

theorem mk_cons_isEmpty (c : Char) (cs : List Char) :
    (String.mk (c :: cs)).isEmpty = false := by
  rw [Bool.eq_false_iff]
  intro h
  rw [String.isEmpty_iff] at h
  exact absurd (congrArg String.data h) (by simp)

theorem jsonLoads_jsonDumpsV (ea : Bool) (v : Value) (enc : List Char)
    (hwf : jsonWF v = true) (henc : jsonDumpsV ea v = .ok enc) :
    jsonLoads (String.mk enc) = .ok v := by
  obtain ⟨c, cs, hc, hws, _, _, _⟩ := jsonDumpsV_head ea v enc henc
  unfold jsonLoads
  rw [show (String.mk enc).toList = enc from rfl,
    show (String.mk enc).length = enc.length from rfl,
    hc, skipWs_not_ws c _ hws, ← hc]
  have hbound := (jsize_le_enc ea (jsize v)).1 v enc le_rfl henc
  have hP := (parse_inv_master ea (jsize v)).1 v enc (enc.length + 1) []
    le_rfl hwf henc (by omega) rfl
  rw [List.append_nil] at hP
  rw [hP]
  rfl

theorem jsonLoads_jsonDumps (ea : Bool) (v : Value) (s : String)
    (hwf : jsonWF v = true) (h : jsonDumps ea v = .ok s) : jsonLoads s = .ok v := by
  unfold jsonDumps at h
  match henc : jsonDumpsV ea v with
  | .error e =>
      rw [henc] at h
      exact absurd h (by simp [Except.map])
  | .ok enc =>
      rw [henc] at h
      simp only [Except.map] at h
      injection h with h
      subst h
      exact jsonLoads_jsonDumpsV ea v enc hwf henc

theorem json_dump_load_roundtrip (cfg : JSON.Config) (fs : FS) (filename : String)
    (rows : List Record) (hne : rows ≠ [])
    (hwf : jsonWF (.list (rows.map .dict)) = true) :
    (JSON.dump cfg fs filename rows).2 = Option.none ∧
      JSON.load cfg (JSON.dump cfg fs filename rows).1 filename =
        .ok (.list (rows.map .dict)) := by
  have hcd : containsDatetime (.list (rows.map .dict)) = false :=
    (jsonWF_no_datetime (jsize (.list (rows.map .dict)))).1 _ le_rfl hwf
  obtain ⟨enc, henc⟩ :=
    (jsonDumps_total cfg.encoding.isNone (jsize (.list (rows.map .dict)))).1 _
      le_rfl hcd
  have hdump : jsonDumps cfg.encoding.isNone (.list (rows.map .dict)) =
      .ok (String.mk enc) := by
    unfold jsonDumps
    rw [henc]
    rfl
  have hne2 : rows.isEmpty = false := by
    cases rows with
    | nil => exact absurd rfl hne
    | cons r rest => rfl
  obtain ⟨c, cs, hc, _, _, _, _⟩ :=
    jsonDumpsV_head cfg.encoding.isNone _ enc henc
  unfold JSON.dump
  rw [hne2]
  simp only [Bool.false_eq_true, if_false, hdump]
  refine ⟨by trivial, ?_⟩
  unfold JSON.load
  rw [FS.read_write]
  show (if (String.mk enc).isEmpty = true then Except.ok (Value.list [])
    else jsonLoads (String.mk enc)) = .ok (.list (rows.map .dict))
  rw [hc, mk_cons_isEmpty]
  simp only [Bool.false_eq_true, if_false]
  rw [← hc]
  exact jsonLoads_jsonDumps cfg.encoding.isNone _ _ hwf hdump

theorem json_dump_datetime_raises (cfg : JSON.Config) (fs : FS) (filename : String)
    (rows : List Record) (hne : rows ≠ [])
    (hcd : containsDatetime (.list (rows.map .dict)) = true) :
    JSON.dump cfg fs filename rows =
      (fs, some (.typeError "Object of type datetime is not JSON serializable")) := by
  have hne2 : rows.isEmpty = false := by
    cases rows with
    | nil => exact absurd rfl hne
    | cons r rest => rfl
  have herr := (jsonDumps_datetime_error cfg.encoding.isNone
    (jsize (.list (rows.map .dict)))).1 _ le_rfl hcd
  unfold JSON.dump
  rw [hne2]
  simp only [Bool.false_eq_true, if_false]
  rw [show jsonDumps cfg.encoding.isNone (.list (rows.map .dict)) =
    .error (.typeError "Object of type datetime is not JSON serializable") from by
      unfold jsonDumps
      rw [herr]
      rfl]

/-! ## Helper definitions: CSV round-trip wellformedness -/

/-- The text a non-container cell value contributes to the csv file: `None`
writes empty data, anything else writes `str(value)`. -/
def renderCell : Value → String
  | .none => ""
  | v => pyStr v

/-- Characters that survive the csv reader's line handling untouched: not the
NUL sentinel and not a line-terminator character. -/
def csvCharOK (c : Char) : Bool := c != Char.ofNat 0 && c != '\r' && c != '\n'

/-- All characters of a string are `csvCharOK`. -/
def csvTextOK (s : String) : Bool := s.toList.all csvCharOK

/-- A cell value the round-trip claim covers: a scalar whose rendered text is
free of NUL and line terminators. -/
def scalarOK : Value → Bool
  | .list _ => false
  | .dict _ => false
  | v => csvTextOK (renderCell v)

/-- Row lists the round-trip claim covers: non-empty, a non-empty duplicate-free
header drawn from the first row, every row with exactly that key list, and
every cell a `scalarOK` scalar. -/
def rowsOK (rows : List Record) : Bool :=
  match rows with
  | [] => false
  | r :: _ =>
      let ks := Record.keys r
      !ks.isEmpty && nodupKeys ks && ks.all csvTextOK &&
        rows.all (fun r2 =>
          decide (Record.keys r2 = ks) && r2.all (fun kv => scalarOK kv.2))

/-- Configurations the round-trip claim covers: one-character delimiter and
escape character, distinct from each other, from the quote character and from
the characters the reader treats specially; MINIMAL quoting, header on,
OVERWRITE strategy. -/
def cfgOK (cfg : CSV.Config) : Bool :=
  match cfg.delimiter.toList, cfg.escape_character.toList with
  | [dc], [ec] =>
      decide (cfg.quoting = .minimal) && cfg.header &&
        decide (cfg.save_strategy = .OVERWRITE) &&
        dc != ec && dc != CSV.quotechar && ec != CSV.quotechar &&
        csvCharOK dc && csvCharOK ec
  | _, _ => false

namespace CSV

theorem streamFeed_cons (dc ec : Char) (m : Machine) (acc : List (List String))
    (c : Char) (rest : List Char) :
    streamFeed dc ec m acc (c :: rest) = (do
      let m ← m.step dc ec c
      if c = '\n' then
        let el := m.endLine
        streamFeed dc ec el.1 (acc ++ el.2.toList) rest
      else if c = '\r' then
        match rest with
        | '\n' :: rest2 => do
            let m ← m.step dc ec '\n'
            let el := m.endLine
            streamFeed dc ec el.1 (acc ++ el.2.toList) rest2
        | [] =>
            let el := m.endLine
            streamFeed dc ec el.1 (acc ++ el.2.toList) []
        | c2 :: rest2 =>
            let el := m.endLine
            streamFeed dc ec el.1 (acc ++ el.2.toList) (c2 :: rest2)
      else streamFeed dc ec m acc rest) := by
  rw [streamFeed]

theorem step_startRecord (dc ec : Char) (fld : List Char) (flds : List String)
    (c : Char) (hc0 : c ≠ Char.ofNat 0) (hcr : c ≠ '\r') (hcn : c ≠ '\n') :
    Machine.step dc ec ⟨.startRecord, fld, flds⟩ c =
      .ok (stepStartField dc ec ⟨.startRecord, fld, flds⟩ c) := by
  unfold Machine.step
  rw [if_neg hc0]
  show (if (c = '\n' || c = '\r' : Bool) then _ else _) = _
  simp [hcr, hcn]

theorem step_startField (dc ec : Char) (fld : List Char) (flds : List String)
    (c : Char) (hc0 : c ≠ Char.ofNat 0) :
    Machine.step dc ec ⟨.startField, fld, flds⟩ c =
      .ok (stepStartField dc ec ⟨.startField, fld, flds⟩ c) := by
  unfold Machine.step
  rw [if_neg hc0]

theorem step_inField (dc ec : Char) (fld : List Char) (flds : List String)
    (c : Char) (hc0 : c ≠ Char.ofNat 0) :
    Machine.step dc ec ⟨.inField, fld, flds⟩ c =
      .ok (stepInField dc ec ⟨.inField, fld, flds⟩ c) := by
  unfold Machine.step
  rw [if_neg hc0]

theorem step_escapedChar (dc ec : Char) (fld : List Char) (flds : List String)
    (c : Char) (hc0 : c ≠ Char.ofNat 0) (hcr : c ≠ '\r') (hcn : c ≠ '\n') :
    Machine.step dc ec ⟨.escapedChar, fld, flds⟩ c = .ok ⟨.inField, c :: fld, flds⟩ := by
  unfold Machine.step
  rw [if_neg hc0]
  show (if (c = '\n' || c = '\r' : Bool) then _ else _) = _
  simp [hcr, hcn]
  rfl

theorem step_inQuoted_esc (dc ec : Char) (fld : List Char) (flds : List String)
    (he0 : ec ≠ Char.ofNat 0) :
    Machine.step dc ec ⟨.inQuotedField, fld, flds⟩ ec =
      .ok ⟨.escapeInQuotedField, fld, flds⟩ := by
  unfold Machine.step
  rw [if_neg he0]
  show (if ec = ec then _ else _) = _
  rw [if_pos rfl]
  rfl

theorem step_inQuoted_quote (dc ec : Char) (fld : List Char) (flds : List String)
    (heq : ec ≠ quotechar) :
    Machine.step dc ec ⟨.inQuotedField, fld, flds⟩ quotechar =
      .ok ⟨.inField, fld, flds⟩ := by
  unfold Machine.step
  rw [if_neg (by decide)]
  show (if quotechar = ec then _ else _) = _
  rw [if_neg (fun h => heq h.symm)]
  show (if quotechar = quotechar then _ else _) = _
  rw [if_pos rfl]
  rfl

theorem step_inQuoted_plain (dc ec : Char) (fld : List Char) (flds : List String)
    (c : Char) (hc0 : c ≠ Char.ofNat 0) (hce : c ≠ ec) (hcq : c ≠ quotechar) :
    Machine.step dc ec ⟨.inQuotedField, fld, flds⟩ c =
      .ok ⟨.inQuotedField, c :: fld, flds⟩ := by
  unfold Machine.step
  rw [if_neg hc0]
  show (if c = ec then _ else _) = _
  rw [if_neg hce]
  show (if c = quotechar then _ else _) = _
  rw [if_neg hcq]
  rfl

theorem step_escInQuoted (dc ec : Char) (fld : List Char) (flds : List String)
    (c : Char) (hc0 : c ≠ Char.ofNat 0) :
    Machine.step dc ec ⟨.escapeInQuotedField, fld, flds⟩ c =
      .ok ⟨.inQuotedField, c :: fld, flds⟩ := by
  unfold Machine.step
  rw [if_neg hc0]
  rfl

theorem step_eatCrnl_nl (dc ec : Char) (fld : List Char) (flds : List String) :
    Machine.step dc ec ⟨.eatCrnl, fld, flds⟩ '\n' = .ok ⟨.eatCrnl, fld, flds⟩ := by
  unfold Machine.step
  rw [if_neg (by decide)]
  rfl

theorem stepSF_plain (dc ec : Char) (s : RState) (fld : List Char)
    (flds : List String) (c : Char) (hcr : c ≠ '\r') (hcn : c ≠ '\n')
    (hcq : c ≠ quotechar) (hce : c ≠ ec) (hcd : c ≠ dc) :
    stepStartField dc ec ⟨s, fld, flds⟩ c = ⟨.inField, c :: fld, flds⟩ := by
  unfold stepStartField
  show (if (c = '\n' || c = '\r' : Bool) then _ else _) = _
  simp only [hcr, hcn, decide_eq_true_eq]
  rw [if_neg (by simp [hcr, hcn]), if_neg hcq, if_neg hce, if_neg hcd]
  rfl

theorem stepSF_esc (dc ec : Char) (s : RState) (fld : List Char)
    (flds : List String) (her : ec ≠ '\r') (hen : ec ≠ '\n')
    (heq : ec ≠ quotechar) :
    stepStartField dc ec ⟨s, fld, flds⟩ ec = ⟨.escapedChar, fld, flds⟩ := by
  unfold stepStartField
  rw [if_neg (by simp [her, hen]), if_neg heq, if_pos rfl]
  rfl

theorem stepSF_delim (dc ec : Char) (s : RState) (fld : List Char)
    (flds : List String) (hdr : dc ≠ '\r') (hdn : dc ≠ '\n')
    (hdq : dc ≠ quotechar) (hde : dc ≠ ec) :
    stepStartField dc ec ⟨s, fld, flds⟩ dc =
      ⟨.startField, [], String.mk fld.reverse :: flds⟩ := by
  unfold stepStartField
  rw [if_neg (by simp [hdr, hdn]), if_neg hdq, if_neg hde, if_pos rfl]
  rfl

theorem stepSF_quote (dc ec : Char) (s : RState) (fld : List Char)
    (flds : List String) :
    stepStartField dc ec ⟨s, fld, flds⟩ quotechar = ⟨.inQuotedField, fld, flds⟩ := by
  unfold stepStartField
  rw [if_neg (by decide), if_pos rfl]
  rfl

theorem stepSF_cr (dc ec : Char) (s : RState) (fld : List Char)
    (flds : List String) :
    stepStartField dc ec ⟨s, fld, flds⟩ '\r' =
      ⟨.eatCrnl, [], String.mk fld.reverse :: flds⟩ := by
  unfold stepStartField
  rw [if_pos (by decide)]
  rfl

theorem stepIF_plain (dc ec : Char) (s : RState) (fld : List Char)
    (flds : List String) (c : Char) (hcr : c ≠ '\r') (hcn : c ≠ '\n')
    (hce : c ≠ ec) (hcd : c ≠ dc) :
    stepInField dc ec ⟨s, fld, flds⟩ c = ⟨s, c :: fld, flds⟩ := by
  unfold stepInField
  rw [if_neg (by simp [hcr, hcn]), if_neg hce, if_neg hcd]
  rfl

theorem stepIF_esc (dc ec : Char) (s : RState) (fld : List Char)
    (flds : List String) (her : ec ≠ '\r') (hen : ec ≠ '\n') :
    stepInField dc ec ⟨s, fld, flds⟩ ec = ⟨.escapedChar, fld, flds⟩ := by
  unfold stepInField
  rw [if_neg (by simp [her, hen]), if_pos rfl]
  rfl

theorem stepIF_delim (dc ec : Char) (s : RState) (fld : List Char)
    (flds : List String) (hdr : dc ≠ '\r') (hdn : dc ≠ '\n') (hde : dc ≠ ec) :
    stepInField dc ec ⟨s, fld, flds⟩ dc =
      ⟨.startField, [], String.mk fld.reverse :: flds⟩ := by
  unfold stepInField
  rw [if_neg (by simp [hdr, hdn]), if_neg hde, if_pos rfl]
  rfl

theorem stepIF_cr (dc ec : Char) (s : RState) (fld : List Char)
    (flds : List String) :
    stepInField dc ec ⟨s, fld, flds⟩ '\r' =
      ⟨.eatCrnl, [], String.mk fld.reverse :: flds⟩ := by
  unfold stepInField
  rw [if_pos (by decide)]
  rfl

end CSV

namespace CSV

theorem escPairFeed (dc ec : Char) (x : Char) (fld : List Char) (flds : List String)
    (acc : List (List String)) (rest : List Char) (s : RState)
    (hs : s = .startRecord ∨ s = .startField ∨ s = .inField)
    (hx0 : x ≠ Char.ofNat 0) (hxr : x ≠ '\r') (hxn : x ≠ '\n')
    (he0 : ec ≠ Char.ofNat 0) (her : ec ≠ '\r') (hen : ec ≠ '\n')
    (heq : ec ≠ quotechar) :
    streamFeed dc ec ⟨s, fld, flds⟩ acc (ec :: x :: rest) =
      streamFeed dc ec ⟨.inField, x :: fld, flds⟩ acc rest := by
  rw [streamFeed_cons]
  have hstep : Machine.step dc ec ⟨s, fld, flds⟩ ec =
      .ok ⟨.escapedChar, fld, flds⟩ := by
    rcases hs with rfl | rfl | rfl
    · rw [step_startRecord dc ec _ _ ec he0 her hen, stepSF_esc dc ec _ _ _ her hen heq]
    · rw [step_startField dc ec _ _ ec he0, stepSF_esc dc ec _ _ _ her hen heq]
    · rw [step_inField dc ec _ _ ec he0, stepIF_esc dc ec _ _ _ her hen]
  rw [hstep]
  simp only [Bind.bind, Except.bind]
  rw [if_neg hen, if_neg her, streamFeed_cons,
    step_escapedChar dc ec _ _ x hx0 hxr hxn]
  simp only [Bind.bind, Except.bind]
  rw [if_neg hxn, if_neg hxr]

theorem unitFeed (dc ec : Char) (c : Char) (fld : List Char) (flds : List String)
    (acc : List (List String)) (rest : List Char) (s : RState)
    (hs : s = .startRecord ∨ s = .startField ∨ s = .inField)
    (hc0 : c ≠ Char.ofNat 0) (hcr : c ≠ '\r') (hcn : c ≠ '\n') (hcd : c ≠ dc)
    (he0 : ec ≠ Char.ofNat 0) (her : ec ≠ '\r') (hen : ec ≠ '\n')
    (hed : ec ≠ dc) (heq : ec ≠ quotechar) :
    streamFeed dc ec ⟨s, fld, flds⟩ acc ((encodeChar dc ec c).1 ++ rest) =
      streamFeed dc ec ⟨.inField, c :: fld, flds⟩ acc rest := by
  by_cases hcq : c = quotechar
  · subst hcq
    have hemit : (encodeChar dc ec quotechar).1 = [ec, quotechar] := by
      unfold encodeChar
      rw [if_pos (by simp), if_pos rfl]
    rw [hemit]
    exact escPairFeed dc ec quotechar fld flds acc rest s hs (by decide) (by decide)
      (by decide) he0 her hen heq
  · by_cases hce : c = ec
    · subst hce
      have hemit : (encodeChar dc c c).1 = [c, c] := by
        unfold encodeChar
        rw [if_pos (by simp), if_neg hcq, if_pos rfl]
      rw [hemit]
      exact escPairFeed dc c c fld flds acc rest s hs hc0 hcr hcn hc0 hcr hcn hcq
    · have hemit : (encodeChar dc ec c).1 = [c] := by
        unfold encodeChar
        rw [if_neg (by simp [hcd, hce, hcq, hcr, hcn])]
      rw [hemit]
      rw [show ([c] ++ rest : List Char) = c :: rest from rfl, streamFeed_cons]
      have hstep : Machine.step dc ec ⟨s, fld, flds⟩ c =
          .ok ⟨.inField, c :: fld, flds⟩ := by
        rcases hs with rfl | rfl | rfl
        · rw [step_startRecord dc ec _ _ c hc0 hcr hcn,
            stepSF_plain dc ec _ _ _ c hcr hcn hcq hce hcd]
        · rw [step_startField dc ec _ _ c hc0,
            stepSF_plain dc ec _ _ _ c hcr hcn hcq hce hcd]
        · rw [step_inField dc ec _ _ c hc0,
            stepIF_plain dc ec _ _ _ c hcr hcn hce hcd]
      rw [hstep]
      simp only [Bind.bind, Except.bind]
      rw [if_neg hcn, if_neg hcr]

theorem dataFeed (dc ec : Char) (cs : List Char) (fld : List Char)
    (flds : List String) (acc : List (List String)) (rest : List Char) (s : RState)
    (hs : s = .startRecord ∨ s = .startField ∨ s = .inField)
    (hcs : ∀ c ∈ cs, c ≠ Char.ofNat 0 ∧ c ≠ '\r' ∧ c ≠ '\n' ∧ c ≠ dc)
    (he0 : ec ≠ Char.ofNat 0) (her : ec ≠ '\r') (hen : ec ≠ '\n')
    (hed : ec ≠ dc) (heq : ec ≠ quotechar) :
    streamFeed dc ec ⟨s, fld, flds⟩ acc ((encodeData dc ec cs).1 ++ rest) =
      streamFeed dc ec ⟨if cs.isEmpty then s else .inField, cs.reverse ++ fld, flds⟩
        acc rest := by
  induction cs generalizing fld s with
  | nil => simp [encodeData]
  | cons c cs' ih =>
      have hc := hcs c (by simp)
      rw [show encodeData dc ec (c :: cs') =
        ((encodeChar dc ec c).1 ++ (encodeData dc ec cs').1,
          (encodeChar dc ec c).2 || (encodeData dc ec cs').2) from rfl]
      rw [show ((encodeChar dc ec c).1 ++ (encodeData dc ec cs').1,
          (encodeChar dc ec c).2 || (encodeData dc ec cs').2).1 =
        (encodeChar dc ec c).1 ++ (encodeData dc ec cs').1 from rfl,
        List.append_assoc,
        unitFeed dc ec c fld flds acc _ s hs hc.1 hc.2.1 hc.2.2.1 hc.2.2.2
          he0 her hen hed heq,
        ih (c :: fld) .inField (by simp)
          (fun c2 h2 => hcs c2 (List.mem_cons_of_mem _ h2))]
      simp [List.append_assoc]

theorem quotedDataFeed (dc ec : Char) (cs : List Char) (fld : List Char)
    (flds : List String) (acc : List (List String)) (rest : List Char)
    (hcs : ∀ c ∈ cs, c ≠ Char.ofNat 0 ∧ c ≠ '\r' ∧ c ≠ '\n')
    (he0 : ec ≠ Char.ofNat 0) (her : ec ≠ '\r') (hen : ec ≠ '\n')
    (heq : ec ≠ quotechar) :
    streamFeed dc ec ⟨.inQuotedField, fld, flds⟩ acc
        ((encodeData dc ec cs).1 ++ rest) =
      streamFeed dc ec ⟨.inQuotedField, cs.reverse ++ fld, flds⟩ acc rest := by
  induction cs generalizing fld with
  | nil => simp [encodeData]
  | cons c cs' ih =>
      have hc := hcs c (by simp)
      rw [show encodeData dc ec (c :: cs') =
        ((encodeChar dc ec c).1 ++ (encodeData dc ec cs').1,
          (encodeChar dc ec c).2 || (encodeData dc ec cs').2) from rfl]
      rw [show ((encodeChar dc ec c).1 ++ (encodeData dc ec cs').1,
          (encodeChar dc ec c).2 || (encodeData dc ec cs').2).1 =
        (encodeChar dc ec c).1 ++ (encodeData dc ec cs').1 from rfl,
        List.append_assoc]
      by_cases hcq : c = quotechar
      · subst hcq
        have hemit : (encodeChar dc ec quotechar).1 = [ec, quotechar] := by
          unfold encodeChar
          rw [if_pos (by simp), if_pos rfl]
        rw [hemit, show ([ec, quotechar] ++ ((encodeData dc ec cs').1 ++ rest) :
            List Char) = ec :: quotechar :: ((encodeData dc ec cs').1 ++ rest)
          from rfl]
        rw [streamFeed_cons, step_inQuoted_esc dc ec fld flds he0]
        simp only [Bind.bind, Except.bind]
        rw [if_neg hen, if_neg her, streamFeed_cons,
          step_escInQuoted dc ec fld flds quotechar (by decide)]
        simp only [Bind.bind, Except.bind]
        rw [if_neg (by decide), if_neg (by decide),
          ih (quotechar :: fld) (fun c2 h2 => hcs c2 (List.mem_cons_of_mem _ h2))]
        simp [List.append_assoc]
      · by_cases hce : c = ec
        · subst hce
          have hemit : (encodeChar dc c c).1 = [c, c] := by
            unfold encodeChar
            rw [if_pos (by simp), if_neg hcq, if_pos rfl]
          rw [hemit, show ([c, c] ++ ((encodeData dc c cs').1 ++ rest) :
              List Char) = c :: c :: ((encodeData dc c cs').1 ++ rest) from rfl]
          rw [streamFeed_cons, step_inQuoted_esc dc c fld flds he0]
          simp only [Bind.bind, Except.bind]
          rw [if_neg hen, if_neg her, streamFeed_cons,
            step_escInQuoted dc c fld flds c hc.1]
          simp only [Bind.bind, Except.bind]
          rw [if_neg hc.2.2, if_neg hc.2.1,
            ih (c :: fld) (fun c2 h2 => hcs c2 (List.mem_cons_of_mem _ h2))]
          simp [List.append_assoc]
        · have hemit : (encodeChar dc ec c).1 = [c] := by
            unfold encodeChar
            by_cases hcd : c = dc
            · rw [if_pos (by simp [hcd]), if_neg hcq, if_neg hce]
            · rw [if_neg (by simp [hcd, hce, hcq, hc.2.1, hc.2.2])]
          rw [hemit, show ([c] ++ ((encodeData dc ec cs').1 ++ rest) : List Char) =
            c :: ((encodeData dc ec cs').1 ++ rest) from rfl]
          rw [streamFeed_cons, step_inQuoted_plain dc ec fld flds c hc.1 hce hcq]
          simp only [Bind.bind, Except.bind]
          rw [if_neg hc.2.2, if_neg hc.2.1,
            ih (c :: fld) (fun c2 h2 => hcs c2 (List.mem_cons_of_mem _ h2))]
          simp [List.append_assoc]

end CSV

namespace CSV

theorem encodeChar_delim_wants (dc ec : Char) (hdq : dc ≠ quotechar)
    (hde : dc ≠ ec) : (encodeChar dc ec dc).2 = true := by
  unfold encodeChar
  rw [if_pos (by simp), if_neg hdq, if_neg hde]

theorem encodeData_no_delim (dc ec : Char) (cs : List Char)
    (hdq : dc ≠ quotechar) (hde : dc ≠ ec)
    (h : (encodeData dc ec cs).2 = false) : ∀ c ∈ cs, c ≠ dc := by
  induction cs with
  | nil => intro c hc; simp at hc
  | cons c cs' ih =>
      rw [show encodeData dc ec (c :: cs') =
        ((encodeChar dc ec c).1 ++ (encodeData dc ec cs').1,
          (encodeChar dc ec c).2 || (encodeData dc ec cs').2) from rfl] at h
      rw [show ((encodeChar dc ec c).1 ++ (encodeData dc ec cs').1,
          (encodeChar dc ec c).2 || (encodeData dc ec cs').2).2 =
        ((encodeChar dc ec c).2 || (encodeData dc ec cs').2) from rfl,
        Bool.or_eq_false_iff] at h
      intro c2 hc2
      rcases List.mem_cons.mp hc2 with rfl | hc2
      · intro hcd
        subst hcd
        exact absurd (encodeChar_delim_wants c2 ec hdq hde) (by simp [h.1])
      · exact ih h.2 c2 hc2

theorem encodeData_wants_nonempty (dc ec : Char) (cs : List Char)
    (h : (encodeData dc ec cs).2 = true) : cs.isEmpty = false := by
  cases cs with
  | nil => simp [encodeData] at h
  | cons c cs' => rfl

theorem fieldFeed (dc ec : Char) (v : Value) (flds : List String)
    (acc : List (List String)) (rest : List Char) (s : RState)
    (hs : s = .startRecord ∨ s = .startField)
    (hdata : ∀ c ∈ (renderCell v).toList,
      c ≠ Char.ofNat 0 ∧ c ≠ '\r' ∧ c ≠ '\n')
    (hd0 : dc ≠ Char.ofNat 0) (hdr : dc ≠ '\r') (hdn : dc ≠ '\n')
    (hdq : dc ≠ quotechar)
    (he0 : ec ≠ Char.ofNat 0) (her : ec ≠ '\r') (hen : ec ≠ '\n')
    (hed : ec ≠ dc) (heq : ec ≠ quotechar) :
    streamFeed dc ec ⟨s, [], flds⟩ acc (encodeField dc ec .minimal v ++ rest) =
      streamFeed dc ec
        ⟨if (renderCell v).toList.isEmpty then s else .inField,
          (renderCell v).toList.reverse, flds⟩ acc rest := by
  have hEF : encodeField dc ec .minimal v =
      (if (encodeData dc ec (renderCell v).toList).2 = true then
        quotechar :: (encodeData dc ec (renderCell v).toList).1 ++ [quotechar]
      else (encodeData dc ec (renderCell v).toList).1) := rfl
  rw [hEF]
  match hq : (encodeData dc ec (renderCell v).toList).2 with
  | false =>
      rw [if_neg (by simp)]
      have hnd := encodeData_no_delim dc ec (renderCell v).toList hdq
        (fun h => hed h.symm) hq
      rw [dataFeed dc ec (renderCell v).toList [] flds acc rest s
        (by rcases hs with rfl | rfl
            · exact Or.inl rfl
            · exact Or.inr (Or.inl rfl))
        (fun c hc => ⟨(hdata c hc).1, (hdata c hc).2.1, (hdata c hc).2.2,
          hnd c hc⟩) he0 her hen hed heq]
      rw [List.append_nil]
  | true =>
      rw [if_pos rfl, List.cons_append, List.cons_append, List.append_assoc,
        List.singleton_append, streamFeed_cons]
      have hstep : Machine.step dc ec ⟨s, [], flds⟩ quotechar =
          .ok ⟨.inQuotedField, [], flds⟩ := by
        rcases hs with rfl | rfl
        · rw [step_startRecord dc ec _ _ quotechar (by decide) (by decide)
            (by decide), stepSF_quote]
        · rw [step_startField dc ec _ _ quotechar (by decide), stepSF_quote]
      rw [hstep]
      simp only [Bind.bind, Except.bind]
      rw [if_neg (by decide), if_neg (by decide),
        quotedDataFeed dc ec (renderCell v).toList [] flds acc _ hdata
          he0 her hen heq,
        streamFeed_cons, step_inQuoted_quote dc ec _ _ heq]
      simp only [Bind.bind, Except.bind]
      rw [if_neg (by decide), if_neg (by decide), List.append_nil,
        encodeData_wants_nonempty dc ec _ hq]
      rfl

end CSV

namespace CSV

theorem crlfEnd (dc ec : Char) (fld : List Char) (flds : List String)
    (acc : List (List String)) (rest : List Char) (s : RState)
    (hs : s = .startField ∨ s = .inField) :
    streamFeed dc ec ⟨s, fld, flds⟩ acc ('\r' :: '\n' :: rest) =
      streamFeed dc ec ⟨.startRecord, [], []⟩
        (acc ++ [(String.mk fld.reverse :: flds).reverse]) rest := by
  rw [streamFeed_cons]
  have hstep : Machine.step dc ec ⟨s, fld, flds⟩ '\r' =
      .ok ⟨.eatCrnl, [], String.mk fld.reverse :: flds⟩ := by
    rcases hs with rfl | rfl
    · rw [step_startField dc ec _ _ '\r' (by decide), stepSF_cr]
    · rw [step_inField dc ec _ _ '\r' (by decide), stepIF_cr]
  rw [hstep]
  simp only [Bind.bind, Except.bind]
  rw [if_neg (by decide), if_pos (by trivial), step_eatCrnl_nl]
  rfl

theorem encodeChar_fst_ne_nil (dc ec : Char) (c : Char) :
    (encodeChar dc ec c).1 ≠ [] := by
  unfold encodeChar
  repeat' split
  all_goals simp

theorem encodeData_fst_nil (dc ec : Char) (cs : List Char)
    (h : (encodeData dc ec cs).1 = []) : cs = [] := by
  cases cs with
  | nil => rfl
  | cons c cs' =>
      rw [show encodeData dc ec (c :: cs') =
        ((encodeChar dc ec c).1 ++ (encodeData dc ec cs').1,
          (encodeChar dc ec c).2 || (encodeData dc ec cs').2) from rfl] at h
      rw [show ((encodeChar dc ec c).1 ++ (encodeData dc ec cs').1,
          (encodeChar dc ec c).2 || (encodeData dc ec cs').2).1 =
        ((encodeChar dc ec c).1 ++ (encodeData dc ec cs').1) from rfl,
        List.append_eq_nil] at h
      exact absurd h.1 (encodeChar_fst_ne_nil dc ec c)

theorem encodeField_nil (dc ec : Char) (v : Value)
    (h : encodeField dc ec .minimal v = []) : (renderCell v).toList = [] := by
  have hEF : encodeField dc ec .minimal v =
      (if (encodeData dc ec (renderCell v).toList).2 = true then
        quotechar :: (encodeData dc ec (renderCell v).toList).1 ++ [quotechar]
      else (encodeData dc ec (renderCell v).toList).1) := rfl
  rw [hEF] at h
  match hq : (encodeData dc ec (renderCell v).toList).2 with
  | true =>
      rw [hq] at h
      simp at h
  | false =>
      rw [hq] at h
      simp only [Bool.false_eq_true, if_false] at h
      exact encodeData_fst_nil dc ec _ h

theorem fieldsFeedTail (dc ec : Char) (vs : List Value) (flds : List String)
    (acc : List (List String)) (rest : List Char) (hne : vs ≠ [])
    (hvs : ∀ v ∈ vs, ∀ c ∈ (renderCell v).toList,
      c ≠ Char.ofNat 0 ∧ c ≠ '\r' ∧ c ≠ '\n')
    (hd0 : dc ≠ Char.ofNat 0) (hdr : dc ≠ '\r') (hdn : dc ≠ '\n')
    (hdq : dc ≠ quotechar)
    (he0 : ec ≠ Char.ofNat 0) (her : ec ≠ '\r') (hen : ec ≠ '\n')
    (hed : ec ≠ dc) (heq : ec ≠ quotechar) :
    streamFeed dc ec ⟨.startField, [], flds⟩ acc
        (List.intercalate [dc] (vs.map (encodeField dc ec .minimal)) ++
          '\r' :: '\n' :: rest) =
      streamFeed dc ec ⟨.startRecord, [], []⟩
        (acc ++ [flds.reverse ++ vs.map (fun v => renderCell v)]) rest := by
  induction vs generalizing flds with
  | nil => exact absurd rfl hne
  | cons v vs' ih =>
      cases vs' with
      | nil =>
          rw [List.map_cons, List.map_nil, intercalate_one,
            fieldFeed dc ec v flds acc _ .startField (Or.inr rfl) (hvs v (by simp))
              hd0 hdr hdn hdq he0 her hen hed heq]
          rw [crlfEnd dc ec _ flds acc rest _ (by split <;> simp)]
          simp [List.reverse_cons, List.reverse_reverse, mk_toList]
      | cons w ws =>
          simp only [List.map_cons]
          rw [intercalate_two, List.append_assoc, List.append_assoc,
            show ([dc] ++ (List.intercalate [dc]
                (encodeField dc ec .minimal w ::
                  List.map (encodeField dc ec .minimal) ws) ++
                '\r' :: '\n' :: rest) : List Char) =
              dc :: (List.intercalate [dc]
                (encodeField dc ec .minimal w ::
                  List.map (encodeField dc ec .minimal) ws) ++
                '\r' :: '\n' :: rest) from rfl,
            fieldFeed dc ec v flds acc _ .startField (Or.inr rfl) (hvs v (by simp))
              hd0 hdr hdn hdq he0 her hen hed heq,
            streamFeed_cons]
          have hstep : Machine.step dc ec
              ⟨if (renderCell v).toList.isEmpty then RState.startField
                else RState.inField, (renderCell v).toList.reverse, flds⟩ dc =
              .ok ⟨.startField, [],
                String.mk (renderCell v).toList.reverse.reverse :: flds⟩ := by
            split
            · rw [step_startField dc ec _ _ dc hd0,
                stepSF_delim dc ec _ _ _ hdr hdn hdq (fun h => hed h.symm)]
            · rw [step_inField dc ec _ _ dc hd0,
                stepIF_delim dc ec _ _ _ hdr hdn (fun h => hed h.symm)]
          rw [hstep]
          simp only [Bind.bind, Except.bind]
          rw [if_neg hdn, if_neg hdr]
          have hih := ih (String.mk (renderCell v).toList.reverse.reverse :: flds)
            (by simp) (fun v2 h2 => hvs v2 (List.mem_cons_of_mem _ h2))
          simp only [List.map_cons] at hih
          rw [hih]
          simp [List.reverse_cons, List.reverse_reverse, mk_toList,
            List.append_assoc]

end CSV

namespace CSV

theorem lineFeed (dc ec : Char) (vs : List Value) (acc : List (List String))
    (rest : List Char) (hne : vs ≠ [])
    (hvs : ∀ v ∈ vs, ∀ c ∈ (renderCell v).toList,
      c ≠ Char.ofNat 0 ∧ c ≠ '\r' ∧ c ≠ '\n')
    (hd0 : dc ≠ Char.ofNat 0) (hdr : dc ≠ '\r') (hdn : dc ≠ '\n')
    (hdq : dc ≠ quotechar)
    (he0 : ec ≠ Char.ofNat 0) (her : ec ≠ '\r') (hen : ec ≠ '\n')
    (hed : ec ≠ dc) (heq : ec ≠ quotechar) :
    streamFeed dc ec ⟨.startRecord, [], []⟩ acc
        (encodeRowLine dc ec .minimal vs ++ rest) =
      streamFeed dc ec ⟨.startRecord, [], []⟩
        (acc ++ [vs.map (fun v => renderCell v)]) rest := by
  have hRL : encodeRowLine dc ec .minimal vs =
      ((if (!vs.isEmpty &&
            (List.intercalate [dc]
              (vs.map (encodeField dc ec .minimal))).isEmpty : Bool) then
          [quotechar, quotechar]
        else List.intercalate [dc] (vs.map (encodeField dc ec .minimal))) ++
        ['\r', '\n']) := rfl
  rw [hRL]
  match vs, hne, hvs with
  | [v], _, hvs =>
      simp only [List.map_cons, List.map_nil]
      simp only [intercalate_one]
      by_cases hE : encodeField dc ec .minimal v = []
      · have hEmpty : (renderCell v).toList = [] := encodeField_nil dc ec v hE
        have hcell : renderCell v = "" := by
          rw [← mk_toList (renderCell v), hEmpty]
        rw [show ((!([v] : List Value).isEmpty &&
            (encodeField dc ec .minimal v).isEmpty : Bool)) = true from by
          rw [hE]
          rfl]
        rw [if_pos rfl, List.append_assoc,
          show (([quotechar, quotechar] : List Char) ++ (['\r', '\n'] ++ rest)) =
            quotechar :: quotechar :: '\r' :: '\n' :: rest from rfl,
          streamFeed_cons,
          step_startRecord dc ec _ _ quotechar (by decide) (by decide) (by decide),
          stepSF_quote]
        simp only [Bind.bind, Except.bind]
        rw [if_neg (by decide), if_neg (by decide), streamFeed_cons,
          step_inQuoted_quote dc ec _ _ heq]
        simp only [Bind.bind, Except.bind]
        rw [if_neg (by decide), if_neg (by decide),
          crlfEnd dc ec [] [] acc rest .inField (Or.inr rfl)]
        simp [hcell]
      · have hdata_ne : (renderCell v).toList.isEmpty = false := by
          cases h : (renderCell v).toList.isEmpty
          · rfl
          · exfalso
            have h2 : (renderCell v).toList = [] := by
              cases hl : (renderCell v).toList
              · rfl
              · rw [hl] at h; simp at h
            exact hE (by
              have : encodeField dc ec .minimal v =
                  (if (encodeData dc ec (renderCell v).toList).2 = true then
                    quotechar :: (encodeData dc ec (renderCell v).toList).1 ++
                      [quotechar]
                  else (encodeData dc ec (renderCell v).toList).1) := rfl
              rw [this, h2]
              rfl)
        rw [show ((!([v] : List Value).isEmpty &&
            (encodeField dc ec .minimal v).isEmpty : Bool)) = false from by
          cases hl : encodeField dc ec .minimal v
          · exact absurd hl hE
          · rfl]
        rw [show (if (false : Bool) then [quotechar, quotechar]
            else encodeField dc ec .minimal v) = encodeField dc ec .minimal v
          from rfl]
        rw [List.append_assoc,
          show ((['\r', '\n'] : List Char) ++ rest) = '\r' :: '\n' :: rest from rfl,
          fieldFeed dc ec v [] acc _ .startRecord (Or.inl rfl) (hvs v (by simp))
            hd0 hdr hdn hdq he0 her hen hed heq,
          hdata_ne]
        simp only [Bool.false_eq_true, if_false]
        rw [crlfEnd dc ec _ [] acc rest .inField (Or.inr rfl)]
        simp [List.reverse_reverse, mk_toList]
  | v :: w :: ws, _, hvs =>
      simp only [List.map_cons]
      have hline : (List.intercalate [dc]
          (encodeField dc ec .minimal v :: encodeField dc ec .minimal w ::
            List.map (encodeField dc ec .minimal) ws)).isEmpty = false := by
        rw [intercalate_two]
        cases hEv : encodeField dc ec .minimal v with
        | nil => rfl
        | cons a l => rfl
      rw [show ((!((v :: w :: ws : List Value)).isEmpty &&
          (List.intercalate [dc]
            (encodeField dc ec .minimal v :: encodeField dc ec .minimal w ::
              List.map (encodeField dc ec .minimal) ws)).isEmpty : Bool)) = false
        from by rw [hline]; simp]
      rw [show (if (false : Bool) then [quotechar, quotechar]
          else List.intercalate [dc]
            (encodeField dc ec .minimal v :: encodeField dc ec .minimal w ::
              List.map (encodeField dc ec .minimal) ws)) =
        List.intercalate [dc]
          (encodeField dc ec .minimal v :: encodeField dc ec .minimal w ::
            List.map (encodeField dc ec .minimal) ws) from rfl]
      rw [intercalate_two, List.append_assoc, List.append_assoc, List.append_assoc,
        show ((['\r', '\n'] : List Char) ++ rest) = '\r' :: '\n' :: rest from rfl,
        show (([dc] : List Char) ++ (List.intercalate [dc]
            (encodeField dc ec .minimal w :: List.map (encodeField dc ec .minimal) ws)
            ++ '\r' :: '\n' :: rest)) =
          dc :: (List.intercalate [dc]
            (encodeField dc ec .minimal w :: List.map (encodeField dc ec .minimal) ws)
            ++ '\r' :: '\n' :: rest) from rfl,
        fieldFeed dc ec v [] acc _ .startRecord (Or.inl rfl) (hvs v (by simp))
          hd0 hdr hdn hdq he0 her hen hed heq,
        streamFeed_cons]
      have hstep : Machine.step dc ec
          ⟨if (renderCell v).toList.isEmpty then RState.startRecord
            else RState.inField, (renderCell v).toList.reverse, []⟩ dc =
          .ok ⟨.startField, [],
            [String.mk (renderCell v).toList.reverse.reverse]⟩ := by
        split
        · rw [step_startRecord dc ec _ _ dc hd0 hdr hdn,
            stepSF_delim dc ec _ _ _ hdr hdn hdq (fun h => hed h.symm)]
        · rw [step_inField dc ec _ _ dc hd0,
            stepIF_delim dc ec _ _ _ hdr hdn (fun h => hed h.symm)]
      rw [hstep]
      simp only [Bind.bind, Except.bind]
      rw [if_neg hdn, if_neg hdr]
      have hih := fieldsFeedTail dc ec (w :: ws)
        [String.mk (renderCell v).toList.reverse.reverse] acc rest (by simp)
        (fun v2 h2 => hvs v2 (List.mem_cons_of_mem _ h2))
        hd0 hdr hdn hdq he0 her hen hed heq
      simp only [List.map_cons] at hih
      rw [hih]
      simp [List.reverse_reverse, mk_toList]

end CSV

/-- The per-value effect of `format_datetime_values`. -/
def fdvVal : Value → Value
  | .datetime d => .str (formatDatetime d)
  | v => v

theorem format_datetime_values_eq (r : Record) :
    format_datetime_values r = r.map (fun kv => (kv.1, fdvVal kv.2)) := by
  unfold format_datetime_values
  apply List.map_congr_left
  intro kv _
  obtain ⟨k, v⟩ := kv
  cases v <;> rfl

theorem renderCell_fdvVal (v : Value) : renderCell (fdvVal v) = renderCell v := by
  cases v <;> rfl

theorem keys_map_snd (r : Record) (f : Value → Value) :
    Record.keys (r.map (fun kv => (kv.1, f kv.2))) = Record.keys r := by
  unfold Record.keys
  rw [List.map_map]
  rfl

theorem map_get_self (r : Record) (hnd : nodupKeys (Record.keys r) = true) :
    (Record.keys r).map (fun k => (Record.get? r k).getD .none) = r.map Prod.snd := by
  induction r with
  | nil => rfl
  | cons kv r' ih =>
      obtain ⟨k0, v0⟩ := kv
      rw [show Record.keys ((k0, v0) :: r') = k0 :: Record.keys r' from rfl] at hnd ⊢
      rw [show nodupKeys (k0 :: Record.keys r') =
        (!((Record.keys r').contains k0) && nodupKeys (Record.keys r')) from rfl,
        Bool.and_eq_true, Bool.not_eq_true'] at hnd
      rw [List.map_cons, List.map_cons]
      congr 1
      · rw [show Record.get? ((k0, v0) :: r') k0 =
          (if k0 = k0 then some v0 else Record.get? r' k0) from rfl, if_pos rfl]
        rfl
      · rw [← ih hnd.2]
        apply List.map_congr_left
        intro k hk
        have hne : k0 ≠ k := by
          intro he
          subst he
          have hnm : ¬ k0 ∈ Record.keys r' := by simpa using hnd.1
          exact hnm hk
        rw [show Record.get? ((k0, v0) :: r') k =
          (if k0 = k then some v0 else Record.get? r' k) from rfl, if_neg hne]

theorem dict_to_list_exact (ks : List String) (r : Record)
    (hk : Record.keys r = ks) (hnd : nodupKeys ks = true) :
    CSV.dict_to_list ks r = .ok (r.map Prod.snd) := by
  unfold CSV.dict_to_list
  rw [if_pos ?_]
  · subst hk
    rw [map_get_self r hnd]
  · rw [hk, List.all_eq_true]
    intro k hk2
    exact List.elem_eq_true_of_mem hk2

theorem encodeRows_ok (dc ec : Char) (ks : List String) (rows : List Record)
    (hnd : nodupKeys ks = true)
    (hall : ∀ r ∈ rows, Record.keys r = ks) :
    CSV.encodeRows dc ec .minimal ks rows =
      ((rows.map (fun r =>
        CSV.encodeRowLine dc ec .minimal (r.map (fun kv => fdvVal kv.2)))).flatten,
        Option.none) := by
  induction rows with
  | nil => rfl
  | cons r rest ih =>
      rw [show CSV.encodeRows dc ec .minimal ks (r :: rest) =
        (match CSV.dict_to_list ks (format_datetime_values r) with
        | .error e => ([], some e)
        | .ok fields =>
            let t := CSV.encodeRows dc ec .minimal ks rest
            (CSV.encodeRowLine dc ec .minimal fields ++ t.1, t.2)) from rfl]
      rw [format_datetime_values_eq,
        dict_to_list_exact ks _ (by rw [keys_map_snd]; exact hall r (by simp)) hnd,
        ih (fun r2 h2 => hall r2 (List.mem_cons_of_mem _ h2))]
      simp only [List.map_cons, List.flatten_cons]
      rw [show (r.map (fun kv => (kv.1, fdvVal kv.2))).map Prod.snd =
        r.map (fun kv => fdvVal kv.2) from by rw [List.map_map]; rfl]

namespace CSV

theorem linesFeed (dc ec : Char) (vss : List (List Value))
    (acc : List (List String))
    (hvss : ∀ vs ∈ vss, vs ≠ [] ∧ ∀ v ∈ vs, ∀ c ∈ (renderCell v).toList,
      c ≠ Char.ofNat 0 ∧ c ≠ '\r' ∧ c ≠ '\n')
    (hd0 : dc ≠ Char.ofNat 0) (hdr : dc ≠ '\r') (hdn : dc ≠ '\n')
    (hdq : dc ≠ quotechar)
    (he0 : ec ≠ Char.ofNat 0) (her : ec ≠ '\r') (hen : ec ≠ '\n')
    (hed : ec ≠ dc) (heq : ec ≠ quotechar) :
    streamFeed dc ec ⟨.startRecord, [], []⟩ acc
        ((vss.map (encodeRowLine dc ec .minimal)).flatten) =
      .ok (⟨.startRecord, [], []⟩,
        acc ++ vss.map (fun vs => vs.map (fun v => renderCell v))) := by
  induction vss generalizing acc with
  | nil => simp [streamFeed]
  | cons vs vss' ih =>
      rw [List.map_cons, List.flatten_cons,
        lineFeed dc ec vs acc _ (hvss vs (by simp)).1 (hvss vs (by simp)).2
          hd0 hdr hdn hdq he0 her hen hed heq,
        ih (acc ++ [vs.map (fun v => renderCell v)])
          (fun vs2 h2 => hvss vs2 (List.mem_cons_of_mem _ h2))]
      simp

end CSV

theorem csvCharOK_spec (c : Char) (h : csvCharOK c = true) :
    c ≠ Char.ofNat 0 ∧ c ≠ '\r' ∧ c ≠ '\n' := by
  unfold csvCharOK at h
  simp only [Bool.and_eq_true, bne_iff_ne, ne_eq] at h
  exact ⟨h.1.1, h.1.2, h.2⟩

theorem scalarOK_chars (v : Value) (h : scalarOK v = true) :
    ∀ c ∈ (renderCell v).toList, c ≠ Char.ofNat 0 ∧ c ≠ '\r' ∧ c ≠ '\n' := by
  intro c hc
  have htext : csvTextOK (renderCell v) = true := by
    cases v
    case list l => simp [scalarOK] at h
    case dict l => simp [scalarOK] at h
    all_goals exact h
  unfold csvTextOK at htext
  rw [List.all_eq_true] at htext
  exact csvCharOK_spec c (htext c hc)

theorem csvTextOK_chars (s : String) (h : csvTextOK s = true) :
    ∀ c ∈ s.toList, c ≠ Char.ofNat 0 ∧ c ≠ '\r' ∧ c ≠ '\n' := by
  intro c hc
  unfold csvTextOK at h
  rw [List.all_eq_true] at h
  exact csvCharOK_spec c (h c hc)

theorem filter_nonempty_eq (l : List (List String))
    (h : ∀ r ∈ l, r.isEmpty = false) :
    l.filter (fun r => !r.isEmpty) = l := by
  induction l with
  | nil => rfl
  | cons a l' ih =>
      rw [List.filter_cons, if_pos (by rw [h a (by simp)]; rfl),
        ih (fun r hr => h r (List.mem_cons_of_mem _ hr))]

theorem dictRow_eq_len (ks : List String) (row : List String)
    (h : row.length = ks.length) :
    CSV.dictRow ks row =
      (ks.zip (row.map Value.str)).map (fun kv => (some kv.1, kv.2)) := by
  simp only [CSV.dictRow]
  rw [if_neg (by omega), if_neg (by omega)]

theorem zip_map_self (r : Record) :
    ((r.map Prod.fst).zip ((r.map (fun kv => renderCell kv.2)).map Value.str)).map
      (fun kv => (some kv.1, kv.2)) =
      r.map (fun kv => (some kv.1, Value.str (renderCell kv.2))) := by
  induction r with
  | nil => rfl
  | cons kv r' ih => simp only [List.map_cons, List.zip_cons_cons, ih]

theorem map_renderCell_str (ks : List String) :
    (ks.map Value.str).map (fun v => renderCell v) = ks := by
  rw [List.map_map]
  have hcomp : ((fun v => renderCell v) ∘ Value.str) = id := by
    funext k
    rfl
  rw [hcomp, List.map_id]

theorem row_texts (r : Record) :
    (r.map (fun kv => fdvVal kv.2)).map (fun v => renderCell v) =
      r.map (fun kv => renderCell kv.2) := by
  rw [List.map_map]
  apply List.map_congr_left
  intro kv _
  exact renderCell_fdvVal kv.2

theorem empty_string_append (s : String) : "" ++ s = s := by
  cases s
  rfl

theorem finishStream_startRecord (acc : List (List String)) :
    CSV.finishStream ⟨.startRecord, [], []⟩ acc = acc := rfl

theorem record_texts_nonempty (r : Record) (h : (Record.keys r).isEmpty = false) :
    (r.map (fun kv => renderCell kv.2)).isEmpty = false := by
  cases r with
  | nil => exact absurd h (by decide)
  | cons kv r2 => rfl

theorem record_fdv_texts_nonempty (r : Record)
    (h : (Record.keys r).isEmpty = false) :
    ((r.map (fun kv => fdvVal kv.2)).map (fun v => renderCell v)).isEmpty = false := by
  cases r with
  | nil => exact absurd h (by decide)
  | cons kv r2 => rfl

theorem dictRow_image (ks : List String) (r : Record)
    (hkr : Record.keys r = ks) :
    CSV.dictRow ks (r.map (fun kv => renderCell kv.2)) =
      r.map (fun kv => (some kv.1, Value.str (renderCell kv.2))) := by
  rw [dictRow_eq_len _ _ (by
      rw [List.length_map, ← hkr]
      show r.length = (Record.keys r).length
      rw [show Record.keys r = r.map Prod.fst from rfl, List.length_map]),
    ← hkr, show Record.keys r = r.map Prod.fst from rfl]
  exact zip_map_self r

theorem csv_dump_load_roundtrip (cfg : CSV.Config) (fs : FS) (filename : String)
    (rows : List Record) (hc : cfgOK cfg = true) (hr : rowsOK rows = true) :
    (CSV.dump cfg ⟨[]⟩ fs filename rows).2.2 = Option.none ∧
      CSV.load cfg (CSV.dump cfg ⟨[]⟩ fs filename rows).2.1 filename =
        .ok (rows.map (fun r =>
          r.map (fun kv => (some kv.1, Value.str (renderCell kv.2))))) := by
  obtain ⟨delim, esc, q, hdr, ss⟩ := cfg
  unfold cfgOK at hc
  split at hc
  case h_2 => exact absurd hc (by decide)
  case h_1 dc ec hdl hel =>
  simp only [Bool.and_eq_true, decide_eq_true_eq, bne_iff_ne, ne_eq] at hc
  obtain ⟨⟨⟨⟨⟨⟨⟨hq, hh⟩, hss⟩, hde⟩, hdq⟩, heq2⟩, hcd⟩, hce⟩ := hc
  subst hq
  subst hh
  subst hss
  obtain ⟨hd0, hdr0, hdn0⟩ := csvCharOK_spec dc hcd
  obtain ⟨he0, her0, hen0⟩ := csvCharOK_spec ec hce
  match rows, hr with
  | r0 :: rest, hr =>
  unfold rowsOK at hr
  simp only [Bool.and_eq_true, Bool.not_eq_true', decide_eq_true_eq,
    List.all_eq_true] at hr
  obtain ⟨⟨⟨hksne, hnd⟩, hksok⟩, hallrows⟩ := hr
  have hchars : (CSV.dialect_and_format_parameters
      ⟨delim, esc, .minimal, true, .OVERWRITE⟩).chars = .ok (dc, ec) := by
    rw [show (CSV.dialect_and_format_parameters
        ⟨delim, esc, .minimal, true, .OVERWRITE⟩).chars =
      (match delim.toList, esc.toList with
       | [dcx], [ecx] => .ok (dcx, ecx)
       | _, _ => .error
          (.typeError "delimiter or escapechar must be a 1-character string"))
      from rfl, hdl, hel]
  have hrows := encodeRows_ok dc ec (Record.keys r0) (r0 :: rest) hnd
    (fun r h => ((hallrows r h).1))
  have hdump : CSV.dump ⟨delim, esc, .minimal, true, .OVERWRITE⟩ ⟨[]⟩ fs filename
      (r0 :: rest) =
      ((⟨[]⟩ : CSV.InstState).set filename,
        (fs.write (filename ++ ".csv") "").append (filename ++ ".csv")
          (String.mk (CSV.writeheaderLine dc ec .minimal (Record.keys r0) ++
            (((r0 :: rest).map (fun r =>
              CSV.encodeRowLine dc ec .minimal
                (r.map (fun kv => fdvVal kv.2)))).flatten))),
        Option.none) := by
    rw [show CSV.dump ⟨delim, esc, .minimal, true, .OVERWRITE⟩ ⟨[]⟩ fs filename
        (r0 :: rest) =
      (match (CSV.dialect_and_format_parameters
          ⟨delim, esc, .minimal, true, .OVERWRITE⟩).chars with
       | .error e => (⟨[]⟩, (fs.write (filename ++ ".csv") ""), some e)
       | .ok (dcx, ecx) =>
          ((⟨[]⟩ : CSV.InstState).set filename,
            (fs.write (filename ++ ".csv") "").append (filename ++ ".csv")
              (String.mk (CSV.writeheaderLine dcx ecx .minimal (Record.keys r0) ++
                (CSV.encodeRows dcx ecx .minimal (Record.keys r0) (r0 :: rest)).1)),
            (CSV.encodeRows dcx ecx .minimal (Record.keys r0) (r0 :: rest)).2))
      from rfl, hchars]
    simp only []
    rw [hrows]
  refine ⟨by rw [hdump], ?_⟩
  rw [hdump]
  rw [show CSV.load ⟨delim, esc, .minimal, true, .OVERWRITE⟩
      ((fs.write (filename ++ ".csv") "").append (filename ++ ".csv")
        (String.mk (CSV.writeheaderLine dc ec .minimal (Record.keys r0) ++
          (((r0 :: rest).map (fun r =>
            CSV.encodeRowLine dc ec .minimal
              (r.map (fun kv => fdvVal kv.2)))).flatten)))) filename =
    (match ((fs.write (filename ++ ".csv") "").append (filename ++ ".csv")
        (String.mk (CSV.writeheaderLine dc ec .minimal (Record.keys r0) ++
          (((r0 :: rest).map (fun r =>
            CSV.encodeRowLine dc ec .minimal
              (r.map (fun kv => fdvVal kv.2)))).flatten)))).read
        (filename ++ ".csv") with
     | Option.none => .ok []
     | some content => do
        let dcec ← (CSV.dialect_and_format_parameters
          ⟨delim, esc, .minimal, true, .OVERWRITE⟩).chars
        let rows2 ← CSV.reader dcec.1 dcec.2 content
        match rows2 with
        | [] => .ok []
        | fieldnames :: rest2 =>
            .ok ((rest2.filter (fun r => !r.isEmpty)).map (CSV.dictRow fieldnames)))
    from rfl]
  rw [FS.read_append, FS.read_write]
  rw [show (some "").getD "" = "" from rfl, empty_string_append]
  simp only []
  rw [hchars]
  simp only [Bind.bind, Except.bind]
  rw [show CSV.reader dc ec (String.mk
      (CSV.writeheaderLine dc ec .minimal (Record.keys r0) ++
        (((r0 :: rest).map (fun r => CSV.encodeRowLine dc ec .minimal
          (r.map (fun kv => fdvVal kv.2)))).flatten))) =
    (do
      let r ← CSV.streamFeed dc ec ⟨.startRecord, [], []⟩ []
        (CSV.writeheaderLine dc ec .minimal (Record.keys r0) ++
          (((r0 :: rest).map (fun r => CSV.encodeRowLine dc ec .minimal
            (r.map (fun kv => fdvVal kv.2)))).flatten))
      .ok (CSV.finishStream r.1 r.2)) from rfl]
  have hflat : CSV.writeheaderLine dc ec .minimal (Record.keys r0) ++
      (((r0 :: rest).map (fun r => CSV.encodeRowLine dc ec .minimal
        (r.map (fun kv => fdvVal kv.2)))).flatten) =
      ((((Record.keys r0).map Value.str) ::
        (r0 :: rest).map (fun r => r.map (fun kv => fdvVal kv.2))).map
          (CSV.encodeRowLine dc ec .minimal)).flatten := by
    conv_rhs => rw [List.map_cons, List.flatten_cons, List.map_map]
    rfl
  rw [hflat,
    CSV.linesFeed dc ec _ [] ?hconds hd0 hdr0 hdn0 hdq he0 her0 hen0
      (fun h => hde h.symm) heq2]
  case hconds =>
    intro vs hvs
    rcases List.mem_cons.mp hvs with rfl | hvs2
    · refine ⟨?_, ?_⟩
      · intro hnil
        rw [List.map_eq_nil_iff] at hnil
        rw [hnil] at hksne
        exact absurd hksne (by decide)
      · intro v hv c hcc
        obtain ⟨k, hk, rfl⟩ := List.mem_map.mp hv
        exact csvTextOK_chars k (hksok k hk) c hcc
    · obtain ⟨r, hrmem, rfl⟩ := List.mem_map.mp hvs2
      refine ⟨?_, ?_⟩
      · intro hnil
        rw [List.map_eq_nil_iff] at hnil
        have := (hallrows r hrmem).1
        rw [hnil] at this
        rw [← this] at hksne
        exact absurd hksne (by decide)
      · intro v hv c hcc
        obtain ⟨kv, hkv, rfl⟩ := List.mem_map.mp hv
        rw [renderCell_fdvVal] at hcc
        exact scalarOK_chars kv.2 ((hallrows r hrmem).2 kv hkv) c hcc
  simp only [Bind.bind, Except.bind, List.nil_append, List.map_cons]
  rw [finishStream_startRecord, map_renderCell_str]
  simp only []
  rw [row_texts r0, List.map_map]
  have hfilter : (List.filter (fun r => !r.isEmpty)
      ((r0.map (fun kv => renderCell kv.2)) ::
        rest.map ((fun vs => vs.map (fun v => renderCell v)) ∘
          (fun r => r.map (fun kv => fdvVal kv.2))))) =
      ((r0.map (fun kv => renderCell kv.2)) ::
        rest.map ((fun vs => vs.map (fun v => renderCell v)) ∘
          (fun r => r.map (fun kv => fdvVal kv.2)))) := by
    apply filter_nonempty_eq
    intro r2 hr2
    rcases List.mem_cons.mp hr2 with rfl | hr2b
    · exact record_texts_nonempty r0 hksne
    · obtain ⟨r, hrmem, rfl⟩ := List.mem_map.mp hr2b
      exact record_fdv_texts_nonempty r
        (by rw [(hallrows r (List.mem_cons_of_mem _ hrmem)).1]; exact hksne)
  rw [hfilter, List.map_cons, List.map_map]
  congr 1
  congr 1
  · exact dictRow_image (Record.keys r0) r0 rfl
  · apply List.map_congr_left
    intro r hrmem
    show CSV.dictRow (Record.keys r0)
        ((r.map (fun kv => fdvVal kv.2)).map (fun v => renderCell v)) =
      r.map (fun kv => (some kv.1, Value.str (renderCell kv.2)))
    rw [row_texts r]
    exact dictRow_image (Record.keys r0) r
      (hallrows r (List.mem_cons_of_mem _ hrmem)).1

/-- C1 (counterexample): the CSV backend does not return records equal to the
input for every non-datetime scalar: dumping the single row `{"a": 1}` and
loading it back yields the string `"1"`, not the integer `1` — `csv.DictReader`
returns every cell as text. -/
theorem csv_roundtrip_not_identity :
    (CSV.load CSV.defaultConfig
        (CSV.dump CSV.defaultConfig ⟨[]⟩ [] "t" [[("a", Value.int 1)]]).2.1 "t" =
      .ok [[(some "a", Value.str "1")]]) ∧ Value.str "1" ≠ Value.int 1 :=
  ⟨rfl, fun h => Value.noConfusion h⟩

/-- C1 (amended): what `dump` followed by `load` actually returns.  (1) CSV:
for a well-formed configuration (one-character delimiter and escape character,
distinct from each other, the quote character, NUL and the line terminators;
MINIMAL quoting, header on, OVERWRITE) and well-formed rows (non-empty, a
fixed duplicate-free non-empty key list, scalar cells whose rendered text is
free of NUL and line terminators), `dump` succeeds and `load` returns every
cell as the *text* of the original value — `None` as `""`, integers and
booleans as their `str()`, datetimes as the canonical formatted text — never
the original scalar itself.  (2) JSON: for non-empty rows forming a
datetime-free JSON document with duplicate-free keys, `dump` then `load`
returns the rows exactly.  (3) JSON: if any cell is a datetime, `dump` raises
`TypeError` and writes nothing. -/
theorem dump_load_roundtrip :
    (∀ (cfg : CSV.Config) (fs : FS) (filename : String) (rows : List Record),
      cfgOK cfg = true → rowsOK rows = true →
      (CSV.dump cfg ⟨[]⟩ fs filename rows).2.2 = Option.none ∧
        CSV.load cfg (CSV.dump cfg ⟨[]⟩ fs filename rows).2.1 filename =
          .ok (rows.map (fun r =>
            r.map (fun kv => (some kv.1, Value.str (renderCell kv.2)))))) ∧
    (∀ (cfg : JSON.Config) (fs : FS) (filename : String) (rows : List Record),
      rows ≠ [] → jsonWF (.list (rows.map .dict)) = true →
      (JSON.dump cfg fs filename rows).2 = Option.none ∧
        JSON.load cfg (JSON.dump cfg fs filename rows).1 filename =
          .ok (.list (rows.map .dict))) ∧
    (∀ (cfg : JSON.Config) (fs : FS) (filename : String) (rows : List Record),
      rows ≠ [] → containsDatetime (.list (rows.map .dict)) = true →
      JSON.dump cfg fs filename rows =
        (fs, some (.typeError "Object of type datetime is not JSON serializable"))) :=
  ⟨csv_dump_load_roundtrip, json_dump_load_roundtrip, json_dump_datetime_raises⟩

/-- C1 (witness): the amended law applied to concrete inputs — a CSV table
with an integer cell, a JSON table with an integer cell, and a JSON table
with a datetime cell. -/
theorem dump_load_roundtrip_witness :
    ((CSV.dump CSV.defaultConfig ⟨[]⟩ [] "t" [[("a", Value.int 1)]]).2.2 =
        Option.none ∧
      CSV.load CSV.defaultConfig
          (CSV.dump CSV.defaultConfig ⟨[]⟩ [] "t" [[("a", Value.int 1)]]).2.1 "t" =
        .ok ([[("a", Value.int 1)]].map (fun r =>
          r.map (fun kv => (some kv.1, Value.str (renderCell kv.2)))))) ∧
    ((JSON.dump ⟨Option.none⟩ [] "t" [[("a", Value.int 1)]]).2 = Option.none ∧
      JSON.load ⟨Option.none⟩
          (JSON.dump ⟨Option.none⟩ [] "t" [[("a", Value.int 1)]]).1 "t" =
        .ok (.list ([[("a", Value.int 1)]].map .dict))) ∧
    (JSON.dump ⟨Option.none⟩ [] "t"
        [[("d", Value.datetime ⟨2024, 1, 2, 3, 4, 5⟩)]] =
      ([], some (.typeError "Object of type datetime is not JSON serializable"))) :=
  ⟨dump_load_roundtrip.1 CSV.defaultConfig [] "t" [[("a", Value.int 1)]]
      (by decide) (by decide),
    dump_load_roundtrip.2.1 ⟨Option.none⟩ [] "t" [[("a", Value.int 1)]]
      (List.cons_ne_nil _ _) (by decide),
    dump_load_roundtrip.2.2 ⟨Option.none⟩ [] "t"
      [[("d", Value.datetime ⟨2024, 1, 2, 3, 4, 5⟩)]]
      (List.cons_ne_nil _ _) (by decide)⟩
